import Mathlib

/-!
# Link crawler: crawl engine, link collectors, result writers and the pipeline

A shallow embedding of `internal/crawler` (`link.go`, `error.go`, `link_http.go`), of
`internal/collector` (`link_html.go`, `link_json.go`, `link_text.go`) and of
`internal/app/cli` (`app.go`, `writer.go`, `publisher.go`).

Conventions of the embedding.

* A Go `string` is a sequence of bytes.  It is embedded as a Lean `String` whose
  characters stand for the bytes; every concrete input evaluated below is ASCII.
* A Go `error` is embedded as a value of `GoError`, which keeps the dynamic type of
  the error, its payload and the error it wraps.
* `sortLinks`, `parseURL` and `doCrawl` call into the Go standard library
  (`net/url`, `fmt`).  The embedding takes these functions through a `Stdlib`
  record, so that the properties that do not depend on how `url.Parse` works are
  proved for every implementation; `goStdlib` is the record filled with the model
  of `net/url` (go1.19) given in the namespaces `strings` and `url`.
* The collectors read their input through `golang.org/x/net/html`, `encoding/json`,
  `bufio` and `regexp`.  They are embedded from the tokens and lines these packages
  deliver, followed by the error the input ends with; `FindAllString` is a parameter,
  and the pattern of the links is given as a syntax tree with the texts it matches.
* Goroutines and channels are embedded as transition systems: a state holds the place
  each goroutine is at and the content of the channels, an action is one step of one
  goroutine, and a property of every run is proved for every schedule of actions.
-/

set_option autoImplicit false

/-! ## Go errors -/

/-- Embedding of the Go `error` values this package creates or inspects. -/
inductive GoError where
  /-- A value `crawler.Error(s)` (`error.go`). -/
  | crawlerError (s : String)
  /-- A leaf error with a fixed message (`errors.New`, `fmt.Errorf` without `%w`). -/
  | errorString (s : String)
  /-- The sentinel `context.Canceled`. -/
  | contextCanceled
  /-- The sentinel `context.DeadlineExceeded`. -/
  | deadlineExceeded
  /-- The result of `fmt.Errorf` with one `%w` verb: the formatted message and the wrapped error. -/
  | wrapError (msg : String) (err : GoError)
  /-- A value `&url.Error{Op, URL, Err}`. -/
  | urlError (Op URL : String) (Err : GoError)
  /-- A value `url.EscapeError(s)`. -/
  | escapeError (s : String)
  /-- A value `url.InvalidHostError(s)`. -/
  | invalidHostError (s : String)
deriving DecidableEq

namespace GoError

/-- The method `Error()`: the message of an error.  `quote` is `strconv.Quote`. -/
def Error (quote : String → String) : GoError → String
  | crawlerError s => s
  | errorString s => s
  | contextCanceled => "context canceled"
  | deadlineExceeded => "context deadline exceeded"
  | wrapError msg _ => msg
  | urlError op u err => op ++ " " ++ quote u ++ ": " ++ Error quote err
  | escapeError s => "invalid URL escape " ++ quote s
  | invalidHostError s => "invalid character " ++ quote s ++ " in host name"

/-- The method `Unwrap()`, where the dynamic type has one. -/
def Unwrap : GoError → Option GoError
  | wrapError _ err => some err
  | urlError _ _ err => some err
  | _ => none

/-- The function `errors.Is(err, target)` for a comparable `target` without an `Is` method. -/
def Is : GoError → GoError → Bool
  | wrapError msg err, target => decide (wrapError msg err = target) || Is err target
  | urlError op u err, target => decide (urlError op u err = target) || Is err target
  | e, target => decide (e = target)

end GoError

/-! ## Package `strings` (the functions `net/url` uses) -/

namespace strings

/-- The slice expression `s[i:]`. -/
def sliceFrom (s : String) (i : Nat) : String := ⟨s.data.drop i⟩

/-- The slice expression `s[:j]`. -/
def sliceTo (s : String) (j : Nat) : String := ⟨s.data.take j⟩

/-- The slice expression `s[i:j]`. -/
def slice (s : String) (i j : Nat) : String := ⟨(s.data.take j).drop i⟩

/-- The builtin `len(s)`. -/
def len (s : String) : Nat := s.data.length

/-- Index of the first occurrence of `sub` in a byte list. -/
def indexL (sub : List Char) : List Char → Option Nat
  | [] => if sub.isEmpty then some 0 else none
  | c :: cs => if sub.isPrefixOf (c :: cs) then some 0 else (indexL sub cs).map (· + 1)

/-- Index of the last occurrence of `sub` in a byte list. -/
def lastIndexL (sub : List Char) : List Char → Option Nat
  | [] => if sub.isEmpty then some 0 else none
  | c :: cs =>
    match lastIndexL sub cs with
    | some i => some (i + 1)
    | none => if sub.isPrefixOf (c :: cs) then some 0 else none

/-- The function `strings.Index`; `none` stands for `-1`. -/
def Index (s substr : String) : Option Nat := indexL substr.data s.data

/-- The function `strings.LastIndex`; `none` stands for `-1`. -/
def LastIndex (s substr : String) : Option Nat := lastIndexL substr.data s.data

/-- The function `strings.Contains`. -/
def Contains (s substr : String) : Bool := (Index s substr).isSome

/-- The function `strings.HasPrefix`. -/
def HasPrefix (s pre : String) : Bool := pre.data.isPrefixOf s.data

/-- The function `strings.HasSuffix`. -/
def HasSuffix (s suf : String) : Bool := suf.data.reverse.isPrefixOf s.data.reverse

/-- The function `strings.Count` for a separator of one byte. -/
def Count (s : String) (c : Char) : Nat := s.data.count c

/-- The function `strings.Cut`. -/
def Cut (s sep : String) : String × String × Bool :=
  match Index s sep with
  | some i => (sliceTo s i, sliceFrom s (i + len sep), true)
  | none => (s, "", false)

/-- Lower-casing of one ASCII byte. -/
def lowerByte (c : Char) : Char :=
  if 'A' ≤ c ∧ c ≤ 'Z' then Char.ofNat (c.toNat + 32) else c

/-- The function `strings.ToLower` on ASCII text (its only argument here is a scheme,
which `getScheme` restricts to ASCII letters, digits, `+`, `-` and `.`). -/
def ToLower (s : String) : String := ⟨s.data.map lowerByte⟩

end strings

/-! ## Package `net/url` (go1.19): `Parse`, `ResolveReference`, `String` -/

/-- The type `url.Userinfo`. -/
structure Userinfo where
  username : String
  password : String
  passwordSet : Bool
deriving DecidableEq

/-- The type `url.URL`. -/
structure URL where
  Scheme : String
  Opaque : String
  User : Option Userinfo
  Host : String
  Path : String
  RawPath : String
  OmitHost : Bool
  ForceQuery : Bool
  RawQuery : String
  Fragment : String
  RawFragment : String
deriving DecidableEq

namespace url

/-- The zero value `URL{}` (what `new(URL)` points to). -/
def zero : URL :=
  { Scheme := "", Opaque := "", User := none, Host := "", Path := "", RawPath := "",
    OmitHost := false, ForceQuery := false, RawQuery := "", Fragment := "", RawFragment := "" }

/-- The type `encoding` of `net/url`. -/
inductive encoding where
  | encodePath
  | encodePathSegment
  | encodeHost
  | encodeZone
  | encodeUserPassword
  | encodeQueryComponent
  | encodeFragment
deriving DecidableEq

open encoding

/-- Function `ishex`. -/
def ishex (c : Char) : Bool :=
  ('0' ≤ c ∧ c ≤ '9') || ('a' ≤ c ∧ c ≤ 'f') || ('A' ≤ c ∧ c ≤ 'F')

/-- Function `unhex`. -/
def unhex (c : Char) : Nat :=
  if '0' ≤ c ∧ c ≤ '9' then c.toNat - '0'.toNat
  else if 'a' ≤ c ∧ c ≤ 'f' then c.toNat - 'a'.toNat + 10
  else if 'A' ≤ c ∧ c ≤ 'F' then c.toNat - 'A'.toNat + 10
  else 0

/-- The byte `unhex(a)<<4 | unhex(b)`. -/
def unhexPair (a b : Char) : Char := Char.ofNat (unhex a * 16 + unhex b)

/-- The single quote, which `shouldEscape` and `validEncoded` list among the sub-delims. -/
def squote : Char := Char.ofNat 39

/-- Function `shouldEscape`. -/
def shouldEscape (c : Char) (mode : encoding) : Bool :=
  if ('a' ≤ c ∧ c ≤ 'z') ∨ ('A' ≤ c ∧ c ≤ 'Z') ∨ ('0' ≤ c ∧ c ≤ '9') then false
  else if (mode = encodeHost ∨ mode = encodeZone) ∧
      c ∈ ['!', '$', '&', squote, '(', ')', '*', '+', ',', ';', '=', ':', '[', ']', '<', '>', '"'] then
    false
  else if c ∈ ['-', '_', '.', '~'] then false
  else if c ∈ ['$', '&', '+', ',', '/', ':', ';', '=', '?', '@'] ∧ mode = encodePath then
    c = '?'
  else if c ∈ ['$', '&', '+', ',', '/', ':', ';', '=', '?', '@'] ∧ mode = encodePathSegment then
    c = '/' ∨ c = ';' ∨ c = ',' ∨ c = '?'
  else if c ∈ ['$', '&', '+', ',', '/', ':', ';', '=', '?', '@'] ∧ mode = encodeUserPassword then
    c = '@' ∨ c = '/' ∨ c = '?' ∨ c = ':'
  else if c ∈ ['$', '&', '+', ',', '/', ':', ';', '=', '?', '@'] ∧ mode = encodeQueryComponent then
    true
  else if c ∈ ['$', '&', '+', ',', '/', ':', ';', '=', '?', '@'] ∧ mode = encodeFragment then
    false
  else if mode = encodeFragment ∧ c ∈ ['!', '(', ')', '*'] then false
  else true

/-- First loop of `unescape`: checks the `%` escapes and the host bytes; returns the error, if
any, together with whether a `%` or (in query mode) a `+` was seen. -/
def unescapeCheck (mode : encoding) : List Char → Except GoError Bool
  | [] => .ok false
  | '%' :: a :: b :: rest =>
    if !ishex a || !ishex b then .error (.escapeError ⟨['%', a, b]⟩)
    else if mode = encodeHost ∧ unhex a < 8 ∧ ['%', a, b] ≠ ['%', '2', '5'] then
      .error (.escapeError ⟨['%', a, b]⟩)
    else if mode = encodeZone ∧ ['%', a, b] ≠ ['%', '2', '5'] ∧ unhexPair a b ≠ ' ' ∧
        shouldEscape (unhexPair a b) encodeHost then
      .error (.escapeError ⟨['%', a, b]⟩)
    else (unescapeCheck mode rest).map fun _ => true
  | '%' :: rest => .error (.escapeError ⟨'%' :: rest⟩)
  | c :: rest =>
    if c ≠ '+' ∧ (mode = encodeHost ∨ mode = encodeZone) ∧ c.toNat < 128 ∧
        shouldEscape c encodeHost then
      .error (.invalidHostError ⟨[c]⟩)
    else
      (unescapeCheck mode rest).map fun seen =>
        seen || (c = '+' && mode = encodeQueryComponent)

/-- Second loop of `unescape`: decodes the escapes. -/
def unescapeBuild (mode : encoding) : List Char → List Char
  | [] => []
  | '%' :: a :: b :: rest => unhexPair a b :: unescapeBuild mode rest
  | c :: rest =>
    (if c = '+' ∧ mode = encodeQueryComponent then ' ' else c) :: unescapeBuild mode rest

/-- Function `unescape`. -/
def unescape (s : String) (mode : encoding) : Except GoError String :=
  match unescapeCheck mode s.data with
  | .error e => .error e
  | .ok false => .ok s
  | .ok true => .ok ⟨unescapeBuild mode s.data⟩

/-- The byte `"0123456789ABCDEF"[n]`. -/
def upperhex (n : Nat) : Char :=
  if n < 10 then Char.ofNat ('0'.toNat + n) else Char.ofNat ('A'.toNat + (n - 10))

/-- Loop body of `escape`: the bytes written for one input byte. -/
def escapeByte (mode : encoding) (c : Char) : List Char :=
  if c = ' ' ∧ mode = encodeQueryComponent then ['+']
  else if shouldEscape c mode then ['%', upperhex (c.toNat / 16 % 16), upperhex (c.toNat % 16)]
  else [c]

/-- Function `escape`. -/
def escape (s : String) (mode : encoding) : String :=
  ⟨(s.data.map (escapeByte mode)).flatten⟩

/-- Function `stringContainsCTLByte`. -/
def stringContainsCTLByte (s : String) : Bool :=
  s.data.any fun b => b.toNat < ' '.toNat || b.toNat = 127

/-- Loop of `getScheme`, at index `i` with `rest = rawURL[i:]`. -/
def getSchemeLoop (rawURL : String) : Nat → List Char → Except GoError (String × String)
  | _, [] => .ok ("", rawURL)
  | i, c :: rest =>
    if ('a' ≤ c ∧ c ≤ 'z') ∨ ('A' ≤ c ∧ c ≤ 'Z') then getSchemeLoop rawURL (i + 1) rest
    else if ('0' ≤ c ∧ c ≤ '9') ∨ c = '+' ∨ c = '-' ∨ c = '.' then
      if i = 0 then .ok ("", rawURL) else getSchemeLoop rawURL (i + 1) rest
    else if c = ':' then
      if i = 0 then .error (.errorString "missing protocol scheme")
      else .ok (strings.sliceTo rawURL i, strings.sliceFrom rawURL (i + 1))
    else .ok ("", rawURL)

/-- Function `getScheme`. -/
def getScheme (rawURL : String) : Except GoError (String × String) :=
  getSchemeLoop rawURL 0 rawURL.data

/-- Function `validOptionalPort`. -/
def validOptionalPort (port : String) : Bool :=
  match port.data with
  | [] => true
  | c :: rest => c = ':' && rest.all fun b => !(b.toNat < '0'.toNat || b.toNat > '9'.toNat)

/-- Function `parseHost`. -/
def parseHost (quote : String → String) (host : String) : Except GoError String :=
  if strings.HasPrefix host "[" then
    match strings.LastIndex host "]" with
    | none => .error (.errorString "missing ']' in host")
    | some i =>
      if !validOptionalPort (strings.sliceFrom host (i + 1)) then
        .error (.errorString
          ("invalid port " ++ quote (strings.sliceFrom host (i + 1)) ++ " after host"))
      else
        match strings.Index (strings.sliceTo host i) "%25" with
        | some zone => do
          let host1 ← unescape (strings.sliceTo host zone) encodeHost
          let host2 ← unescape (strings.slice host zone i) encodeZone
          let host3 ← unescape (strings.sliceFrom host i) encodeHost
          pure (host1 ++ host2 ++ host3)
        | none => unescape host encodeHost
  else
    match strings.LastIndex host ":" with
    | some i =>
      if !validOptionalPort (strings.sliceFrom host i) then
        .error (.errorString
          ("invalid port " ++ quote (strings.sliceFrom host i) ++ " after host"))
      else unescape host encodeHost
    | none => unescape host encodeHost

/-- Function `validUserinfo`. -/
def validUserinfo (s : String) : Bool :=
  s.data.all fun r =>
    ('A' ≤ r ∧ r ≤ 'Z') || ('a' ≤ r ∧ r ≤ 'z') || ('0' ≤ r ∧ r ≤ '9') ||
      decide (r ∈ ['-', '.', '_', ':', '~', '!', '$', '&', squote, '(', ')', '*', '+', ',', ';',
        '=', '%', '@'])

/-- Function `parseAuthority`. -/
def parseAuthority (quote : String → String) (authority : String) :
    Except GoError (Option Userinfo × String) :=
  match strings.LastIndex authority "@" with
  | none => do
    let host ← parseHost quote authority
    pure (none, host)
  | some i => do
    let host ← parseHost quote (strings.sliceFrom authority (i + 1))
    let userinfo := strings.sliceTo authority i
    if !validUserinfo userinfo then
      .error (.errorString "net/url: invalid userinfo")
    else if !strings.Contains userinfo ":" then do
      let userinfo ← unescape userinfo encodeUserPassword
      pure (some { username := userinfo, password := "", passwordSet := false }, host)
    else do
      let username ← unescape (strings.Cut userinfo ":").1 encodeUserPassword
      let password ← unescape (strings.Cut userinfo ":").2.1 encodeUserPassword
      pure (some { username := username, password := password, passwordSet := true }, host)

/-- Method `(*URL).setPath`. -/
def setPath (u : URL) (p : String) : Except GoError URL :=
  match unescape p encodePath with
  | .error err => .error err
  | .ok path =>
    if p = escape path encodePath then .ok { u with Path := path, RawPath := "" }
    else .ok { u with Path := path, RawPath := p }

/-- Method `(*URL).setFragment`. -/
def setFragment (u : URL) (f : String) : Except GoError URL :=
  match unescape f encodeFragment with
  | .error err => .error err
  | .ok frag =>
    if f = escape frag encodeFragment then .ok { u with Fragment := frag, RawFragment := "" }
    else .ok { u with Fragment := frag, RawFragment := f }

/-- The part of `parse` after the query has been split off: `url` holds the scheme and the
query, `rest` is what remains to be parsed. -/
def parseRest (quote : String → String) (viaRequest : Bool) (url : URL) (rest : String) :
    Except GoError URL :=
  if !strings.HasPrefix rest "/" ∧ url.Scheme ≠ "" then
    .ok { url with Opaque := rest }
  else if !strings.HasPrefix rest "/" ∧ viaRequest then
    .error (.errorString "invalid URI for request")
  else if !strings.HasPrefix rest "/" ∧ strings.Contains (strings.Cut rest "/").1 ":" then
    .error (.errorString "first path segment in URL cannot contain colon")
  else if (url.Scheme ≠ "" ∨ (!viaRequest ∧ !strings.HasPrefix rest "///")) ∧
      strings.HasPrefix rest "//" then
    -- `authority` is `rest[2:]`, cut at its first `/` when it has one
    match strings.Index (strings.sliceFrom rest 2) "/" with
    | some i =>
      match parseAuthority quote (strings.sliceTo (strings.sliceFrom rest 2) i) with
      | .error err => .error err
      | .ok (user, host) =>
        setPath { url with User := user, Host := host }
          (strings.sliceFrom (strings.sliceFrom rest 2) i)
    | none =>
      match parseAuthority quote (strings.sliceFrom rest 2) with
      | .error err => .error err
      | .ok (user, host) => setPath { url with User := user, Host := host } ""
  else if url.Scheme ≠ "" ∧ strings.HasPrefix rest "/" then
    setPath { url with OmitHost := true } rest
  else setPath url rest

/-- Function `parse`. -/
def parse (quote : String → String) (rawURL : String) (viaRequest : Bool) : Except GoError URL :=
  if stringContainsCTLByte rawURL then
    .error (.errorString "net/url: invalid control character in URL")
  else if rawURL = "" ∧ viaRequest then .error (.errorString "empty url")
  else if rawURL = "*" then .ok { zero with Path := "*" }
  else
    match getScheme rawURL with
    | .error err => .error err
    | .ok (scheme, rest) =>
      if strings.HasSuffix rest "?" ∧ strings.Count rest '?' = 1 then
        parseRest quote viaRequest
          { zero with Scheme := strings.ToLower scheme, ForceQuery := true }
          (strings.sliceTo rest (strings.len rest - 1))
      else
        parseRest quote viaRequest
          { zero with Scheme := strings.ToLower scheme, RawQuery := (strings.Cut rest "?").2.1 }
          (strings.Cut rest "?").1

/-- Function `url.Parse`. -/
def Parse (quote : String → String) (rawURL : String) : Except GoError URL :=
  match parse quote (strings.Cut rawURL "#").1 false with
  | .error err => .error (.urlError "parse" (strings.Cut rawURL "#").1 err)
  | .ok url =>
    if (strings.Cut rawURL "#").2.1 = "" then .ok url
    else
      match setFragment url (strings.Cut rawURL "#").2.1 with
      | .error err => .error (.urlError "parse" rawURL err)
      | .ok url => .ok url

/-- Function `validEncoded`. -/
def validEncoded (s : String) (mode : encoding) : Bool :=
  s.data.all fun c =>
    decide (c ∈ ['!', '$', '&', squote, '(', ')', '*', '+', ',', ';', '=', ':', '@', '[', ']',
      '%']) || !shouldEscape c mode

/-- The test `p, err := unescape(raw, mode); err == nil && p == decoded`. -/
def unescapesTo (raw : String) (mode : encoding) (decoded : String) : Bool :=
  match unescape raw mode with
  | .ok p => p = decoded
  | .error _ => false

/-- Method `(*URL).EscapedPath`. -/
def EscapedPath (u : URL) : String :=
  if u.RawPath ≠ "" ∧ validEncoded u.RawPath encodePath ∧
      unescapesTo u.RawPath encodePath u.Path then u.RawPath
  else if u.Path = "*" then "*"
  else escape u.Path encodePath

/-- Method `(*URL).EscapedFragment`. -/
def EscapedFragment (u : URL) : String :=
  if u.RawFragment ≠ "" ∧ validEncoded u.RawFragment encodeFragment ∧
      unescapesTo u.RawFragment encodeFragment u.Fragment then u.RawFragment
  else escape u.Fragment encodeFragment

/-- Method `(*Userinfo).String`. -/
def userinfoString (ui : Userinfo) : String :=
  if ui.passwordSet then
    escape ui.username encodeUserPassword ++ ":" ++ escape ui.password encodeUserPassword
  else escape ui.username encodeUserPassword

/-- The authority part written by `(*URL).String`, starting from the buffer `buf`. -/
def stringAuthority (u : URL) (buf : String) : String :=
  if u.Scheme ≠ "" ∨ u.Host ≠ "" ∨ u.User ≠ none then
    if u.OmitHost ∧ u.Host = "" ∧ u.User = none then buf
    else
      buf ++ (if u.Host ≠ "" ∨ u.Path ≠ "" ∨ u.User ≠ none then "//" else "")
        ++ (match u.User with
            | some ui => userinfoString ui ++ "@"
            | none => "")
        ++ (if u.Host ≠ "" then escape u.Host encodeHost else "")
  else buf

/-- The path part written by `(*URL).String`, starting from the buffer `buf`. -/
def stringPath (u : URL) (buf : String) : String :=
  let path := EscapedPath u
  let buf1 := if path ≠ "" ∧ path.data.head? ≠ some '/' ∧ u.Host ≠ "" then buf ++ "/" else buf
  let buf2 :=
    if strings.len buf1 = 0 ∧ strings.Contains (strings.Cut path "/").1 ":" then buf1 ++ "./"
    else buf1
  buf2 ++ path

/-- Method `(*URL).String`. -/
def URLString (u : URL) : String :=
  let buf := if u.Scheme ≠ "" then u.Scheme ++ ":" else ""
  let buf1 := if u.Opaque ≠ "" then buf ++ u.Opaque else stringPath u (stringAuthority u buf)
  let buf2 := if u.ForceQuery ∨ u.RawQuery ≠ "" then buf1 ++ "?" ++ u.RawQuery else buf1
  if u.Fragment ≠ "" then buf2 ++ "#" ++ EscapedFragment u else buf2

/-- The elements that the loop of `resolvePath` cuts off `full` one after the other
(`elem, remaining, found = strings.Cut(remaining, "/")` until nothing is found). -/
def elems : List Char → List (List Char)
  | [] => [[]]
  | c :: cs =>
    if c = '/' then [] :: elems cs
    else
      match elems cs with
      | [] => [[c]]
      | e :: es => (c :: e) :: es

/-- One turn of the loop of `resolvePath` on the state `(dst, first)`. -/
def resolveStep (st : String × Bool) (elem : String) : String × Bool :=
  if elem = "." then (st.1, false)
  else if elem = ".." then
    match strings.LastIndex (strings.sliceFrom st.1 1) "/" with
    | none => ("/", true)
    | some index => ("/" ++ strings.sliceTo (strings.sliceFrom st.1 1) index, st.2)
  else ((if !st.2 then st.1 ++ "/" else st.1) ++ elem, false)

/-- Function `resolvePath`, from the concatenated path `full` on. -/
def resolveFull (full : String) : String :=
  if full = "" then ""
  else
    let es := (elems full.data).map String.mk
    let dst := (es.foldl resolveStep ("/", true)).1
    let dst1 := if es.getLast? = some "." ∨ es.getLast? = some ".." then dst ++ "/" else dst
    if strings.len dst1 > 1 ∧ (dst1.data.drop 1).head? = some '/' then strings.sliceFrom dst1 1
    else dst1

/-- Function `resolvePath`. -/
def resolvePath (base ref : String) : String :=
  if ref = "" then resolveFull base
  else if ref.data.head? ≠ some '/' then
    match strings.LastIndex base "/" with
    | some i => resolveFull (strings.sliceTo base (i + 1) ++ ref)
    | none => resolveFull ref
  else resolveFull ref

/-- The call `url.setPath(p)` whose error is dropped: on an error the URL is left as it was. -/
def setPathIgnore (u : URL) (p : String) : URL :=
  match setPath u p with
  | .ok v => v
  | .error _ => u

/-- Method `(*URL).ResolveReference`. -/
def ResolveReference (u ref : URL) : URL :=
  let url := if ref.Scheme = "" then { ref with Scheme := u.Scheme } else ref
  if ref.Scheme ≠ "" ∨ ref.Host ≠ "" ∨ ref.User ≠ none then
    setPathIgnore url (resolvePath (EscapedPath ref) "")
  else if ref.Opaque ≠ "" then
    { url with User := none, Host := "", Path := "" }
  else
    let url1 :=
      if ref.Path = "" ∧ !ref.ForceQuery ∧ ref.RawQuery = "" then
        if ref.Fragment = "" then
          { url with RawQuery := u.RawQuery, Fragment := u.Fragment, RawFragment := u.RawFragment }
        else { url with RawQuery := u.RawQuery }
      else url
    if ref.Path = "" ∧ u.Opaque ≠ "" then
      { url1 with Opaque := u.Opaque, User := none, Host := "", Path := "" }
    else
      setPathIgnore { url1 with Host := u.Host, User := u.User }
        (resolvePath (EscapedPath u) (EscapedPath ref))

end url

/-! ## The standard-library functions and the network, as seen by the crawler -/

/-- The functions of the Go standard library that `internal/crawler` calls. -/
structure Stdlib where
  /-- Function `url.Parse`. -/
  urlParse : String → Except GoError URL
  /-- Method `(*URL).ResolveReference`, receiver first. -/
  urlResolveReference : URL → URL → URL
  /-- Method `(*URL).String`. -/
  urlString : URL → String
  /-- Function `strconv.Quote`, which formats the verb `%q`. -/
  quote : String → String
  /-- First result of `mime.ParseMediaType` (the media type without its parameters). -/
  parseMediaType : String → String
  /-- Function `http.DetectContentType`. -/
  httpDetectContentType : String → String

/-- The standard library with `net/url` as modelled above; `strconv.Quote`,
`mime.ParseMediaType` and `http.DetectContentType` stay parameters. -/
def goStdlib (quote : String → String) (parseMediaType httpDetectContentType : String → String) :
    Stdlib :=
  { urlParse := url.Parse quote
    urlResolveReference := url.ResolveReference
    urlString := url.URLString
    quote := quote
    parseMediaType := parseMediaType
    httpDetectContentType := httpDetectContentType }

/-- An `io.Reader`: it delivers the bytes `data` and after them `err` (`none` is `io.EOF`). -/
structure Reader where
  data : String
  err : Option GoError

/-- The part of an `http.Response` the crawler reads. -/
structure Response where
  StatusCode : Int
  /-- Value of `resp.Header.Get("Content-Type")`. -/
  ContentType : String
  Body : Reader

/-- The network as the crawler meets it. -/
structure Transport where
  /-- Error of `http.NewRequestWithContext(ctx, http.MethodGet, url, nil)`, if any. -/
  newRequest : String → Option GoError
  /-- Outcome of `c.client.Do(req)` for a GET of the URL with the given user agent and client
  timeout; a cancelled context shows as an error of the transport. -/
  clientDo : String → String → Int → Except GoError Response

namespace GoError

/-- The call `errors.As(err, &uErr)` for `uErr *url.Error`: the first `*url.Error` of the chain. -/
def AsURLError : GoError → Option GoError
  | urlError op u err => some (urlError op u err)
  | wrapError _ err => AsURLError err
  | _ => none

end GoError

/-! ## Package `internal/crawler` -/

namespace crawler

/-- Constant `ErrOperationCanceled` (`link.go`). -/
def ErrOperationCanceled : GoError := .crawlerError "operation canceled"
/-- Constant `ErrMissingHostname`. -/
def ErrMissingHostname : GoError := .crawlerError "missing hostname"
/-- Constant `ErrUnsupportedContentType`. -/
def ErrUnsupportedContentType : GoError := .crawlerError "unsupported content type"
/-- Constant `ErrUnsupportedScheme`. -/
def ErrUnsupportedScheme : GoError := .crawlerError "unsupported scheme"
/-- Constant `ErrUnexpectedStatusCode`. -/
def ErrUnexpectedStatusCode : GoError := .crawlerError "unexpected status code"

/-- Constant `defaultNumWorkers`. -/
def defaultNumWorkers : Int := 10
/-- Constant `maxNumWorkers`. -/
def maxNumWorkers : Int := 24
/-- Constant `defaultTimeout`, `30 * time.Second` in nanoseconds. -/
def defaultTimeout : Int := 30 * 1000000000
/-- Constant `sniffLen`. -/
def sniffLen : Nat := 512
/-- Constant `defaultUserAgent`. -/
def defaultUserAgent : String :=
  "Mozilla/5.0 (Windows NT 10.0; Win64; x64) AppleWebKit/537.36 (KHTML, like Gecko) Chrome/99.0.4844.51 Safari/537.36"

/-- The type `LinkCrawlerResult`; `Error = none` is the `nil` error. -/
structure LinkCrawlerResult where
  Source : String
  InternalLinks : List String
  ExternalLinks : List String
  Error : Option GoError

/-- The method `GetLinks` of a `collector.LinkCollector`. -/
abbrev LinkCollector := Reader → Except GoError (List String)

/-- The type `HTTPLinkCrawler`.  The logger is left out: it is written to and never read.
`clientTimeout` is `client.Timeout`; `collectors` is the map from media type to collector. -/
structure HTTPLinkCrawler where
  clientTimeout : Int
  collectors : String → Option LinkCollector
  numWorkers : Int
  userAgent : String

/-- Function `parseURL`. -/
def parseURL (L : Stdlib) (s : String) : Except GoError URL :=
  let s := if !strings.Contains s "://" then "https://" ++ s else s
  match L.urlParse s with
  | .error err => .error err
  | .ok u =>
    if u.Host = "" then
      .error (.wrapError ("parse " ++ L.quote s ++ ": " ++ ErrMissingHostname.Error L.quote)
        ErrMissingHostname)
    else if u.Scheme ≠ "http" ∧ u.Scheme ≠ "https" then
      .error (.wrapError
        ("parse " ++ L.quote s ++ ": " ++ ErrUnsupportedScheme.Error L.quote ++ " "
          ++ L.quote u.Scheme)
        ErrUnsupportedScheme)
    else .ok u

/-- Body of the loop of `sortLinks`, on the pair `(internalLinks, externalLinks)`. -/
def sortLinksStep (L : Stdlib) (source : URL) (acc : List String × List String)
    (link : String) : List String × List String :=
  match L.urlParse link with
  | .error _ => acc
  | .ok linkURL =>
    if linkURL.Scheme ≠ "" ∧ linkURL.Scheme ≠ "http" ∧ linkURL.Scheme ≠ "https" then acc
    else if linkURL.Host ≠ "" ∧ linkURL.Host ≠ source.Host then (acc.1, acc.2 ++ [link])
    else (acc.1 ++ [L.urlString (L.urlResolveReference source linkURL)], acc.2)

/-- Method `HTTPLinkCrawler.sortLinks`: the pair `(internalLinks, externalLinks)`. -/
def sortLinks (L : Stdlib) (source : URL) (links : List String) : List String × List String :=
  links.foldl (sortLinksStep L source) ([], [])

/-- Method `HTTPLinkCrawler.doRequest`. -/
def doRequest (L : Stdlib) (N : Transport) (c : HTTPLinkCrawler) (sourceURL : URL) :
    Except GoError Response :=
  match N.newRequest (L.urlString sourceURL) with
  | some err => .error (.wrapError ("failed to create request: " ++ err.Error L.quote) err)
  | none =>
    match N.clientDo (L.urlString sourceURL) c.userAgent c.clientTimeout with
    | .error err =>
      .error (.wrapError ("failed to send http request: " ++ err.Error L.quote) err)
    | .ok resp =>
      if resp.StatusCode ≠ 200 ∧ resp.StatusCode ≠ 204 then
        .error (.wrapError
          (ErrUnexpectedStatusCode.Error L.quote ++ ": " ++ toString resp.StatusCode)
          ErrUnexpectedStatusCode)
      else .ok resp

/-- The call `io.ReadAll(io.LimitReader(r, n))`: the bytes read, or the error of the reader
when it comes before `n` bytes were delivered. -/
def readAllLimit (r : Reader) (n : Nat) : Except GoError String :=
  match r.err with
  | some err => if strings.len r.data < n then .error err else .ok (strings.sliceTo r.data n)
  | none => .ok (strings.sliceTo r.data n)

/-- The reader `r` after `n` of its bytes were read. -/
def advance (r : Reader) (n : Nat) : Reader :=
  { r with data := strings.sliceFrom r.data n }

/-- The reader `io.MultiReader(bytes.NewReader(sniff), r)`. -/
def multiReader (sniff : String) (r : Reader) : Reader :=
  { r with data := sniff ++ r.data }

/-- Method `HTTPLinkCrawler.detectContentType`: the content type, and the response with the
body as the function leaves it. -/
def detectContentType (L : Stdlib) (resp : Response) : Except GoError (String × Response) :=
  let contentType :=
    if resp.ContentType ≠ "" then L.parseMediaType resp.ContentType else resp.ContentType
  if contentType ≠ "" ∧ contentType ≠ "application/octet-stream" then .ok (contentType, resp)
  else
    match readAllLimit resp.Body sniffLen with
    | .error err =>
      .error (.wrapError ("failed to detect content type: " ++ err.Error L.quote) err)
    | .ok sniff =>
      .ok (L.parseMediaType (L.httpDetectContentType sniff),
        { resp with Body := multiReader sniff (advance resp.Body (strings.len sniff)) })

/-- Method `HTTPLinkCrawler.collectLinks`. -/
def collectLinks (L : Stdlib) (c : HTTPLinkCrawler) (resp : Response) :
    Except GoError (List String) :=
  match detectContentType L resp with
  | .error err => .error err
  | .ok (contentType, resp) =>
    match c.collectors contentType with
    | none =>
      .error (.wrapError (ErrUnsupportedContentType.Error L.quote ++ ": " ++ contentType)
        ErrUnsupportedContentType)
    | some linkCollector =>
      match linkCollector resp.Body with
      | .error err => .error (.wrapError ("failed to get links: " ++ err.Error L.quote) err)
      | .ok links => .ok links

/-- The test `errors.As(err, &uErr) && errors.Is(uErr.Err, context.Canceled)` of `doCrawl`. -/
def isCanceled (err : GoError) : Bool :=
  match err.AsURLError with
  | some (.urlError _ _ inner) => inner.Is .contextCanceled
  | _ => false

/-- Method `HTTPLinkCrawler.doCrawl`. -/
def doCrawl (L : Stdlib) (N : Transport) (c : HTTPLinkCrawler) (source : String) :
    LinkCrawlerResult :=
  match parseURL L source with
  | .error err =>
    { Source := source, InternalLinks := [], ExternalLinks := [], Error := some err }
  | .ok sourceURL =>
    match doRequest L N c sourceURL with
    | .error err =>
      { Source := source, InternalLinks := [], ExternalLinks := [],
        Error := some (if isCanceled err then ErrOperationCanceled else err) }
    | .ok resp =>
      match collectLinks L c resp with
      | .error err =>
        { Source := source, InternalLinks := [], ExternalLinks := [], Error := some err }
      | .ok links =>
        { Source := source, InternalLinks := (sortLinks L sourceURL links).1,
          ExternalLinks := (sortLinks L sourceURL links).2, Error := none }

/-- The type `HTTPLinkCrawlerOption`: what `applyHTTPLinkCounterOption` does to the crawler. -/
abbrev HTTPLinkCrawlerOption := HTTPLinkCrawler → HTTPLinkCrawler

/-- Function `WithNumWorkers`. -/
def WithNumWorkers (numWorkers : Int) : HTTPLinkCrawlerOption :=
  fun c => { c with numWorkers := numWorkers }

/-- Function `WithClientTimeout`. -/
def WithClientTimeout (d : Int) : HTTPLinkCrawlerOption :=
  fun c => { c with clientTimeout := d }

/-- Function `WithLinkCollectors`. -/
def WithLinkCollectors (collectors : String → Option LinkCollector) : HTTPLinkCrawlerOption :=
  fun c => { c with collectors := collectors }

/-- Function `WithLinkCollector`. -/
def WithLinkCollector (collector : LinkCollector) (contentTypes : List String) :
    HTTPLinkCrawlerOption :=
  fun c =>
    contentTypes.foldl
      (fun c contentType =>
        { c with
          collectors := fun k => if k = contentType then some collector else c.collectors k })
      c

/-- Function `NewHTTPLinkCrawler`. -/
def NewHTTPLinkCrawler (opts : List HTTPLinkCrawlerOption) : HTTPLinkCrawler :=
  let c : HTTPLinkCrawler :=
    { clientTimeout := 0, collectors := fun _ => none, numWorkers := defaultNumWorkers,
      userAgent := defaultUserAgent }
  let c := opts.foldl (fun c opt => opt c) c
  let c :=
    if c.numWorkers < 1 then { c with numWorkers := defaultNumWorkers }
    else if c.numWorkers > maxNumWorkers then { c with numWorkers := maxNumWorkers }
    else c
  if c.clientTimeout = 0 then { c with clientTimeout := defaultTimeout } else c

end crawler

/-! ## Link classification (`sortLinks`) -/

namespace crawler

/-- A link that `sortLinks` skips: it does not parse, or its scheme is not empty, `http` or
`https`. -/
def skipped (L : Stdlib) (link : String) : Bool :=
  match L.urlParse link with
  | .error _ => true
  | .ok u => decide (u.Scheme ≠ "" ∧ u.Scheme ≠ "http" ∧ u.Scheme ≠ "https")

/-- A link that parses, has an empty, `http` or `https` scheme, and a non-empty host other than
the host of `source`. -/
def external (L : Stdlib) (source : URL) (link : String) : Bool :=
  match L.urlParse link with
  | .error _ => false
  | .ok u =>
    decide ((u.Scheme = "" ∨ u.Scheme = "http" ∨ u.Scheme = "https") ∧
      u.Host ≠ "" ∧ u.Host ≠ source.Host)

/-- What one link adds to the internal bucket. -/
def internalEntry (L : Stdlib) (source : URL) (link : String) : List String :=
  (sortLinks L source [link]).1

/-- What one link adds to the external bucket. -/
def externalEntry (L : Stdlib) (source : URL) (link : String) : List String :=
  (sortLinks L source [link]).2

end crawler

/-! ## Package `strings`, continued, and package `encoding/json` -/

namespace strings

/-- The function `strings.Join`. -/
def Join : List String → String → String
  | [], _ => ""
  | [a], _ => a
  | a :: b :: rest, sep => a ++ sep ++ Join (b :: rest) sep

/-- The function `strings.Repeat`. -/
def Repeat (s : String) : Nat → String
  | 0 => ""
  | n + 1 => s ++ Repeat s n

/-- The function `strings.Trim`: `s` without its leading and trailing bytes that are in
`cutset`. -/
def Trim (s cutset : String) : String :=
  ⟨((s.data.dropWhile fun c => cutset.data.contains c).reverse.dropWhile
      fun c => cutset.data.contains c).reverse⟩

end strings

namespace json

/-- The JSON values a field of `crawlerResult` encodes to. -/
inductive Scalar where
  | null
  | bool (b : Bool)
  | number (n : Int)
  | string (s : String)
deriving DecidableEq

/-- A struct as `encoding/json` sees it: the JSON names of its fields, in the order of
declaration, with their values. -/
abbrev Object := List (String × Scalar)

/-- Compact encoding of a scalar.  `jsonString` is the encoding of a Go string as a JSON string
(quotes included, with the escapes of an `Encoder`, which escapes HTML by default). -/
def marshalScalar (jsonString : String → String) : Scalar → String
  | .null => "null"
  | .bool true => "true"
  | .bool false => "false"
  | .number n => toString n
  | .string s => jsonString s

/-- Compact encoding of a struct. -/
def marshalObject (jsonString : String → String) (o : Object) : String :=
  "\x7b" ++ strings.Join (o.map fun kv => "\"" ++ kv.1 ++ "\":" ++ marshalScalar jsonString kv.2) ","
    ++ "\x7d"

/-- Compact encoding of a slice of structs; `none` is the `nil` slice. -/
def marshalSlice (jsonString : String → String) : Option (List Object) → String
  | none => "null"
  | some xs => "[" ++ strings.Join (xs.map (marshalObject jsonString)) "," ++ "]"

/-- The line break that `json.Indent` writes at nesting `depth`: a newline, the prefix and
`depth` copies of the indent. -/
def newline (pre indent : String) (depth : Nat) : String :=
  "\n" ++ pre ++ strings.Repeat indent depth

/-- What `json.Indent` makes of the compact encoding of a struct that stands at nesting
`depth`. -/
def indentObject (jsonString : String → String) (pre indent : String) (depth : Nat)
    (o : Object) : String :=
  if o = [] then "\x7b\x7d"
  else
    "\x7b" ++ newline pre indent (depth + 1)
      ++ strings.Join (o.map fun kv => "\"" ++ kv.1 ++ "\": " ++ marshalScalar jsonString kv.2)
        ("," ++ newline pre indent (depth + 1))
      ++ newline pre indent depth ++ "\x7d"

/-- What `json.Indent` makes of the compact encoding of a slice of structs. -/
def indentSlice (jsonString : String → String) (pre indent : String) :
    Option (List Object) → String
  | none => "null"
  | some [] => "[]"
  | some (x :: xs) =>
    "[" ++ newline pre indent 1
      ++ strings.Join ((x :: xs).map (indentObject jsonString pre indent 1))
        ("," ++ newline pre indent 1)
      ++ newline pre indent 0 ++ "]"

/-- The type `json.Encoder`, as far as `SetIndent` configures it. -/
structure Encoder where
  indentPrefix : String
  indentValue : String

/-- Function `json.NewEncoder`. -/
def NewEncoder : Encoder := { indentPrefix := "", indentValue := "" }

/-- Method `(*Encoder).SetIndent`. -/
def Encoder.SetIndent (_ : Encoder) (pre indent : String) : Encoder :=
  { indentPrefix := pre, indentValue := indent }

/-- The bytes that `(*Encoder).Encode` hands to its writer for a struct: the encoding,
indented when a prefix or an indent is set, and a newline. -/
def Encoder.encodeObject (enc : Encoder) (jsonString : String → String) (o : Object) : String :=
  if enc.indentPrefix ≠ "" ∨ enc.indentValue ≠ "" then
    indentObject jsonString enc.indentPrefix enc.indentValue 0 o ++ "\n"
  else marshalObject jsonString o ++ "\n"

/-- The bytes that `(*Encoder).Encode` hands to its writer for a slice of structs. -/
def Encoder.encodeSlice (enc : Encoder) (jsonString : String → String)
    (xs : Option (List Object)) : String :=
  if enc.indentPrefix ≠ "" ∨ enc.indentValue ≠ "" then
    indentSlice jsonString enc.indentPrefix enc.indentValue xs ++ "\n"
  else marshalSlice jsonString xs ++ "\n"

end json

/-! ## Package `internal/app/cli` -/

/-- An `io.Writer`, with the calls of `Write` made on it. -/
structure OutWriter where
  /-- The error of a call `Write(p)`, if any, given the bytes of the calls made before. -/
  fails : List String → String → Option GoError
  /-- The bytes of every call made so far, oldest first, failed calls included. -/
  calls : List String

/-- A call `w.Write(p)` (one call of `fmt.Fprint`, `fmt.Fprintf` or `Encode` makes one):
the writer afterwards and the error of the call. -/
def OutWriter.Write (w : OutWriter) (p : String) : OutWriter × Option GoError :=
  ({ w with calls := w.calls ++ [p] }, w.fails w.calls p)

namespace cli

/-- The type `ExitCode` with its constants, in the order of their `iota` values 0 to 6. -/
inductive ExitCode where
  | CodeOK
  | CodeErrOperationCanceled
  | CodeErrNoInputSource
  | CodeErrOpenInputSource
  | CodeErrUnsupportedInputSource
  | CodeErrBadArgs
  | CodeErrOutput
deriving DecidableEq

open ExitCode

/-- Constant `maxNumWorkers` of package `cli`. -/
def maxNumWorkers : Int := 24

/-- Constant `jsonIndent`. -/
def jsonIndent : String := "  "

/-- Constant `VerbosityLevelSilent`. -/
def VerbosityLevelSilent : Nat := 0

/-- The type `Config`, without its two writers. -/
structure Config where
  NumWorkers : Int
  Timeout : Int
  PrettyOutput : Bool
  VerbosityLevel : Nat

/-- The type `crawlerResult`; `Error = none` is the `nil` pointer. -/
structure crawlerResult where
  PageURL : String
  NumInternalLinks : Int
  NumExternalLinks : Int
  Success : Bool
  Error : Option String
deriving DecidableEq

/-- The struct `crawlerResult` as `encoding/json` sees it, with the names of its tags. -/
def crawlerResult.toObject (r : crawlerResult) : json.Object :=
  [("page_url", .string r.PageURL),
   ("internal_links_num", .number r.NumInternalLinks),
   ("external_links_num", .number r.NumExternalLinks),
   ("success", .bool r.Success),
   ("error", match r.Error with
             | none => .null
             | some s => .string s)]

/-- Function `toCrawlerResult`. -/
def toCrawlerResult (quote : String → String) (r : crawler.LinkCrawlerResult) : crawlerResult :=
  match r.Error with
  | none =>
    { PageURL := r.Source, NumInternalLinks := r.InternalLinks.length,
      NumExternalLinks := r.ExternalLinks.length, Success := true, Error := none }
  | some err =>
    { PageURL := r.Source, NumInternalLinks := r.InternalLinks.length,
      NumExternalLinks := r.ExternalLinks.length, Success := false,
      Error := some (err.Error quote) }

/-- Function `bufferedJSONResultWriter`, applied to the results that the channel delivers until
it is closed: the exit code and the writer `out` afterwards.  The loop appends to `buf`, which
starts as the empty, non-nil slice `make([]crawlerResult, 0)`; the deferred function encodes it
with one call of `Write`. -/
def bufferedJSONResultWriter (quote jsonString : String → String) (out : OutWriter) (pretty : Bool)
    (results : List crawler.LinkCrawlerResult) : ExitCode × OutWriter :=
  let buf := results.foldl (fun buf r => buf ++ [toCrawlerResult quote r]) []
  let enc := if pretty then json.NewEncoder.SetIndent "" jsonIndent else json.NewEncoder
  match out.Write (enc.encodeSlice jsonString (some (buf.map crawlerResult.toObject))) with
  | (out1, some _) => (CodeErrOutput, out1)
  | (out1, none) => (CodeOK, out1)

/-- The call `enc.Encode(toCrawlerResult(result))` on the encoder of the unbuffered writer,
after `buf.Reset()`: the content of `buf`.  Marshalling a `crawlerResult` and writing to a
`bytes.Buffer` have no error, so the result is never an error. -/
def encodeToBuffer (enc : json.Encoder) (jsonString : String → String) (r : crawlerResult) :
    Except GoError String :=
  .ok (enc.encodeObject jsonString r.toObject)

/-- The loop `for result := range results` of `unbufferedJSONResultWriter`, with the current
value of `join`: the exit code it leaves in `code`, and the two writers afterwards. -/
def unbufferedLoop (quote jsonString : String → String) (enc : json.Encoder) (joinTmpl : String) :
    List crawler.LinkCrawlerResult → String → OutWriter → OutWriter →
      ExitCode × OutWriter × OutWriter
  | [], _, out, outErr => (CodeOK, out, outErr)
  | result :: rest, join, out, outErr =>
    match encodeToBuffer enc jsonString (toCrawlerResult quote result) with
    | .error err =>
      (CodeErrOutput, out,
        (outErr.Write
          ("could not encode " ++ quote result.Source ++ " report: " ++ err.Error quote)).1)
    | .ok buf =>
      match out.Write (join ++ strings.Trim buf "\r\n") with
      | (out1, some err) =>
        (CodeErrOutput, out1,
          (outErr.Write
            ("could not write " ++ quote result.Source ++ " report: " ++ err.Error quote)).1)
      | (out1, none) => unbufferedLoop quote jsonString enc joinTmpl rest joinTmpl out1 outErr

/-- Function `unbufferedJSONResultWriter`, applied to the results that the channel delivers
until it is closed: the exit code and the writers `out` and `outErr` afterwards. -/
def unbufferedJSONResultWriter (quote jsonString : String → String) (out outErr : OutWriter)
    (pretty : Bool) (results : List crawler.LinkCrawlerResult) : ExitCode × OutWriter × OutWriter :=
  let newL := if pretty then "\n" else ""
  let startIndent := if pretty then jsonIndent else ""
  let joinTmpl := if pretty then ",\n" ++ startIndent else ","
  let enc := if pretty then json.NewEncoder.SetIndent jsonIndent jsonIndent else json.NewEncoder
  match out.Write ("[" ++ newL ++ startIndent) with
  | (out1, some err) =>
    (CodeErrOutput, out1,
      (outErr.Write ("could not write [ to output: " ++ err.Error quote ++ "\n")).1)
  | (out1, none) =>
    match unbufferedLoop quote jsonString enc joinTmpl results "" out1 outErr with
    | (code, out2, outErr2) =>
      -- the deferred function
      if code ≠ CodeOK then (code, out2, outErr2)
      else
        match out2.Write (newL ++ "]\n") with
        | (out3, some err) =>
          (CodeErrOutput, out3,
            (outErr2.Write ("could not write ] to output: " ++ err.Error quote ++ "\n")).1)
        | (out3, none) => (code, out3, outErr2)

/-- The dynamic type and value of one argument `any` of `Run` and `initInputSource`. -/
inductive InputSource where
  /-- The `nil` interface value. -/
  | nil
  /-- A `[]string`. -/
  | stringList (s : List String)
  /-- A `string`. -/
  | path (s : String)
  /-- A value that implements `io.ReadCloser`. -/
  | readCloser (r : Reader)
  /-- A value that implements `io.Reader` and not `io.ReadCloser`. -/
  | reader (r : Reader)
  /-- A value of any other type; `typeName` is what `%T` prints. -/
  | other (typeName : String)

/-- The file system as `initInputSource` meets it. -/
structure FileSystem where
  /-- Function `filepath.Clean`. -/
  Clean : String → String
  /-- Function `os.Open`: the opened file as a reader, or the error. -/
  Open : String → Except GoError Reader

/-- Function `initInputSource`: the input source with `CodeOK`, or the exit code with the
error. -/
def initInputSource (quote : String → String) (fs : FileSystem) :
    List InputSource → Except (ExitCode × GoError) (Reader × ExitCode)
  | [] => .error (CodeErrNoInputSource, .errorString "no input source")
  | .nil :: rest => initInputSource quote fs rest
  | .stringList s :: rest =>
    if s.length = 0 then initInputSource quote fs rest
    else .ok ({ data := strings.Join s "\n", err := none }, CodeOK)
  | .path s :: rest =>
    if strings.len s = 0 then initInputSource quote fs rest
    else
      match fs.Open (fs.Clean s) with
      | .error err =>
        .error (CodeErrOpenInputSource,
          .wrapError ("could not open input file: " ++ err.Error quote) err)
      | .ok f => .ok (f, CodeOK)
  | .readCloser r :: _ => .ok (r, CodeOK)
  | .reader r :: _ => .ok (r, CodeOK)
  | .other typeName :: _ =>
    .error (CodeErrUnsupportedInputSource,
      .errorString ("unsupported input source: " ++ typeName))

/-- Function `initCrawler`.  `html`, `text` and `jsonLinks` are the collectors that
`collector.NewHTMLLinkCollector()`, `collector.NewTextLinkCollector()` and
`collector.NewJSONLinkCollector()` return. -/
def initCrawler (html text jsonLinks : crawler.LinkCollector) (numWorkers : Int) (timeout : Int) :
    Except GoError crawler.HTTPLinkCrawler :=
  if numWorkers < 1 then .error (.errorString "number of workers must be greater than 0")
  else if numWorkers > maxNumWorkers then
    .error (.errorString ("maximum workers is " ++ toString maxNumWorkers))
  else
    .ok (crawler.NewHTTPLinkCrawler
      [crawler.WithLinkCollectors fun k =>
          if k = "text/html" then some html
          else if k = "text/plain" then some text
          else none,
        crawler.WithLinkCollector jsonLinks ["application/json", "text/x-json"],
        crawler.WithClientTimeout timeout,
        crawler.WithNumWorkers numWorkers])

/-- What a call of `Run` does. -/
inductive RunOutcome where
  /-- It printed `line` to `cfg.ErrWriter` and returned `code`, without reaching `doCrawl`:
  nothing else was written, and `cfg.OutWriter` was not handed to any function. -/
  | exit (code : ExitCode) (line : String)
  /-- It built the crawler `c`, chose the buffered or the unbuffered result writer on
  `cfg.OutWriter`, made the publisher for `numWorkers` workers and returned what
  `doCrawl(c, publishSource, writeResult, inputSource, log)` returns. -/
  | crawl (c : crawler.HTTPLinkCrawler) (buffered pretty : Bool) (numWorkers : Int)
      (inputSource : Reader)

/-- Function `Run`.  The logger that `initLogger` makes is left out, as in the crawler: it
is written to and never read. -/
def Run (quote : String → String) (fs : FileSystem) (html text jsonLinks : crawler.LinkCollector)
    (cfg : Config) (inputSources : List InputSource) : RunOutcome :=
  match initInputSource quote fs inputSources with
  | .error (code, err) => .exit code (err.Error quote ++ "\n")
  | .ok (inputSource, _) =>
    match initCrawler html text jsonLinks cfg.NumWorkers cfg.Timeout with
    | .error err => .exit CodeErrBadArgs (err.Error quote ++ "\n")
    | .ok c =>
      .crawl c (decide (cfg.VerbosityLevel > VerbosityLevelSilent)) cfg.PrettyOutput
        cfg.NumWorkers inputSource

/-! ### `doCrawl`: the interrupt watcher and the work task

`doCrawl` starts two goroutines that share the variable `code` (guarded by `codeMu`), the
context and the channel `sigs`, and returns `code` once both have finished (`wg.Wait()`).  The
embedding is a transition system: a state holds the shared variables and the program point of
each goroutine, an action is one atomic step of a goroutine or of the environment, and a run
is a list of actions in the order in which they happen. -/

/-- Program point of the interrupt watcher. -/
inductive WatcherPC where
  /-- It waits in its `select`. -/
  | selecting
  /-- It took the case `<-sigs` and has set `code`; `cancel()` comes next. -/
  | signalled
  /-- It has finished, through the case `<-sigs` (`bySignal`) or the case `<-ctx.Done()`; its
  deferred `close(sigs)` and `wg.Done()` have run. -/
  | exited (bySignal : Bool)
deriving DecidableEq

/-- Whether the watcher has finished. -/
def WatcherPC.isExited : WatcherPC → Bool
  | .exited _ => true
  | _ => false

/-- Program point of the work task. -/
inductive WorkerPC where
  /-- Publisher, crawler and result writer are at work. -/
  | working
  /-- The call `writeResult(...)` has returned `wCode`. -/
  | returned (wCode : ExitCode)
  /-- The section under `codeMu` is done; the deferred `cancel()` comes next. -/
  | committed (wCode : ExitCode)
  /-- It has finished. -/
  | exited (wCode : ExitCode)
deriving DecidableEq

/-- State of a call of `doCrawl`. -/
structure CrawlState where
  /-- The variable `code`. -/
  code : ExitCode
  /-- The context `ctx` is cancelled. -/
  canceled : Bool
  /-- A signal waits in the channel `sigs`, which has room for one. -/
  sigPending : Bool
  /-- The channel `sigs` is closed: the deferred `close(sigs)` of the watcher has run.  The
  channel stays registered with `signal.Notify`, as `doCrawl` has no `signal.Stop`. -/
  sigsClosed : Bool
  /-- The process has panicked: package `os/signal` has sent a signal on the closed channel
  `sigs`. -/
  panicked : Bool
  watcher : WatcherPC
  worker : WorkerPC
deriving DecidableEq

/-- One atomic step. -/
inductive Action where
  /-- The process receives `SIGINT` or `SIGTERM`, which package `os/signal` sends on `sigs`
  without blocking: the signal is kept when the channel is open, and the send panics when the
  channel is closed. -/
  | signal
  /-- The watcher takes the case `<-sigs` and sets `code = CodeErrOperationCanceled`. -/
  | watcherSignal
  /-- The watcher calls `cancel()` after the signal and finishes: its deferred `close(sigs)`
  and `wg.Done()` run. -/
  | watcherCancel
  /-- The watcher takes the case `<-ctx.Done()` and finishes: its deferred `close(sigs)` and
  `wg.Done()` run. -/
  | watcherDone
  /-- The result writer returns `wCode` to the work task. -/
  | sinkReturns (wCode : ExitCode)
  /-- The work task runs its section under `codeMu`. -/
  | workerCommit
  /-- The work task runs its deferred `cancel()` and finishes. -/
  | workerCancel
deriving DecidableEq

/-- The state in which `doCrawl` starts its two goroutines. -/
def CrawlState.init : CrawlState :=
  { code := CodeOK, canceled := false, sigPending := false, sigsClosed := false,
    panicked := false, watcher := .selecting, worker := .working }

/-- The state after an action, or `none` when the action cannot happen in the state.  Nothing
happens after a panic: the process is gone. -/
def step (s : CrawlState) (a : Action) : Option CrawlState :=
  if s.panicked = true then none
  else
    match a with
    | .signal =>
      if s.sigsClosed = true then some { s with panicked := true }
      else some { s with sigPending := true }
    | .watcherSignal =>
      if s.watcher = .selecting ∧ s.sigPending = true then
        some { s with sigPending := false, code := CodeErrOperationCanceled,
                      watcher := .signalled }
      else none
    | .watcherCancel =>
      if s.watcher = .signalled then
        some { s with canceled := true, sigsClosed := true, watcher := .exited true }
      else none
    | .watcherDone =>
      if s.watcher = .selecting ∧ s.canceled = true then
        some { s with sigsClosed := true, watcher := .exited false }
      else none
    | .sinkReturns wCode =>
      if s.worker = .working then some { s with worker := .returned wCode } else none
    | .workerCommit =>
      match s.worker with
      | .returned wCode =>
        if wCode ≠ CodeOK ∧ s.code ≠ CodeErrOperationCanceled then
          some { s with code := wCode, worker := .committed wCode }
        else some { s with worker := .committed wCode }
      | _ => none
    | .workerCancel =>
      match s.worker with
      | .committed wCode => some { s with canceled := true, worker := .exited wCode }
      | _ => none

/-- The state after a run, or `none` when one of its actions cannot happen. -/
def run (s : CrawlState) : List Action → Option CrawlState
  | [] => some s
  | a :: rest =>
    match step s a with
    | some t => run t rest
    | none => none

/-- What `doCrawl` returns in a state: `code`, once both goroutines have finished
(`wg.Wait()` has returned); `none` before, and `none` when the process has panicked. -/
def returns (s : CrawlState) : Option ExitCode :=
  if s.panicked = true then none
  else
    match s.watcher, s.worker with
    | .exited _, .exited _ => some s.code
    | _, _ => none

/-- The actions that bring a state to the end when no further signal comes: the work task
runs to its end, with `wCode` when the result writer has not returned yet, and the watcher
follows. -/
def finish (wCode : ExitCode) (s : CrawlState) : List Action :=
  (match s.worker with
    | .working => [.sinkReturns wCode, .workerCommit, .workerCancel]
    | .returned _ => [.workerCommit, .workerCancel]
    | .committed _ => [.workerCancel]
    | .exited _ => [])
  ++
  (match s.watcher with
    | .selecting => [.watcherDone]
    | .signalled => [.watcherCancel]
    | .exited _ => [])

end cli

/-! ### What the result writers send -/

/-- Writing the texts of a list to a writer, one call each, up to the first call that fails:
the writer afterwards, and whether a call failed. -/
def writeAll (w : OutWriter) : List String → OutWriter × Bool
  | [] => (w, false)
  | p :: rest =>
    match w.Write p with
    | (w1, some _) => (w1, true)
    | (w1, none) => writeAll w1 rest

namespace cli

/-- The encoder of the unbuffered writer. -/
def unbufferedEncoder (pretty : Bool) : json.Encoder :=
  if pretty then json.NewEncoder.SetIndent jsonIndent jsonIndent else json.NewEncoder

/-- The encoder of the buffered writer. -/
def bufferedEncoder (pretty : Bool) : json.Encoder :=
  if pretty then json.NewEncoder.SetIndent "" jsonIndent else json.NewEncoder

/-- The text of one result in the unbuffered output: what `enc` encodes for its record, without
the leading and trailing carriage returns and newlines. -/
def trimmedRecord (quote jsonString : String → String) (enc : json.Encoder)
    (r : crawler.LinkCrawlerResult) : String :=
  strings.Trim (enc.encodeObject jsonString (toCrawlerResult quote r).toObject) "\r\n"

/-- The texts of the calls for the results, the first one after `join` and the others after
`joinTmpl`. -/
def recordChunks (quote jsonString : String → String) (enc : json.Encoder) (joinTmpl : String) :
    List crawler.LinkCrawlerResult → String → List String
  | [], _ => []
  | r :: rest, join =>
    (join ++ trimmedRecord quote jsonString enc r)
      :: recordChunks quote jsonString enc joinTmpl rest joinTmpl

/-- The texts of the calls that the unbuffered writer makes on `out` when none fails: the
opening bracket, one text for each result, the closing bracket. -/
def unbufferedChunks (quote jsonString : String → String) (pretty : Bool)
    (results : List crawler.LinkCrawlerResult) : List String :=
  (if pretty then "[\n  " else "[")
    :: (recordChunks quote jsonString (unbufferedEncoder pretty)
          (if pretty then ",\n  " else ",") results ""
        ++ [if pretty then "\n]\n" else "]\n"])

/-- The text of the one call that the buffered writer makes on `out`. -/
def bufferedPayload (quote jsonString : String → String) (pretty : Bool)
    (results : List crawler.LinkCrawlerResult) : String :=
  (bufferedEncoder pretty).encodeSlice jsonString
    (some ((results.map (toCrawlerResult quote)).map crawlerResult.toObject))

end cli

namespace cli

open ExitCode

/-- What holds of `code`, of the context and of `sigs` in every state that a run of `doCrawl`
reaches: `code` is `CodeErrOperationCanceled` once the watcher has taken a signal; otherwise it
is `CodeOK` until the work task has run its section under `codeMu`, and the code of the result
writer after that; the context is cancelled once the work task has finished; and `sigs` is
closed exactly when the watcher has finished. -/
def CrawlState.consistent (s : CrawlState) : Prop :=
  (if s.watcher = .signalled ∨ s.watcher = .exited true then
      s.code = CodeErrOperationCanceled
    else
      match s.worker with
      | .working => s.code = CodeOK
      | .returned _ => s.code = CodeOK
      | .committed wCode => s.code = wCode
      | .exited wCode => s.code = wCode) ∧
    (∀ wCode, s.worker = .exited wCode → s.canceled = true) ∧
    s.sigsClosed = s.watcher.isExited

end cli

/-! ## Concrete instances used to evaluate the code -/

/-- Function `strconv.Quote` on a text of printable ASCII bytes: the text between double
quotes, with a backslash before every double quote and every backslash. -/
def quoteASCII (s : String) : String :=
  "\"" ++ ⟨(s.data.map fun c => if c = '"' ∨ c = '\\' then ['\\', c] else [c]).flatten⟩ ++ "\""

/-- The standard library used at concrete inputs: `net/url` as modelled, `quoteASCII` for `%q`;
the two media-type functions play no part in URL handling and are the identity. -/
def asciiStdlib : Stdlib := goStdlib quoteASCII id id

/-- The URL `https://example.com`, as `url.Parse` returns it. -/
def exampleCom : URL := { url.zero with Scheme := "https", Host := "example.com" }

/-- The URL `http://h/page`, as `url.Parse` returns it. -/
def hPage : URL := { url.zero with Scheme := "http", Host := "h", Path := "/page" }

/-- A network on which every request is created and answered with the status `statusCode`, the
`Content-Type` header `contentType` and the body `body`. -/
def answering (statusCode : Int) (contentType : String) (body : Reader) : Transport :=
  { newRequest := fun _ => none
    clientDo := fun _ _ _ =>
      .ok { StatusCode := statusCode, ContentType := contentType, Body := body } }

/-- A network on which every request is created and `client.Do` fails with `err`. -/
def failing (err : GoError) : Transport :=
  { newRequest := fun _ => none
    clientDo := fun _ _ _ => .error err }

/-- A body of `data` that ends with `io.EOF`. -/
def bodyOf (data : String) : Reader := { data := data, err := none }

/-- The JSON string of a text of printable ASCII bytes other than the double quote, the
backslash, `<`, `>` and `&`: the text between double quotes. -/
def jsonStringPlain (s : String) : String := "\"" ++ s ++ "\""

/-- A writer that takes every call. -/
def acceptAll : OutWriter := { fails := fun _ _ => none, calls := [] }

/-- A writer whose call number `k` (from 0) fails with `write error` and that takes the calls
before it. -/
def failAt (k : Nat) : OutWriter :=
  { fails := fun before _ => if before.length = k then some (.errorString "write error") else none
    calls := [] }

/-- A crawl result of the source `h/path1` with one internal link and no failure. -/
def path1Result : crawler.LinkCrawlerResult :=
  { Source := "h/path1", InternalLinks := ["h/path1"], ExternalLinks := [], Error := none }

/-! ## Input sources: the candidates that `initInputSource` passes over -/

namespace cli

/-- A candidate that `initInputSource` passes over with `continue`: the `nil` value, a
`[]string` of length 0, a `string` of length 0. -/
def ignored : InputSource → Bool
  | .nil => true
  | .stringList s => decide (s.length = 0)
  | .path s => decide (strings.len s = 0)
  | .readCloser _ => false
  | .reader _ => false
  | .other _ => false

/-- A file system that holds one file, `name` with the bytes `content`; paths are clean
already and opening any other path fails. -/
def oneFile (name content : String) : FileSystem :=
  { Clean := id
    Open := fun p =>
      if p = name then .ok { data := content, err := none }
      else .error (.errorString ("open " ++ p ++ ": no such file or directory")) }

end cli

/-! ## Package `regexp`: patterns, what they match, and `FindAllString` -/

namespace strings

/-- The loop of `strings.ReplaceAll` for a non-empty `old`: the first occurrence of `old` from
the left is replaced and the search goes on after it.  `fuel` bounds the number of steps; the
length of the text is enough. -/
def replaceAllL (old new : List Char) : Nat → List Char → List Char
  | 0, s => s
  | _ + 1, [] => []
  | n + 1, c :: cs =>
    if old.isPrefixOf (c :: cs) then new ++ replaceAllL old new n ((c :: cs).drop old.length)
    else c :: replaceAllL old new n cs

/-- The function `strings.ReplaceAll`.  For an empty `old` the text `new` is put before every
byte and at the end. -/
def ReplaceAll (s old new : String) : String :=
  if old.data = [] then ⟨(s.data.map fun c => new.data ++ [c]).flatten ++ new.data⟩
  else ⟨replaceAllL old.data new.data s.data.length s.data⟩

end strings

namespace regexp

/-- The syntax of a pattern, as far as `httpLinkRegexp` uses it.  A group `( )` only groups,
`a+` is `a` followed by `a*`. -/
inductive Pattern where
  /-- The empty pattern. -/
  | eps
  /-- One given character. -/
  | lit (c : Char)
  /-- One character of a class. -/
  | cls (p : Char → Bool)
  /-- The pattern `ab`. -/
  | cat (a b : Pattern)
  /-- The pattern `a?`. -/
  | opt (a : Pattern)
  /-- The pattern `a*`. -/
  | star (a : Pattern)

/-- The pattern `a+`. -/
def Pattern.plus (a : Pattern) : Pattern := .cat a (.star a)

/-- The pattern of a literal text. -/
def Pattern.str : List Char → Pattern
  | [] => .eps
  | c :: cs => .cat (.lit c) (Pattern.str cs)

/-- The texts that a pattern matches. -/
inductive Matches : Pattern → List Char → Prop where
  | eps : Matches .eps []
  | lit (c : Char) : Matches (.lit c) [c]
  | cls (p : Char → Bool) (c : Char) (h : p c = true) : Matches (.cls p) [c]
  | cat (a b : Pattern) (s t : List Char) (ha : Matches a s) (hb : Matches b t) :
    Matches (.cat a b) (s ++ t)
  | optNone (a : Pattern) : Matches (.opt a) []
  | optSome (a : Pattern) (s : List Char) (h : Matches a s) : Matches (.opt a) s
  | starNil (a : Pattern) : Matches (.star a) []
  | starMore (a : Pattern) (s t : List Char) (ha : Matches a s) (hs : Matches (.star a) t) :
    Matches (.star a) (s ++ t)

/-- The characters that can stand in a text the pattern matches. -/
def Pattern.accepts : Pattern → Char → Bool
  | .eps, _ => false
  | .lit c, x => decide (x = c)
  | .cls p, x => p x
  | .cat a b, x => a.accepts x || b.accepts x
  | .opt a, x => a.accepts x
  | .star a, x => a.accepts x

/-- The class `\s` of the syntax of Go: tab, line feed, form feed, carriage return, blank. -/
def isSpace (c : Char) : Bool :=
  decide (c = '\t' ∨ c = '\n' ∨ c = Char.ofNat 12 ∨ c = '\r' ∨ c = ' ')

/-- The class `\S`. -/
def notSpace (c : Char) : Bool := !isSpace c

/-- The class `[^\s/?.#]`. -/
def hostChar (c : Char) : Bool :=
  !isSpace c && decide (c ≠ '/' ∧ c ≠ '?' ∧ c ≠ '.' ∧ c ≠ '#')

/-- The method `(*Regexp).FindAllString(s, -1)` of the compiled pattern: the matches found in
`s`, from left to right. -/
structure Lib where
  FindAllString : Pattern → String → List String

/-- What is used of `FindAllString`: each text it returns is matched by the pattern and is a
piece of the text searched. -/
def Lib.sound (R : Lib) : Prop :=
  ∀ (re : Pattern) (s m : String), m ∈ R.FindAllString re s →
    Matches re m.data ∧ ∃ pre post : List Char, s.data = pre ++ m.data ++ post

/-- The loop of `a*` in a backtracking matcher: one more `a` that consumes something and the
loop again, before stopping here.  `step` gives the remainders after `a`. -/
def starLoop (step : List Char → List (List Char)) : Nat → List Char → List (List Char)
  | 0, s => [s]
  | n + 1, s =>
    (((step s).filter fun r => decide (r.length < s.length)).map (starLoop step n)).flatten
      ++ [s]

/-- A backtracking matcher: the remainders of `s` after each way the pattern matches a start
of `s`, the preferred way first (a `?` or `*` takes as much as it can before it gives back). -/
def prefixes : Pattern → List Char → List (List Char)
  | .eps, s => [s]
  | .lit _, [] => []
  | .lit c, x :: r => if x = c then [r] else []
  | .cls _, [] => []
  | .cls p, x :: r => if p x then [r] else []
  | .cat a b, s => ((prefixes a s).map (prefixes b)).flatten
  | .opt a, s => prefixes a s ++ [s]
  | .star a, s => starLoop (prefixes a) s.length s

/-- The search of all matches from left to right: at each position the preferred match, when
it is not empty, is taken and the search goes on after it; otherwise the search goes on at the
next character.  `fuel` bounds the number of steps. -/
def findAllLoop (re : Pattern) : Nat → List Char → List (List Char)
  | 0, _ => []
  | _ + 1, [] => []
  | n + 1, c :: cs =>
    match (prefixes re (c :: cs)).head? with
    | some r =>
      if r.length < (c :: cs).length then
        (c :: cs).take ((c :: cs).length - r.length) :: findAllLoop re n r
      else findAllLoop re n cs
    | none => findAllLoop re n cs

/-- A library whose `FindAllString` is the backtracking search; it stands for Go's on the
patterns that match no empty text, as `httpLinkRegexp`. -/
def backtracking : Lib :=
  { FindAllString := fun re s => (findAllLoop re (s.data.length + 1) s.data).map String.mk }

end regexp

/-! ## Packages `golang.org/x/net/html`, `encoding/json` and `bufio`, as read by the collectors -/

namespace html

/-- The type `html.TokenType`, without `ErrorToken`, which is the end of the tokens. -/
inductive TokenType where
  | TextToken
  | StartTagToken
  | EndTagToken
  | SelfClosingTagToken
  | CommentToken
  | DoctypeToken
deriving DecidableEq

/-- The type `html.Attribute`. -/
structure Attribute where
  Namespace : String
  Key : String
  Val : String
deriving DecidableEq

/-- The type `html.Token`. -/
structure Token where
  /-- The field `Type`. -/
  Kind : TokenType
  Data : String
  Attr : List Attribute
deriving DecidableEq

/-- A tokenizer `html.NewTokenizer(r)`, as its user meets it: the tokens that `z.Next()` and
`z.Token()` deliver before the `ErrorToken`, and `z.Err()` at the `ErrorToken`, which is the
error the read of `r` ended with; `none` is `io.EOF`. -/
structure Tokenizer where
  tokens : List Token
  err : Option GoError

end html

namespace json

/-- The type `json.Token`: a delimiter, a `bool`, a `float64`, a `Number`, a `string` or
`nil`.  A number is kept as its text; the collectors make no use of it. -/
inductive Token where
  | delim (c : Char)
  | bool (b : Bool)
  | float64 (text : String)
  | number (text : String)
  | string (s : String)
  | null
deriving DecidableEq

/-- A decoder `json.NewDecoder(r)`, as its user meets it: the tokens that `dec.Token()`
delivers, object keys included, before its first error, and that error: the error the read of
`r` ended with, `none` for `io.EOF`. -/
structure Decoder where
  tokens : List Token
  err : Option GoError

end json

namespace bufio

/-- A scanner `bufio.NewScanner(r)`, as its user meets it: the lines that `s.Text()` gives
while `s.Scan()` is true, and `s.Err()` afterwards: the error the read of `r` ended with, `none`
(the `nil` error) when it ended with `io.EOF`. -/
structure Scanner where
  lines : List String
  err : Option GoError

end bufio

/-! ## Package `internal/collector` -/

namespace collector

/-- The variable `httpLinkRegexp`, the pattern
`(https?)://(-\.)?([^\s/?.#]+\.?)+(/\S*)?`. -/
def httpLinkRegexp : regexp.Pattern :=
  .cat (.str "http".data) (.cat (.opt (.lit 's')) (.cat (.str "://".data)
    (.cat (.opt (.str "-.".data))
      (.cat (regexp.Pattern.plus
          (.cat (regexp.Pattern.plus (.cls regexp.hostChar)) (.opt (.lit '.'))))
        (.opt (.cat (.lit '/') (.star (.cls regexp.notSpace))))))))

/-- The type `HTMLLinkCollector`; `tagAttributes` is the map from a tag name to an attribute
name. -/
structure HTMLLinkCollector where
  tagAttributes : String → Option String

/-- Function `NewHTMLLinkCollector`: the map has the one key `a`, with the value `href`. -/
def NewHTMLLinkCollector : HTMLLinkCollector :=
  { tagAttributes := fun tag => if tag = "a" then some "href" else none }

/-- The loop over `tag.Attr`: what it appends to `links`.  It stops at the first attribute
whose key is `wantAttr`. -/
def attrLinks (wantAttr : String) : List html.Attribute → List String
  | [] => []
  | attr :: rest =>
    if attr.Key = wantAttr then [strings.ReplaceAll attr.Val "\n" ""]
    else attrLinks wantAttr rest

/-- One turn of the loop of `HTMLLinkCollector.GetLinks` on a token that is not the
`ErrorToken`: what it appends to `links`. -/
def HTMLLinkCollector.tokenLinks (c : HTMLLinkCollector) (tag : html.Token) : List String :=
  match tag.Kind with
  | .StartTagToken | .SelfClosingTagToken =>
    match c.tagAttributes tag.Data with
    | some wantAttr => attrLinks wantAttr tag.Attr
    | none => []
  | _ => []

/-- Method `HTMLLinkCollector.GetLinks`, from the tokenizer on. -/
def HTMLLinkCollector.GetLinks (quote : String → String) (c : HTMLLinkCollector)
    (z : html.Tokenizer) : Except GoError (List String) :=
  let links := z.tokens.foldl (fun links tag => links ++ c.tokenLinks tag) []
  match z.err with
  | none => .ok links
  | some err =>
    .error (.wrapError ("could not collect links from html doc: " ++ err.Error quote) err)

/-- One turn of the loop of `JSONLinkCollector.GetLinks` on a token: what it appends to
`links`. -/
def jsonTokenLinks (R : regexp.Lib) : json.Token → List String
  | .string s => R.FindAllString httpLinkRegexp s
  | _ => []

/-- Method `JSONLinkCollector.GetLinks`, from the decoder on. -/
def JSONLinkCollector.GetLinks (R : regexp.Lib) (quote : String → String) (dec : json.Decoder) :
    Except GoError (List String) :=
  let links := dec.tokens.foldl (fun links token => links ++ jsonTokenLinks R token) []
  match dec.err with
  | none => .ok links
  | some err =>
    .error (.wrapError ("could not collect links from json doc: " ++ err.Error quote) err)

/-- Method `TextLinkCollector.GetLinks`, from the scanner on. -/
def TextLinkCollector.GetLinks (R : regexp.Lib) (quote : String → String) (s : bufio.Scanner) :
    Except GoError (List String) :=
  let links := s.lines.foldl (fun links line => links ++ R.FindAllString httpLinkRegexp line) []
  match s.err with
  | some err =>
    .error (.wrapError ("could not collect links from text doc: " ++ err.Error quote) err)
  | none => .ok links

/-- The link that a token of an HTML document gives, if any: for a start tag or a
self-closing tag `a`, the value of its first attribute `href` without its line feeds. -/
def anchorLink (tag : html.Token) : Option String :=
  if (tag.Kind = .StartTagToken ∨ tag.Kind = .SelfClosingTagToken) ∧ tag.Data = "a" then
    (tag.Attr.find? fun attr => decide (attr.Key = "href")).map
      fun attr => (⟨attr.Val.data.filter fun ch => decide (ch ≠ '\n')⟩ : String)
  else none

/-- The text of a token of a JSON document that is a string; nothing for the others. -/
def stringTokens : List json.Token → List String
  | [] => []
  | .string s :: rest => s :: stringTokens rest
  | _ :: rest => stringTokens rest

end collector

/-! ## The publisher of the sources and the worker pool

`bufferedSourcePublisher` (package `cli`) and `HTTPLinkCrawler.CrawLinks` (package `crawler`)
run as goroutines around two channels.  They are embedded as one transition system: a state
holds the place each goroutine is at and the content of the channels, and an action is one
step of one goroutine, or the cancellation of the context. -/

namespace pipeline

/-- Where the goroutine of `bufferedSourcePublisher` is. -/
inductive PublisherPC where
  /-- At the `select` of the loop. -/
  | check
  /-- In the `default` case, before `s.Scan()`. -/
  | scan
  /-- Before `linksCh <- link`, with the line scanned. -/
  | push (link : String)
  /-- Returned; the deferred `close(linksCh)` has run. -/
  | done
deriving DecidableEq

/-- Where a worker goroutine of `CrawLinks` is. -/
inductive WorkerPC where
  /-- At the `select` of the loop. -/
  | select
  /-- In `c.doCrawl(ctx, source)`, with the source received. -/
  | crawl (source : String)
  /-- At `results <- ...`, with the result of the source. -/
  | send (source : String)
  /-- Returned; the deferred `wg.Done()` has run. -/
  | exited
deriving DecidableEq

/-- A state of the publisher, the workers and the channels.  A result is kept as its source. -/
structure State where
  /-- The lines of the input that `s.Scan()` has not delivered yet. -/
  input : List String
  publisher : PublisherPC
  /-- The capacity of `linksCh`. -/
  bufSize : Nat
  /-- The content of the channel `linksCh`, which is `sources` in `CrawLinks`. -/
  linksCh : List String
  /-- Whether `linksCh` is closed. -/
  linksClosed : Bool
  /-- Whether the context is cancelled, that is `ctx.Done()` is closed. -/
  canceled : Bool
  workers : List WorkerPC
  /-- The sources of the calls of `doCrawl` so far, in the order of the calls. -/
  started : List String
  /-- The sources of the results received from the channel `results` so far. -/
  results : List String
  /-- Whether `results` is closed. -/
  resultsClosed : Bool
deriving DecidableEq

/-- One step of one goroutine, or the cancellation. -/
inductive Action where
  /-- The context is cancelled. -/
  | cancel
  /-- The publisher passes its `select`: it returns when the context is cancelled and goes to
  the `default` case otherwise. -/
  | pubCheck
  /-- The call `s.Scan()` returns: with the next line, or with `false` at the end of the
  input, after which the publisher leaves the loop and returns. -/
  | pubScan
  /-- The send `linksCh <- link` goes through; the channel has room. -/
  | pubPush
  /-- Worker `i` takes the case `<-ctx.Done()` of its `select` and returns. -/
  | workerDone (i : Nat)
  /-- Worker `i` takes the case `<-sources` of its `select`: it receives a source and calls
  `doCrawl`, or finds the channel closed and empty and returns. -/
  | workerRecv (i : Nat)
  /-- The call of `doCrawl` of worker `i` returns. -/
  | crawled (i : Nat)
  /-- The send `results <- ...` of worker `i` goes through: the reader of `results` receives
  the result. -/
  | workerSend (i : Nat)
  /-- The goroutine that waits for the workers passes `wg.Wait()` and closes `results`. -/
  | closeResults
deriving DecidableEq

/-- The state when `CrawLinks` has started its `numWorkers` workers on the channel of a
publisher made for the same number of workers, which reads `lines`. -/
def init (numWorkers : Nat) (lines : List String) : State :=
  { input := lines
    publisher := .check
    bufSize := numWorkers * 2
    linksCh := []
    linksClosed := false
    canceled := false
    workers := List.replicate numWorkers .select
    started := []
    results := []
    resultsClosed := false }

/-- The state after an action, or `none` when the action cannot be taken in the state. -/
def step (s : State) : Action → Option State
  | .cancel => some { s with canceled := true }
  | .pubCheck =>
    match s.publisher with
    | .check =>
      if s.canceled then some { s with publisher := .done, linksClosed := true }
      else some { s with publisher := .scan }
    | _ => none
  | .pubScan =>
    match s.publisher with
    | .scan =>
      match s.input with
      | [] => some { s with publisher := .done, linksClosed := true }
      | link :: rest => some { s with publisher := .push link, input := rest }
    | _ => none
  | .pubPush =>
    match s.publisher with
    | .push link =>
      if s.linksCh.length < s.bufSize then
        some { s with publisher := .check, linksCh := s.linksCh ++ [link] }
      else none
    | _ => none
  | .workerDone i =>
    match s.workers[i]? with
    | some .select =>
      if s.canceled then some { s with workers := s.workers.set i .exited } else none
    | _ => none
  | .workerRecv i =>
    match s.workers[i]? with
    | some .select =>
      match s.linksCh with
      | source :: rest =>
        some { s with
          linksCh := rest
          workers := s.workers.set i (.crawl source)
          started := s.started ++ [source] }
      | [] =>
        if s.linksClosed then some { s with workers := s.workers.set i .exited } else none
    | _ => none
  | .crawled i =>
    match s.workers[i]? with
    | some (.crawl source) => some { s with workers := s.workers.set i (.send source) }
    | _ => none
  | .workerSend i =>
    match s.workers[i]? with
    | some (.send source) =>
      some { s with workers := s.workers.set i .select, results := s.results ++ [source] }
    | _ => none
  | .closeResults =>
    if s.resultsClosed = false ∧ s.workers.all (fun w => decide (w = .exited)) = true then
      some { s with resultsClosed := true }
    else none

/-- The state after the actions of a schedule, or `none` when one of them cannot be taken. -/
def run (s : State) : List Action → Option State
  | [] => some s
  | a :: rest =>
    match step s a with
    | some t => run t rest
    | none => none

/-- The source a worker holds. -/
def WorkerPC.held : WorkerPC → List String
  | .select => []
  | .crawl source => [source]
  | .send source => [source]
  | .exited => []

/-- The line the publisher holds. -/
def PublisherPC.held : PublisherPC → List String
  | .push link => [link]
  | _ => []

/-- The sources the workers hold. -/
def inflight (ws : List WorkerPC) : List String := (ws.map WorkerPC.held).flatten

/-- What holds of every state that a run without cancellation reaches from `init`, for `n`
workers and the input `lines`. -/
structure Inv (n : Nat) (lines : List String) (s : State) : Prop where
  notCanceled : s.canceled = false
  numWorkers : s.workers.length = n
  capacity : s.bufSize = n * 2
  /-- Every line is in exactly one place. -/
  conserve : ∀ x : String, lines.count x =
    s.results.count x + (inflight s.workers).count x + s.linksCh.count x
      + s.publisher.held.count x + s.input.count x
  /-- Every call of `doCrawl` has given its result or is held by a worker. -/
  startedOnce : ∀ x : String, s.started.count x =
    s.results.count x + (inflight s.workers).count x
  closedIff : s.linksClosed = true ↔ s.publisher = .done
  doneInput : s.publisher = .done → s.input = []
  exitedAfter : .exited ∈ s.workers → s.linksClosed = true ∧ s.linksCh = []
  closedAfter : s.resultsClosed = true → ∀ w ∈ s.workers, w = .exited

/-- The steps a worker has left in its turn of the loop. -/
def WorkerPC.weight : WorkerPC → Nat
  | .select => 1
  | .crawl _ => 3
  | .send _ => 2
  | .exited => 0

/-- The steps the publisher has left before its next line. -/
def PublisherPC.weight : PublisherPC → Nat
  | .check => 3
  | .scan => 2
  | .push _ => 7
  | .done => 0

/-- A bound on the number of steps that are left when the context is not cancelled. -/
def stepsLeft (s : State) : Nat :=
  8 * s.input.length + s.publisher.weight + 3 * s.linksCh.length
    + (s.workers.map WorkerPC.weight).sum + (if s.resultsClosed then 0 else 1)

end pipeline
namespace pipeline

/-- A schedule for two workers and the lines `a` and `b`: worker 1 crawls `a`, worker 0
crawls `b`, the result of `b` is received first, and everything ends. -/
def twoWorkersSchedule : List Action :=
  [.pubCheck, .pubScan, .pubPush, .workerRecv 1, .pubCheck, .pubScan, .pubPush, .workerRecv 0,
    .crawled 0, .crawled 1, .workerSend 0, .workerSend 1, .pubCheck, .pubScan, .workerRecv 0,
    .workerRecv 1, .closeResults]

/-- The state at the end of `twoWorkersSchedule`. -/
def twoWorkersEnd : State :=
  { input := []
    publisher := .done
    bufSize := 4
    linksCh := []
    linksClosed := true
    canceled := false
    workers := [.exited, .exited]
    started := ["a", "b"]
    results := ["b", "a"]
    resultsClosed := true }

/-- The state of one worker and the lines `a`, `b`, `c` at the moment the context is
cancelled, when `a` is in the channel and the publisher has scanned `b`. -/
def atCancel : State :=
  { input := ["c"]
    publisher := .push "b"
    bufSize := 2
    linksCh := ["a"]
    linksClosed := false
    canceled := true
    workers := [.select]
    started := []
    results := []
    resultsClosed := false }

end pipeline

/-! ## Theorems -/

namespace crawler

theorem sortLinksStep_eq (L : Stdlib) (source : URL) (acc : List String × List String)
    (link : String) :
    sortLinksStep L source acc link =
      (acc.1 ++ internalEntry L source link, acc.2 ++ externalEntry L source link) := by
  unfold internalEntry externalEntry sortLinks
  simp only [List.foldl_cons, List.foldl_nil]
  unfold sortLinksStep
  cases L.urlParse link with
  | error e => simp
  | ok u =>
    dsimp only
    split_ifs <;> simp

theorem foldl_sortLinksStep (L : Stdlib) (source : URL) (links : List String) :
    ∀ acc : List String × List String,
      links.foldl (sortLinksStep L source) acc =
        (acc.1 ++ (links.map (internalEntry L source)).flatten,
          acc.2 ++ (links.map (externalEntry L source)).flatten) := by
  induction links with
  | nil => intro acc; simp
  | cons link rest ih =>
    intro acc
    rw [List.foldl_cons, ih, sortLinksStep_eq]
    simp [List.append_assoc]

theorem sortLinks_eq_flatten (L : Stdlib) (source : URL) (links : List String) :
    sortLinks L source links =
      ((links.map (internalEntry L source)).flatten,
        (links.map (externalEntry L source)).flatten) := by
  unfold sortLinks
  rw [foldl_sortLinksStep]
  simp

theorem sortLinks_append (L : Stdlib) (source : URL) (xs ys : List String) :
    sortLinks L source (xs ++ ys) =
      ((sortLinks L source xs).1 ++ (sortLinks L source ys).1,
        (sortLinks L source xs).2 ++ (sortLinks L source ys).2) := by
  simp [sortLinks_eq_flatten]

theorem externalEntry_eq (L : Stdlib) (source : URL) (link : String) :
    externalEntry L source link = if external L source link then [link] else [] := by
  unfold externalEntry sortLinks external
  simp only [List.foldl_cons, List.foldl_nil]
  unfold sortLinksStep
  cases L.urlParse link with
  | error e => simp
  | ok u =>
    dsimp only
    by_cases h1 : u.Scheme ≠ "" ∧ u.Scheme ≠ "http" ∧ u.Scheme ≠ "https"
    · have h2 : ¬ (u.Scheme = "" ∨ u.Scheme = "http" ∨ u.Scheme = "https") := by tauto
      simp [h1, h2]
    · have h2 : u.Scheme = "" ∨ u.Scheme = "http" ∨ u.Scheme = "https" := by tauto
      rw [if_neg h1]
      by_cases h3 : u.Host ≠ "" ∧ u.Host ≠ source.Host
      · simp [h3, h2]
      · rw [if_neg h3]
        have : ¬ ((u.Scheme = "" ∨ u.Scheme = "http" ∨ u.Scheme = "https") ∧
            u.Host ≠ "" ∧ u.Host ≠ source.Host) := by tauto
        simp [this]

theorem sortLinks_single_skipped (L : Stdlib) (source : URL) (link : String)
    (h : skipped L link = true) : sortLinks L source [link] = ([], []) := by
  unfold skipped at h
  unfold sortLinks
  simp only [List.foldl_cons, List.foldl_nil]
  unfold sortLinksStep
  cases hp : L.urlParse link with
  | error e => rfl
  | ok u =>
    rw [hp] at h
    simp only [decide_eq_true_eq] at h
    simp [h]

theorem sortLinks_single_kept (L : Stdlib) (source : URL) (link : String)
    (h : skipped L link = false) :
    (∃ u, L.urlParse link = .ok u ∧ ¬ (u.Host ≠ "" ∧ u.Host ≠ source.Host) ∧
        sortLinks L source [link] = ([L.urlString (L.urlResolveReference source u)], [])) ∨
      (external L source link = true ∧ sortLinks L source [link] = ([], [link])) := by
  unfold skipped at h
  unfold sortLinks external
  simp only [List.foldl_cons, List.foldl_nil]
  unfold sortLinksStep
  cases hp : L.urlParse link with
  | error e => rw [hp] at h; simp at h
  | ok u =>
    rw [hp] at h
    simp only [decide_eq_false_iff_not] at h
    dsimp only
    rw [if_neg h]
    by_cases h3 : u.Host ≠ "" ∧ u.Host ≠ source.Host
    · right
      have h2 : u.Scheme = "" ∨ u.Scheme = "http" ∨ u.Scheme = "https" := by tauto
      rw [if_pos h3]
      simp [h3, h2]
    · left
      rw [if_neg h3]
      exact ⟨u, rfl, h3, by simp⟩

theorem sortLinks_length (L : Stdlib) (source : URL) (links : List String) :
    (sortLinks L source links).1.length + (sortLinks L source links).2.length =
      (links.filter fun link => !skipped L link).length := by
  induction links with
  | nil => rfl
  | cons link rest ih =>
    have happ := sortLinks_append L source [link] rest
    rw [List.singleton_append] at happ
    rw [happ]
    simp only [List.length_append, List.filter_cons]
    cases hs : skipped L link with
    | true =>
      rw [sortLinks_single_skipped L source link hs]
      simpa using ih
    | false =>
      rcases sortLinks_single_kept L source link hs with ⟨u, _, _, h⟩ | ⟨_, h⟩
      · rw [h]; simp; omega
      · rw [h]; simp; omega

end crawler

namespace crawler

/-- C1. For every source URL and every list of links, the external bucket of `sortLinks` is
the input list filtered by `external` (same strings, same order, repeats kept), and `external`
holds of a link exactly when it parses to a URL whose scheme is empty, `http` or `https` and
whose host is non-empty and differs from the host of the source. -/
theorem sortLinks_external_bucket (L : Stdlib) (source : URL) (links : List String) :
    (sortLinks L source links).2 = links.filter (external L source) ∧
      ∀ link, external L source link = true ↔
        ∃ u, L.urlParse link = .ok u ∧ (u.Scheme = "" ∨ u.Scheme = "http" ∨ u.Scheme = "https") ∧
          u.Host ≠ "" ∧ u.Host ≠ source.Host := by
  constructor
  · rw [sortLinks_eq_flatten]
    induction links with
    | nil => rfl
    | cons link rest ih =>
      simp only [List.map_cons, List.flatten_cons, List.filter_cons]
      dsimp only at ih
      rw [ih, externalEntry_eq]
      cases external L source link <;> simp
  · intro link
    unfold external
    cases L.urlParse link with
    | error e => simp
    | ok u => simp

/-- C3. A link that does not parse, or whose scheme is not empty, `http` or `https`, adds
nothing to either bucket; every other link adds exactly one entry to exactly one bucket (its
resolved form to the internal one, or itself to the external one); the buckets of a
concatenation are the concatenations of the buckets, so both follow discovery order; the two
lengths add up to the number of links not skipped; and once the links are collected the crawl
cycle ends without a failure, whatever the links are. -/
theorem sortLinks_skips_and_keeps_order (L : Stdlib) (N : Transport) (c : HTTPLinkCrawler)
    (source : URL) (links : List String) :
    (∀ link, skipped L link = true → sortLinks L source [link] = ([], [])) ∧
      (∀ link, skipped L link = false →
        (∃ entry, sortLinks L source [link] = ([entry], [])) ∨
          sortLinks L source [link] = ([], [link])) ∧
      (∀ xs ys, sortLinks L source (xs ++ ys) =
        ((sortLinks L source xs).1 ++ (sortLinks L source ys).1,
          (sortLinks L source xs).2 ++ (sortLinks L source ys).2)) ∧
      (sortLinks L source links).1.length + (sortLinks L source links).2.length =
        (links.filter fun link => !skipped L link).length ∧
      (∀ raw resp, parseURL L raw = .ok source → doRequest L N c source = .ok resp →
        collectLinks L c resp = .ok links →
        (doCrawl L N c raw).Error = none ∧
          (doCrawl L N c raw).InternalLinks = (sortLinks L source links).1 ∧
          (doCrawl L N c raw).ExternalLinks = (sortLinks L source links).2) := by
  refine ⟨sortLinks_single_skipped L source, ?_, sortLinks_append L source,
    sortLinks_length L source links, ?_⟩
  · intro link h
    rcases sortLinks_single_kept L source link h with ⟨u, _, _, h⟩ | ⟨_, h⟩
    · exact Or.inl ⟨_, h⟩
    · exact Or.inr h
  · intro raw resp h1 h2 h3
    unfold doCrawl
    rw [h1]
    dsimp only
    rw [h2]
    dsimp only
    rw [h3]
    exact ⟨rfl, rfl, rfl⟩

/-- C4. For every source string and every behaviour of the library, the network and the
collectors, the result of `doCrawl` carries the source string as it was given, and when its
error is set both link lists are empty. -/
theorem doCrawl_source_and_failure (L : Stdlib) (N : Transport) (c : HTTPLinkCrawler)
    (source : String) :
    (doCrawl L N c source).Source = source ∧
      ((doCrawl L N c source).Error ≠ none →
        (doCrawl L N c source).InternalLinks = [] ∧ (doCrawl L N c source).ExternalLinks = []) := by
  unfold doCrawl
  cases parseURL L source with
  | error e => exact ⟨rfl, fun _ => ⟨rfl, rfl⟩⟩
  | ok sourceURL =>
    dsimp only
    cases doRequest L N c sourceURL with
    | error e => exact ⟨rfl, fun _ => ⟨rfl, rfl⟩⟩
    | ok resp =>
      dsimp only
      cases collectLinks L c resp with
      | error e => exact ⟨rfl, fun _ => ⟨rfl, rfl⟩⟩
      | ok links => exact ⟨rfl, fun h => absurd rfl h⟩

/-- C5. Whenever `parseURL` returns a URL, its scheme is `http` or `https` and its host is not
empty. -/
theorem parseURL_ok_valid (L : Stdlib) (s : String) (u : URL) (h : parseURL L s = .ok u) :
    (u.Scheme = "http" ∨ u.Scheme = "https") ∧ u.Host ≠ "" := by
  unfold parseURL at h
  dsimp only at h
  split at h
  · exact absurd h (by simp)
  · rename_i v _
    by_cases hh : v.Host = ""
    · rw [if_pos hh] at h; exact absurd h (by simp)
    · rw [if_neg hh] at h
      by_cases hs : v.Scheme ≠ "http" ∧ v.Scheme ≠ "https"
      · rw [if_pos hs] at h; exact absurd h (by simp)
      · rw [if_neg hs] at h
        have hv : v = u := by injection h
        subst hv
        exact ⟨by tauto, hh⟩

/-- Witness of C5: `example.com` is normalised to `https://example.com`. -/
theorem parseURL_ok_valid_witness :
    parseURL asciiStdlib "example.com" = .ok exampleCom ∧
      (exampleCom.Scheme = "http" ∨ exampleCom.Scheme = "https") ∧ exampleCom.Host ≠ "" :=
  ⟨rfl, parseURL_ok_valid asciiStdlib "example.com" exampleCom rfl⟩

end crawler

/-! ## The scheme that `url.Parse` reads off a text that starts with `https://` -/

namespace url

theorem setPath_scheme (u v : URL) (p : String) (h : setPath u p = .ok v) :
    v.Scheme = u.Scheme := by
  unfold setPath at h
  split at h
  · exact absurd h (by simp)
  · split_ifs at h <;> (injection h with h; subst h; rfl)

theorem setFragment_scheme (u v : URL) (f : String) (h : setFragment u f = .ok v) :
    v.Scheme = u.Scheme := by
  unfold setFragment at h
  split at h
  · exact absurd h (by simp)
  · split_ifs at h <;> (injection h with h; subst h; rfl)

theorem parseRest_scheme (quote : String → String) (viaRequest : Bool) (u v : URL)
    (rest : String) (h : parseRest quote viaRequest u rest = .ok v) : v.Scheme = u.Scheme := by
  unfold parseRest at h
  split_ifs at h
  all_goals first
    | exact (setPath_scheme _ _ _ h :)
    | (injection h with h; subst h; rfl)
    | (split at h <;> split at h <;>
        first
          | exact absurd h (by simp)
          | exact (setPath_scheme _ _ _ h :))

theorem getScheme_https (rawURL : String) (rest : List Char)
    (h : rawURL.data = 'h' :: 't' :: 't' :: 'p' :: 's' :: ':' :: rest) :
    getScheme rawURL = .ok ("https", ⟨rest⟩) := by
  unfold getScheme
  rw [h]
  simp [getSchemeLoop, strings.sliceTo, strings.sliceFrom, h]

end url

namespace url

theorem parse_https (quote : String → String) (viaRequest : Bool) (rawURL : String)
    (rest : List Char) (u : URL)
    (hd : rawURL.data = 'h' :: 't' :: 't' :: 'p' :: 's' :: ':' :: rest)
    (h : parse quote rawURL viaRequest = .ok u) : u.Scheme = "https" := by
  have hstar : rawURL ≠ "*" := by
    intro hs
    rw [hs] at hd
    have hstar : ("*" : String).data = ['*'] := rfl
    rw [hstar] at hd
    simp at hd
  unfold parse at h
  rw [getScheme_https rawURL rest hd] at h
  dsimp only at h
  split_ifs at h
  all_goals first
    | exact absurd h (by simp)
    | exact (parseRest_scheme _ _ _ _ _ h :)

theorem Cut_hash_https (rawURL : String) (rest : List Char)
    (hd : rawURL.data = 'h' :: 't' :: 't' :: 'p' :: 's' :: ':' :: rest) :
    ∃ rest1, (strings.Cut rawURL "#").1.data = 'h' :: 't' :: 't' :: 'p' :: 's' :: ':' :: rest1 := by
  unfold strings.Cut strings.Index
  rw [hd]
  cases hi : strings.indexL "#".data rest with
  | none => exact ⟨rest, by simp [strings.indexL, hi, hd]⟩
  | some i => exact ⟨rest.take i, by simp [strings.indexL, hi, hd, strings.sliceTo]⟩

theorem Parse_https (quote : String → String) (rawURL : String) (rest : List Char) (u : URL)
    (hd : rawURL.data = 'h' :: 't' :: 't' :: 'p' :: 's' :: ':' :: rest)
    (h : Parse quote rawURL = .ok u) : u.Scheme = "https" := by
  obtain ⟨rest1, h1⟩ := Cut_hash_https rawURL rest hd
  unfold Parse at h
  split at h
  · exact absurd h (by simp)
  · rename_i v hv
    have hs := parse_https quote false _ rest1 v h1 hv
    split_ifs at h
    · injection h with h; subst h; exact hs
    · split at h
      · exact absurd h (by simp)
      · rename_i w hw
        injection h with h
        subst h
        rw [setFragment_scheme _ _ _ hw, hs]

end url

namespace crawler

/-- Evaluation for C2 (the claim fails on the code).  For the source `http://h/page`, which
`parseURL` accepts, `sortLinks` puts the link `https:///x` into the internal bucket as
`https:///x`: a text that `url.Parse` reads as a URL with an empty host, not with the host `h`
of the source. -/
theorem sortLinks_internal_without_host :
    parseURL asciiStdlib "http://h/page" = .ok hPage ∧
      sortLinks asciiStdlib hPage ["https:///x"] = (["https:///x"], []) ∧
      asciiStdlib.urlParse "https:///x" =
        .ok { url.zero with Scheme := "https", Host := "", Path := "/x" } :=
  ⟨rfl, rfl, rfl⟩

/-- C6. A source without `://` is parsed as `https://` followed by the source: a URL that
`parseURL` returns is the one `url.Parse` gives for that text, an error of `url.Parse` on that
text is returned as it is, and with Go's `url.Parse` the scheme of the result is `https`.  A
source with `://` is parsed as it stands.  `example.com` and `localhost:8080` succeed with the
scheme `https`. -/
theorem parseURL_default_scheme (L : Stdlib) (quote parseMediaType detect : String → String)
    (raw : String) :
    (strings.Contains raw "://" = false →
        (∀ u, parseURL L raw = .ok u → L.urlParse ("https://" ++ raw) = .ok u) ∧
        (∀ e, L.urlParse ("https://" ++ raw) = .error e → parseURL L raw = .error e) ∧
        (∀ u, parseURL (goStdlib quote parseMediaType detect) raw = .ok u →
          u.Scheme = "https")) ∧
      (strings.Contains raw "://" = true →
        (∀ u, parseURL L raw = .ok u → L.urlParse raw = .ok u) ∧
        (∀ e, L.urlParse raw = .error e → parseURL L raw = .error e)) ∧
      parseURL (goStdlib quote parseMediaType detect) "example.com" =
        .ok { url.zero with Scheme := "https", Host := "example.com" } ∧
      parseURL (goStdlib quote parseMediaType detect) "localhost:8080" =
        .ok { url.zero with Scheme := "https", Host := "localhost:8080" } := by
  have key : ∀ (M : Stdlib) (s : String) (u : URL),
      (match M.urlParse s with
        | .error err => .error err
        | .ok u =>
          if u.Host = "" then
            .error (.wrapError ("parse " ++ M.quote s ++ ": " ++ ErrMissingHostname.Error M.quote)
              ErrMissingHostname)
          else if u.Scheme ≠ "http" ∧ u.Scheme ≠ "https" then
            .error (.wrapError
              ("parse " ++ M.quote s ++ ": " ++ ErrUnsupportedScheme.Error M.quote ++ " "
                ++ M.quote u.Scheme)
              ErrUnsupportedScheme)
          else .ok u : Except GoError URL) = .ok u → M.urlParse s = .ok u := by
    intro M s u h
    split at h
    · exact absurd h (by simp)
    · rename_i v hv
      split_ifs at h
      injection h with h
      subst h
      exact hv
  refine ⟨fun hc => ⟨?_, ?_, ?_⟩, fun hc => ⟨?_, ?_⟩, rfl, rfl⟩
  · intro u h
    unfold parseURL at h
    simp only [hc, Bool.not_false, if_true] at h
    exact key L _ u h
  · intro e he
    unfold parseURL
    simp only [hc, Bool.not_false, if_true, he]
  · intro u h
    unfold parseURL at h
    simp only [hc, Bool.not_false, if_true] at h
    have hp := key (goStdlib quote parseMediaType detect) _ u h
    exact url.Parse_https quote ("https://" ++ raw) ('/' :: '/' :: raw.data) u rfl hp
  · intro u h
    unfold parseURL at h
    simp only [hc, Bool.not_true, Bool.false_eq_true, if_false] at h
    exact key L _ u h
  · intro e he
    unfold parseURL
    simp only [hc, Bool.not_true, Bool.false_eq_true, if_false, he]

/-- C7. When the text that `parseURL` parses (the source, after `https://` was put in front of
a source without `://`) gives a URL with an empty host, `parseURL` fails with an error that
wraps `ErrMissingHostname` and whose message is `parse `, the quoted text, `: missing hostname`.
The empty source and `https:///relative/path` are such sources. -/
theorem parseURL_missing_hostname :
    (∀ (L : Stdlib) (raw : String) (u : URL),
        L.urlParse (if strings.Contains raw "://" then raw else "https://" ++ raw) = .ok u →
        u.Host = "" →
        ∃ err, parseURL L raw = .error err ∧ err.Is ErrMissingHostname = true ∧
          err.Error L.quote =
            "parse " ++ L.quote (if strings.Contains raw "://" then raw else "https://" ++ raw)
              ++ ": " ++ "missing hostname") ∧
      (∃ err, parseURL asciiStdlib "" = .error err ∧ err.Is ErrMissingHostname = true ∧
        err.Error quoteASCII = "parse \"https://\": missing hostname") ∧
      (∃ err, parseURL asciiStdlib "https:///relative/path" = .error err ∧
        err.Is ErrMissingHostname = true ∧
        err.Error quoteASCII = "parse \"https:///relative/path\": missing hostname") := by
  refine ⟨?_, ⟨_, rfl, rfl, rfl⟩, ⟨_, rfl, rfl, rfl⟩⟩
  intro L raw u hp hh
  refine ⟨.wrapError
    ("parse " ++ L.quote (if strings.Contains raw "://" then raw else "https://" ++ raw)
      ++ ": " ++ "missing hostname") ErrMissingHostname, ?_, ?_, rfl⟩
  · unfold parseURL
    cases hc : strings.Contains raw "://" with
    | true =>
      rw [hc] at hp
      simp only [if_true] at hp
      simp only [Bool.not_true, Bool.false_eq_true, if_false, hp, hh, if_true]
      rfl
    | false =>
      rw [hc] at hp
      simp only [Bool.false_eq_true, if_false] at hp
      simp only [Bool.not_false, if_true, hp, hh]
      rfl
  · simp [GoError.Is, ErrMissingHostname]

/-- Counterexample to C8 as stated.  The source `ftp:///x` parses to a URL whose scheme `ftp`
is neither `http` nor `https`, and `parseURL` fails with the missing-hostname error, which does
not wrap `ErrUnsupportedScheme`: the host is tested before the scheme. -/
theorem parseURL_unsupported_scheme_counterexample :
    asciiStdlib.urlParse "ftp:///x" = .ok { url.zero with Scheme := "ftp", Path := "/x" } ∧
      parseURL asciiStdlib "ftp:///x" =
        .error (.wrapError "parse \"ftp:///x\": missing hostname" ErrMissingHostname) ∧
      (GoError.wrapError "parse \"ftp:///x\": missing hostname" ErrMissingHostname).Is
        ErrUnsupportedScheme = false :=
  ⟨rfl, rfl, rfl⟩

/-- C8, amended.  When the text that `parseURL` parses gives a URL with a non-empty host whose
scheme is neither `http` nor `https`, `parseURL` fails with an error that wraps
`ErrUnsupportedScheme` and whose message is `parse `, the quoted text, `: unsupported scheme `
and the quoted scheme. -/
theorem parseURL_unsupported_scheme (L : Stdlib) (raw : String) (u : URL)
    (hp : L.urlParse (if strings.Contains raw "://" then raw else "https://" ++ raw) = .ok u)
    (hh : u.Host ≠ "") (hs : u.Scheme ≠ "http" ∧ u.Scheme ≠ "https") :
    ∃ err, parseURL L raw = .error err ∧ err.Is ErrUnsupportedScheme = true ∧
      err.Error L.quote =
        "parse " ++ L.quote (if strings.Contains raw "://" then raw else "https://" ++ raw)
          ++ ": " ++ "unsupported scheme" ++ " " ++ L.quote u.Scheme := by
  refine ⟨.wrapError
    ("parse " ++ L.quote (if strings.Contains raw "://" then raw else "https://" ++ raw)
      ++ ": " ++ "unsupported scheme" ++ " " ++ L.quote u.Scheme) ErrUnsupportedScheme,
    ?_, ?_, rfl⟩
  · unfold parseURL
    cases hc : strings.Contains raw "://" with
    | true =>
      rw [hc] at hp
      simp only [if_true] at hp
      simp only [Bool.not_true, Bool.false_eq_true, if_false, hp, hh, if_true]
      rw [if_pos hs]
      rfl
    | false =>
      rw [hc] at hp
      simp only [Bool.false_eq_true, if_false] at hp
      simp only [Bool.not_false, if_true, hp, hh, if_false]
      rw [if_pos hs]
      rfl
  · simp [GoError.Is, ErrUnsupportedScheme]

/-- Witness of C8, amended: the source `ftp://file.txt` fails with the message
`parse "ftp://file.txt": unsupported scheme "ftp"`. -/
theorem parseURL_unsupported_scheme_witness :
    ∃ err, parseURL asciiStdlib "ftp://file.txt" = .error err ∧
      err.Is ErrUnsupportedScheme = true ∧
      err.Error quoteASCII = "parse \"ftp://file.txt\": unsupported scheme \"ftp\"" :=
  parseURL_unsupported_scheme asciiStdlib "ftp://file.txt"
    { url.zero with Scheme := "ftp", Host := "file.txt" } rfl (by decide) (by decide)

/-- The worker count that `NewHTTPLinkCrawler` settles on when the options leave `n`. -/
theorem NewHTTPLinkCrawler_numWorkers_eq (opts : List HTTPLinkCrawlerOption) (n : Int) :
    (NewHTTPLinkCrawler (opts ++ [WithNumWorkers n])).numWorkers =
      if n < 1 then 10 else if n > 24 then 24 else n := by
  unfold NewHTTPLinkCrawler
  simp only [List.foldl_append, List.foldl_cons, List.foldl_nil, WithNumWorkers,
    defaultNumWorkers, maxNumWorkers]
  split_ifs
  all_goals rfl

/-- C9. For every integer `n` given through `WithNumWorkers` (after any other options), the
crawler that `NewHTTPLinkCrawler` builds has a worker count between 1 and 24, equal to `n` when
`n` is between 1 and 24; the counts for `-1`, `0` and `2147483647` are 10, 10 and 24. -/
theorem NewHTTPLinkCrawler_numWorkers_bounds (opts : List HTTPLinkCrawlerOption) (n : Int) :
    1 ≤ (NewHTTPLinkCrawler (opts ++ [WithNumWorkers n])).numWorkers ∧
      (NewHTTPLinkCrawler (opts ++ [WithNumWorkers n])).numWorkers ≤ 24 ∧
      (1 ≤ n ∧ n ≤ 24 → (NewHTTPLinkCrawler (opts ++ [WithNumWorkers n])).numWorkers = n) ∧
      (NewHTTPLinkCrawler [WithNumWorkers (-1)]).numWorkers = 10 ∧
      (NewHTTPLinkCrawler [WithNumWorkers 0]).numWorkers = 10 ∧
      (NewHTTPLinkCrawler [WithNumWorkers 2147483647]).numWorkers = 24 := by
  rw [NewHTTPLinkCrawler_numWorkers_eq]
  refine ⟨?_, ?_, ?_, by decide, by decide, by decide⟩
  · split_ifs <;> omega
  · split_ifs <;> omega
  · intro h
    split_ifs <;> omega

/-- Counterexample to C10 as stated: a configured count of 25 gives 24 workers, not the
default of 10. -/
theorem NewHTTPLinkCrawler_above_max_counterexample :
    (NewHTTPLinkCrawler [WithNumWorkers 25]).numWorkers = 24 ∧
      (NewHTTPLinkCrawler [WithNumWorkers 25]).numWorkers ≠ defaultNumWorkers := by
  decide

/-- C10, amended.  `NewHTTPLinkCrawler` returns a crawler for every configured count (it has
no error result); a count below 1 is replaced by the default of 10 and a count above 24 by the
maximum of 24. -/
theorem NewHTTPLinkCrawler_out_of_range (opts : List HTTPLinkCrawlerOption) (n : Int) :
    (n < 1 → (NewHTTPLinkCrawler (opts ++ [WithNumWorkers n])).numWorkers = defaultNumWorkers) ∧
      (n > 24 → (NewHTTPLinkCrawler (opts ++ [WithNumWorkers n])).numWorkers = maxNumWorkers) := by
  rw [NewHTTPLinkCrawler_numWorkers_eq]
  unfold defaultNumWorkers maxNumWorkers
  constructor
  · intro h
    rw [if_pos h]
  · intro h
    rw [if_neg (by omega), if_pos h]

end crawler

/-! ## Orchestration boundary, request step and content sniffing -/

namespace cli

open ExitCode

/-- C11. `initCrawler` fails exactly when the worker count is below 1 or above 24, with the
message `number of workers must be greater than 0` below 1 and `maximum workers is 24` above 24;
and when `Run` has found an input source and the configured count is out of that range, it
prints that message to the error writer and returns `CodeErrBadArgs` without going on to
`doCrawl`: no crawler is built, no crawl starts, the output writer is not used. -/
theorem initCrawler_rejects_out_of_range (quote : String → String) (fs : FileSystem)
    (html text jsonLinks : crawler.LinkCollector) (cfg : Config)
    (inputSources : List InputSource) (n timeout : Int) :
    ((∃ err, initCrawler html text jsonLinks n timeout = .error err) ↔ (n < 1 ∨ n > 24)) ∧
      (n < 1 → initCrawler html text jsonLinks n timeout =
        .error (.errorString "number of workers must be greater than 0")) ∧
      (n > 24 → initCrawler html text jsonLinks n timeout =
        .error (.errorString "maximum workers is 24")) ∧
      (∀ src code, initInputSource quote fs inputSources = .ok (src, code) →
        (cfg.NumWorkers < 1 →
          Run quote fs html text jsonLinks cfg inputSources =
            .exit CodeErrBadArgs "number of workers must be greater than 0\n") ∧
        (cfg.NumWorkers > 24 →
          Run quote fs html text jsonLinks cfg inputSources =
            .exit CodeErrBadArgs "maximum workers is 24\n")) := by
  have hlow : ∀ m t : Int, m < 1 → initCrawler html text jsonLinks m t =
      .error (.errorString "number of workers must be greater than 0") := by
    intro m t h
    unfold initCrawler
    rw [if_pos h]
  have hhigh : ∀ m t : Int, m > 24 → initCrawler html text jsonLinks m t =
      .error (.errorString "maximum workers is 24") := by
    intro m t h
    unfold initCrawler maxNumWorkers
    rw [if_neg (by omega), if_pos h]
    rfl
  refine ⟨⟨?_, ?_⟩, hlow n timeout, hhigh n timeout, ?_⟩
  · rintro ⟨err, h⟩
    by_contra hc
    unfold initCrawler maxNumWorkers at h
    rw [if_neg (by omega), if_neg (by omega)] at h
    exact absurd h (by simp)
  · rintro (h | h)
    · exact ⟨_, hlow n timeout h⟩
    · exact ⟨_, hhigh n timeout h⟩
  · intro src code hsrc
    constructor
    · intro h
      unfold Run
      rw [hsrc]
      dsimp only
      rw [hlow _ _ h]
      rfl
    · intro h
      unfold Run
      rw [hsrc]
      dsimp only
      rw [hhigh _ _ h]
      rfl

end cli

namespace crawler

/-- C12. When the request was created and `client.Do` returned a response with status code
`c`, `doRequest` succeeds exactly when `c` is 200 or 204; for every other `c` the failure of the
crawl result wraps `ErrUnexpectedStatusCode` and its message is `unexpected status code: `
followed by `c` in decimal. -/
theorem doRequest_status_code (L : Stdlib) (N : Transport) (c : HTTPLinkCrawler)
    (sourceURL : URL) (resp : Response)
    (hreq : N.newRequest (L.urlString sourceURL) = none)
    (hdo : N.clientDo (L.urlString sourceURL) c.userAgent c.clientTimeout = .ok resp) :
    ((∃ r, doRequest L N c sourceURL = .ok r) ↔
        (resp.StatusCode = 200 ∨ resp.StatusCode = 204)) ∧
      (¬ (resp.StatusCode = 200 ∨ resp.StatusCode = 204) →
        ∀ source, parseURL L source = .ok sourceURL →
          ∃ err, (doCrawl L N c source).Error = some err ∧
            err.Is ErrUnexpectedStatusCode = true ∧
            err.Error L.quote = "unexpected status code: " ++ toString resp.StatusCode) := by
  have hbad : ¬ (resp.StatusCode = 200 ∨ resp.StatusCode = 204) →
      doRequest L N c sourceURL =
        .error (.wrapError ("unexpected status code: " ++ toString resp.StatusCode)
          ErrUnexpectedStatusCode) := by
    intro h
    unfold doRequest
    rw [hreq]
    dsimp only
    rw [hdo]
    dsimp only
    rw [if_pos (by tauto)]
    rfl
  constructor
  · constructor
    · rintro ⟨r, hr⟩
      by_contra h
      rw [hbad h] at hr
      exact absurd hr (by simp)
    · intro h
      refine ⟨resp, ?_⟩
      unfold doRequest
      rw [hreq]
      dsimp only
      rw [hdo]
      dsimp only
      rw [if_neg (by tauto)]
  · intro h source hsrc
    refine ⟨.wrapError ("unexpected status code: " ++ toString resp.StatusCode)
      ErrUnexpectedStatusCode, ?_, ?_, rfl⟩
    · unfold doCrawl
      rw [hsrc]
      dsimp only
      rw [hbad h]
      rfl
    · simp [GoError.Is, ErrUnexpectedStatusCode]

end crawler

namespace crawler

/-- Witness of C12: a response with status 403 for the source `http://h/page` gives the failure
`unexpected status code: 403`. -/
theorem doRequest_status_code_witness :
    ∃ err, (doCrawl asciiStdlib (answering 403 "" (bodyOf "")) (NewHTTPLinkCrawler [])
        "http://h/page").Error = some err ∧
      err.Is ErrUnexpectedStatusCode = true ∧
      err.Error quoteASCII = "unexpected status code: 403" :=
  (doRequest_status_code asciiStdlib (answering 403 "" (bodyOf "")) (NewHTTPLinkCrawler [])
    hPage { StatusCode := 403, ContentType := "", Body := bodyOf "" } rfl rfl).2
    (by decide) "http://h/page" rfl

end crawler

namespace crawler

theorem readAllLimit_ok (r : Reader) (n : Nat) (sniff : String)
    (h : readAllLimit r n = .ok sniff) :
    sniff = strings.sliceTo r.data (min n (strings.len r.data)) ∧
      strings.len sniff = min n (strings.len r.data) ∧
      multiReader sniff (advance r (strings.len sniff)) = r := by
  have hs : sniff = strings.sliceTo r.data n := by
    unfold readAllLimit at h
    split at h
    · split_ifs at h
      injection h with h
      exact h.symm
    · injection h with h
      exact h.symm
  subst hs
  have hlen : strings.len (strings.sliceTo r.data n) = min n (strings.len r.data) := by
    simp [strings.len, strings.sliceTo]
  refine ⟨?_, hlen, ?_⟩
  · simp only [strings.sliceTo, strings.len]
    congr 1
    rcases Nat.le_total n r.data.data.length with hle | hle
    · rw [Nat.min_eq_left hle]
    · rw [Nat.min_eq_right hle, List.take_of_length_le hle, List.take_length]
  · rw [hlen]
    unfold multiReader advance strings.sliceTo strings.sliceFrom strings.len
    cases r with
    | mk data err =>
      cases data with
      | mk l =>
        simp only [Reader.mk.injEq, and_true]
        show String.mk (l.take n ++ l.drop (min n l.length)) = String.mk l
        congr 1
        rcases Nat.le_total n l.length with hle | hle
        · rw [Nat.min_eq_left hle, List.take_append_drop]
        · rw [Nat.min_eq_right hle, List.take_of_length_le hle, List.drop_length,
            List.append_nil]

/-- C13. When the media type of the header is empty or `application/octet-stream` and reading
the first bytes of the body succeeds with `sniff`, then `sniff` is the first `min(512, length)`
bytes of the body, and the body that `detectContentType` leaves in the response (`sniff`
followed by the rest) is the original body, byte for byte and of the same length; it is this
body that `collectLinks` hands to the collector of the sniffed type. -/
theorem detectContentType_sniff_keeps_body (L : Stdlib) (resp : Response) (sniff : String)
    (hs : (if resp.ContentType ≠ "" then L.parseMediaType resp.ContentType
           else resp.ContentType) = "" ∨
          (if resp.ContentType ≠ "" then L.parseMediaType resp.ContentType
           else resp.ContentType) = "application/octet-stream")
    (hr : readAllLimit resp.Body sniffLen = .ok sniff) :
    sniff = strings.sliceTo resp.Body.data (min 512 (strings.len resp.Body.data)) ∧
      strings.len sniff = min 512 (strings.len resp.Body.data) ∧
      ∃ resp1, detectContentType L resp =
          .ok (L.parseMediaType (L.httpDetectContentType sniff), resp1) ∧
        resp1.Body.data = sniff ++ strings.sliceFrom resp.Body.data (strings.len sniff) ∧
        resp1.Body = resp.Body ∧
        strings.len resp1.Body.data = strings.len resp.Body.data ∧
        ∀ (c : HTTPLinkCrawler) (linkCollector : LinkCollector),
          c.collectors (L.parseMediaType (L.httpDetectContentType sniff)) = some linkCollector →
          collectLinks L c resp =
            match linkCollector resp.Body with
            | .error err => .error (.wrapError ("failed to get links: " ++ err.Error L.quote) err)
            | .ok links => .ok links := by
  obtain ⟨h1, h2, h3⟩ := readAllLimit_ok resp.Body sniffLen sniff hr
  have hd : detectContentType L resp =
      .ok (L.parseMediaType (L.httpDetectContentType sniff),
        { resp with Body := multiReader sniff (advance resp.Body (strings.len sniff)) }) := by
    unfold detectContentType
    dsimp only
    rw [if_neg (by tauto), hr]
  refine ⟨h1, h2, _, hd, rfl, h3, by rw [h3], ?_⟩
  intro c linkCollector hc
  unfold collectLinks
  rw [hd]
  dsimp only
  rw [hc, h3]

/-- Witness of C13: the empty body and a body of 3 bytes, without a `Content-Type` header. -/
theorem detectContentType_sniff_keeps_body_witness :
    ("" = strings.sliceTo "" (min 512 (strings.len "")) ∧ strings.len "" = min 512 (strings.len "") ∧
      ∃ resp1, detectContentType asciiStdlib
          { StatusCode := 200, ContentType := "", Body := bodyOf "" } = .ok ("", resp1) ∧
        resp1.Body.data = "" ++ strings.sliceFrom "" (strings.len "") ∧
        resp1.Body = bodyOf "" ∧
        strings.len resp1.Body.data = strings.len "" ∧
        ∀ (c : HTTPLinkCrawler) (linkCollector : LinkCollector),
          c.collectors "" = some linkCollector →
          collectLinks asciiStdlib c { StatusCode := 200, ContentType := "", Body := bodyOf "" } =
            match linkCollector (bodyOf "") with
            | .error err =>
              .error (.wrapError ("failed to get links: " ++ err.Error quoteASCII) err)
            | .ok links => .ok links) ∧
      ("abc" = strings.sliceTo "abc" (min 512 (strings.len "abc")) ∧
        strings.len "abc" = min 512 (strings.len "abc")) :=
  ⟨detectContentType_sniff_keeps_body asciiStdlib
      { StatusCode := 200, ContentType := "", Body := bodyOf "" } "" (Or.inl rfl) rfl,
    (detectContentType_sniff_keeps_body asciiStdlib
      { StatusCode := 200, ContentType := "application/octet-stream", Body := bodyOf "abc" }
      "abc" (Or.inr rfl) rfl).1,
    (detectContentType_sniff_keeps_body asciiStdlib
      { StatusCode := 200, ContentType := "application/octet-stream", Body := bodyOf "abc" }
      "abc" (Or.inr rfl) rfl).2.1⟩

/-- Counterexample to C14 as stated: without a `Content-Type` header and with a body whose
read fails, `detectContentType` returns no media type but the error of the read, wrapped. -/
theorem detectContentType_read_error_counterexample :
    detectContentType asciiStdlib
        { StatusCode := 200, ContentType := "",
          Body := { data := "", err := some (.errorString "read error") } } =
      .error (.wrapError "failed to detect content type: read error"
        (.errorString "read error")) :=
  rfl

/-- C14, amended.  Let `mt` be the media type of the `Content-Type` header, parameters
stripped (empty without a header).  When `mt` is neither empty nor `application/octet-stream`,
`detectContentType` returns `mt` whatever the body is, and leaves the body as it is.  When `mt`
is empty or `application/octet-stream`, it reads at most 512 bytes: when that read succeeds
with `sniff` it returns the media type sniffed from `sniff`, parameters stripped, and a body
advanced by the length of `sniff`, which is at most 512, behind `sniff`; when the read fails it
returns the error of the read, wrapped. -/
theorem detectContentType_header_or_sniff (L : Stdlib) (resp : Response) :
    ((if resp.ContentType ≠ "" then L.parseMediaType resp.ContentType
        else resp.ContentType) ≠ "" ∧
      (if resp.ContentType ≠ "" then L.parseMediaType resp.ContentType
        else resp.ContentType) ≠ "application/octet-stream" →
      ∀ body, detectContentType L { resp with Body := body } =
        .ok ((if resp.ContentType ≠ "" then L.parseMediaType resp.ContentType
              else resp.ContentType), { resp with Body := body })) ∧
    ((if resp.ContentType ≠ "" then L.parseMediaType resp.ContentType
        else resp.ContentType) = "" ∨
      (if resp.ContentType ≠ "" then L.parseMediaType resp.ContentType
        else resp.ContentType) = "application/octet-stream" →
      (∀ sniff, readAllLimit resp.Body sniffLen = .ok sniff →
        strings.len sniff ≤ 512 ∧
        detectContentType L resp =
          .ok (L.parseMediaType (L.httpDetectContentType sniff),
            { resp with
              Body := multiReader sniff (advance resp.Body (strings.len sniff)) })) ∧
      (∀ err, readAllLimit resp.Body sniffLen = .error err →
        detectContentType L resp =
          .error (.wrapError ("failed to detect content type: " ++ err.Error L.quote) err))) := by
  refine ⟨fun h body => ?_, fun h => ⟨fun sniff hr => ⟨?_, ?_⟩, fun err hr => ?_⟩⟩
  · unfold detectContentType
    dsimp only
    rw [if_pos h]
  · rw [(readAllLimit_ok resp.Body sniffLen sniff hr).2.1]
    exact Nat.min_le_left _ _
  · unfold detectContentType
    dsimp only
    rw [if_neg (by tauto), hr]
  · unfold detectContentType
    dsimp only
    rw [if_neg (by tauto), hr]

end crawler

/-! ## Cancellation of a request, and the record of a result -/

namespace crawler

theorem isCanceled_wrapError (msg : String) (err : GoError) :
    isCanceled (.wrapError msg err) = isCanceled err := by
  unfold isCanceled
  rfl

/-- C15. Take a source that parses and whose request is created.  When `client.Do` fails with
an error whose first `*url.Error` wraps `context.Canceled`, whatever its operation, URL and
text, the failure of the crawl result is `ErrOperationCanceled`, with the message
`operation canceled`.  When `client.Do` fails with any other error (a `*url.Error` that does
not wrap `context.Canceled`, such as one around `context.DeadlineExceeded`), the failure is
that error wrapped with the message `failed to send http request: ` and its own message; when
the status code is not 200 or 204 the failure wraps `ErrUnexpectedStatusCode`; neither is
`ErrOperationCanceled`. -/
theorem doCrawl_operation_canceled (L : Stdlib) (N : Transport) (c : HTTPLinkCrawler)
    (source : String) (sourceURL : URL) (hsrc : parseURL L source = .ok sourceURL)
    (hreq : N.newRequest (L.urlString sourceURL) = none) :
    (∀ err op u inner,
        N.clientDo (L.urlString sourceURL) c.userAgent c.clientTimeout = .error err →
        err.AsURLError = some (.urlError op u inner) → inner.Is .contextCanceled = true →
        (doCrawl L N c source).Error = some ErrOperationCanceled ∧
          ErrOperationCanceled.Error L.quote = "operation canceled") ∧
      (∀ err, N.clientDo (L.urlString sourceURL) c.userAgent c.clientTimeout = .error err →
        isCanceled err = false →
        (doCrawl L N c source).Error =
            some (.wrapError ("failed to send http request: " ++ err.Error L.quote) err) ∧
          (doCrawl L N c source).Error ≠ some ErrOperationCanceled) ∧
      (∀ op u, isCanceled (.urlError op u .deadlineExceeded) = false) ∧
      (∀ resp, N.clientDo (L.urlString sourceURL) c.userAgent c.clientTimeout = .ok resp →
        ¬ (resp.StatusCode = 200 ∨ resp.StatusCode = 204) →
        (doCrawl L N c source).Error =
            some (.wrapError ("unexpected status code: " ++ toString resp.StatusCode)
              ErrUnexpectedStatusCode) ∧
          (doCrawl L N c source).Error ≠ some ErrOperationCanceled) := by
  have hsend : ∀ err,
      N.clientDo (L.urlString sourceURL) c.userAgent c.clientTimeout = .error err →
      doRequest L N c sourceURL =
        .error (.wrapError ("failed to send http request: " ++ err.Error L.quote) err) := by
    intro err hdo
    unfold doRequest
    rw [hreq]
    dsimp only
    rw [hdo]
  refine ⟨?_, ?_, fun op u => rfl, ?_⟩
  · intro err op u inner hdo has hin
    refine ⟨?_, rfl⟩
    have hc : isCanceled err = true := by
      unfold isCanceled
      rw [has]
      exact hin
    unfold doCrawl
    rw [hsrc]
    dsimp only
    rw [hsend err hdo]
    dsimp only
    rw [isCanceled_wrapError, hc]
    rfl
  · intro err hdo hc
    have h : (doCrawl L N c source).Error =
        some (.wrapError ("failed to send http request: " ++ err.Error L.quote) err) := by
      unfold doCrawl
      rw [hsrc]
      dsimp only
      rw [hsend err hdo]
      dsimp only
      rw [isCanceled_wrapError, hc]
      rfl
    refine ⟨h, ?_⟩
    rw [h]
    simp [ErrOperationCanceled]
  · intro resp hdo hcode
    have h : (doCrawl L N c source).Error =
        some (.wrapError ("unexpected status code: " ++ toString resp.StatusCode)
          ErrUnexpectedStatusCode) := by
      unfold doCrawl
      rw [hsrc]
      dsimp only
      unfold doRequest
      rw [hreq]
      dsimp only
      rw [hdo]
      dsimp only
      rw [if_pos (by tauto)]
      rfl
    refine ⟨h, ?_⟩
    rw [h]
    simp [ErrOperationCanceled]

/-- Witness of C15: for `http://h/page`, a `client.Do` that fails with a `*url.Error` around
`context.Canceled` gives `ErrOperationCanceled`, and one around `context.DeadlineExceeded`
keeps its message. -/
theorem doCrawl_operation_canceled_witness :
    ((doCrawl asciiStdlib (failing (.urlError "Get" "http://h/page" .contextCanceled))
          (NewHTTPLinkCrawler []) "http://h/page").Error = some ErrOperationCanceled ∧
        ErrOperationCanceled.Error quoteASCII = "operation canceled") ∧
      (doCrawl asciiStdlib (failing (.urlError "Get" "http://h/page" .deadlineExceeded))
          (NewHTTPLinkCrawler []) "http://h/page").Error =
        some (.wrapError
          "failed to send http request: Get \"http://h/page\": context deadline exceeded"
          (.urlError "Get" "http://h/page" .deadlineExceeded)) :=
  ⟨(doCrawl_operation_canceled asciiStdlib
      (failing (.urlError "Get" "http://h/page" .contextCanceled)) (NewHTTPLinkCrawler [])
      "http://h/page" hPage rfl rfl).1 _ "Get" "http://h/page" .contextCanceled rfl rfl rfl,
    ((doCrawl_operation_canceled asciiStdlib
      (failing (.urlError "Get" "http://h/page" .deadlineExceeded)) (NewHTTPLinkCrawler [])
      "http://h/page" hPage rfl rfl).2.1 _ rfl rfl).1⟩

end crawler

namespace cli

/-- C16. The record that `toCrawlerResult` makes of a crawl result has the source as page URL,
the lengths of the two link lists as counts and `success` set exactly when the result has no
error; its error is null exactly when `success` is set, and is the message of the result's
error otherwise.  The same holds of the fields that `encoding/json` writes. -/
theorem toCrawlerResult_fields (quote : String → String) (r : crawler.LinkCrawlerResult) :
    (toCrawlerResult quote r).PageURL = r.Source ∧
      (toCrawlerResult quote r).NumInternalLinks = r.InternalLinks.length ∧
      (toCrawlerResult quote r).NumExternalLinks = r.ExternalLinks.length ∧
      ((toCrawlerResult quote r).Success = true ↔ r.Error = none) ∧
      ((toCrawlerResult quote r).Error = none ↔ (toCrawlerResult quote r).Success = true) ∧
      (∀ err, r.Error = some err → (toCrawlerResult quote r).Error = some (err.Error quote)) ∧
      (toCrawlerResult quote r).toObject =
        [("page_url", .string r.Source),
         ("internal_links_num", .number r.InternalLinks.length),
         ("external_links_num", .number r.ExternalLinks.length),
         ("success", .bool r.Error.isNone),
         ("error", match r.Error with
                   | none => .null
                   | some err => .string (err.Error quote))] := by
  unfold toCrawlerResult
  cases h : r.Error with
  | none => simp [crawlerResult.toObject]
  | some err => simp [crawlerResult.toObject]

end cli

/-! ## The result writers -/

theorem writeAll_calls_of_ok (w : OutWriter) (l : List String)
    (h : ∀ i p, l[i]? = some p → w.fails (w.calls ++ l.take i) p = none) :
    writeAll w l = ({ w with calls := w.calls ++ l }, false) := by
  induction l generalizing w with
  | nil => simp [writeAll]
  | cons p rest ih =>
    have h0 : w.fails w.calls p = none := by simpa using h 0 p (by simp)
    unfold writeAll OutWriter.Write
    simp only [h0]
    rw [ih]
    · simp
    · intro i q hq
      have := h (i + 1) q (by simpa using hq)
      simpa using this

theorem writeAll_calls_of_fail (w : OutWriter) (l : List String) (k : Nat) (p : String)
    (e : GoError)
    (hbefore : ∀ i q, i < k → l[i]? = some q → w.fails (w.calls ++ l.take i) q = none)
    (hk : l[k]? = some p) (hfail : w.fails (w.calls ++ l.take k) p = some e) :
    writeAll w l = ({ w with calls := w.calls ++ l.take (k + 1) }, true) := by
  induction l generalizing w k with
  | nil => simp at hk
  | cons a rest ih =>
    cases k with
    | zero =>
      simp only [List.getElem?_cons_zero, Option.some.injEq] at hk
      subst hk
      simp only [List.take_zero, List.append_nil] at hfail
      unfold writeAll OutWriter.Write
      simp [hfail]
    | succ k =>
      have h0 : w.fails w.calls a = none := by simpa using hbefore 0 a (by omega) (by simp)
      unfold writeAll OutWriter.Write
      simp only [h0]
      rw [ih { w with calls := w.calls ++ [a] } k]
      · simp
      · intro i q hi hq
        have := hbefore (i + 1) q (by omega) (by simpa using hq)
        simpa using this
      · simpa using hk
      · simpa using hfail

theorem writeAll_cons (w : OutWriter) (p : String) (rest : List String) :
    writeAll w (p :: rest) =
      match w.Write p with
      | (w1, some _) => (w1, true)
      | (w1, none) => writeAll w1 rest :=
  rfl

theorem writeAll_append (w : OutWriter) (l1 l2 : List String) :
    writeAll w (l1 ++ l2) =
      if (writeAll w l1).2 then writeAll w l1 else writeAll (writeAll w l1).1 l2 := by
  induction l1 generalizing w with
  | nil => simp [writeAll]
  | cons p rest ih =>
    simp only [List.cons_append, writeAll_cons]
    cases h : (w.Write p).2 with
    | none =>
      have : w.Write p = ((w.Write p).1, none) := by rw [← h]
      rw [this]
      simp only
      exact ih _
    | some e =>
      have : w.Write p = ((w.Write p).1, some e) := by rw [← h]
      rw [this]
      simp

namespace cli

open ExitCode

theorem unbufferedLoop_eq (quote jsonString : String → String) (enc : json.Encoder)
    (joinTmpl : String) (results : List crawler.LinkCrawlerResult) :
    ∀ (join : String) (out outErr : OutWriter),
      (unbufferedLoop quote jsonString enc joinTmpl results join out outErr).1 =
          (if (writeAll out (recordChunks quote jsonString enc joinTmpl results join)).2
            then CodeErrOutput else CodeOK) ∧
        (unbufferedLoop quote jsonString enc joinTmpl results join out outErr).2.1 =
          (writeAll out (recordChunks quote jsonString enc joinTmpl results join)).1 ∧
        ((writeAll out (recordChunks quote jsonString enc joinTmpl results join)).2 = false →
          (unbufferedLoop quote jsonString enc joinTmpl results join out outErr).2.2 =
            outErr) := by
  induction results with
  | nil => intro join out outErr; simp [unbufferedLoop, recordChunks, writeAll]
  | cons r rest ih =>
    intro join out outErr
    simp only [unbufferedLoop, encodeToBuffer, recordChunks, writeAll_cons, trimmedRecord]
    cases hf : out.fails out.calls (join ++ strings.Trim
      (enc.encodeObject jsonString (toCrawlerResult quote r).toObject) "\r\n") with
    | none =>
      simp only [OutWriter.Write, hf]
      exact ih _ _ _
    | some e => simp [OutWriter.Write, hf]

theorem unbufferedJSONResultWriter_eq (quote jsonString : String → String)
    (out outErr : OutWriter) (pretty : Bool) (results : List crawler.LinkCrawlerResult) :
    (unbufferedJSONResultWriter quote jsonString out outErr pretty results).1 =
        (if (writeAll out (unbufferedChunks quote jsonString pretty results)).2
          then CodeErrOutput else CodeOK) ∧
      (unbufferedJSONResultWriter quote jsonString out outErr pretty results).2.1 =
        (writeAll out (unbufferedChunks quote jsonString pretty results)).1 ∧
      ((writeAll out (unbufferedChunks quote jsonString pretty results)).2 = false →
        (unbufferedJSONResultWriter quote jsonString out outErr pretty results).2.2 =
          outErr) := by
  have hopen : ("[" ++ (if pretty then "\n" else "") ++ (if pretty then jsonIndent else "")) =
      (if pretty then "[\n  " else "[") := by cases pretty <;> rfl
  have hjoin : (if pretty then ",\n" ++ (if pretty then jsonIndent else "") else ",") =
      (if pretty then ",\n  " else ",") := by cases pretty <;> rfl
  have hclose : ((if pretty then "\n" else "") ++ "]\n") =
      (if pretty then "\n]\n" else "]\n") := by cases pretty <;> rfl
  have henc : (if pretty then json.NewEncoder.SetIndent jsonIndent jsonIndent
      else json.NewEncoder) = unbufferedEncoder pretty := rfl
  unfold unbufferedJSONResultWriter unbufferedChunks
  simp only [hopen, hjoin, hclose, henc, writeAll_cons]
  cases hf : out.fails out.calls (if pretty then "[\n  " else "[") with
  | some e => simp [OutWriter.Write, hf]
  | none =>
    simp only [OutWriter.Write, hf]
    generalize OutWriter.mk out.fails (out.calls ++ [(if pretty then "[\n  " else "[")]) = out1
    obtain ⟨h1, h2, h3⟩ := unbufferedLoop_eq quote jsonString (unbufferedEncoder pretty)
      (if pretty then ",\n  " else ",") results "" out1 outErr
    rw [writeAll_append]
    generalize unbufferedLoop quote jsonString (unbufferedEncoder pretty)
      (if pretty then ",\n  " else ",") results "" out1 outErr = res at h1 h2 h3
    obtain ⟨code, out2, outErr2⟩ := res
    simp only at h1 h2 h3
    generalize writeAll out1 (recordChunks quote jsonString (unbufferedEncoder pretty)
      (if pretty then ",\n  " else ",") results "") = wres at h1 h2 h3
    obtain ⟨w2, failed⟩ := wres
    simp only at h1 h2 h3
    subst h2
    cases failed with
    | true =>
      simp only [if_true] at h1
      subst h1
      simp
    | false =>
      simp only [Bool.false_eq_true, if_false] at h1
      subst h1
      have h3 := h3 rfl
      subst h3
      simp only [ne_eq, not_true_eq_false, if_false, Bool.false_eq_true, writeAll_cons]
      cases hc : out2.fails out2.calls (if pretty then "\n]\n" else "]\n") with
      | none => simp [OutWriter.Write, hc, writeAll]
      | some e => simp [OutWriter.Write, hc]

end cli

namespace strings

theorem Join_cons_cons (a b : String) (l : List String) (sep : String) :
    Join (a :: b :: l) sep = a ++ sep ++ Join (b :: l) sep :=
  rfl

theorem Join_empty_sep (a : String) (l : List String) : Join (a :: l) "" = a ++ Join l "" := by
  cases l with
  | nil => simp [Join]
  | cons b l => simp [Join_cons_cons]

theorem Join_concat_empty_sep (l : List String) (c : String) :
    Join (l ++ [c]) "" = Join l "" ++ c := by
  induction l with
  | nil => simp [Join]
  | cons a l ih => rw [List.cons_append, Join_empty_sep, Join_empty_sep, ih, String.append_assoc]

theorem Trim_braces (m : String) : Trim ("\x7b" ++ m ++ "\x7d" ++ "\n") "\r\n" = "\x7b" ++ m ++ "\x7d" := by
  apply String.ext
  have hd : ("\x7b" ++ m ++ "\x7d" ++ "\n").data = '{' :: (m.data ++ ['}', '\n']) := by
    simp [String.data_append]
  unfold Trim
  rw [hd]
  have hc : ("\r\n" : String).data = ['\r', '\n'] := rfl
  rw [hc]
  simp [List.dropWhile, String.data_append]

end strings

namespace cli

open ExitCode

theorem trimmedRecord_compact (quote jsonString : String → String)
    (r : crawler.LinkCrawlerResult) :
    trimmedRecord quote jsonString (unbufferedEncoder false) r =
      json.marshalObject jsonString (toCrawlerResult quote r).toObject := by
  unfold trimmedRecord unbufferedEncoder json.Encoder.encodeObject json.NewEncoder
    json.marshalObject
  simp only [Bool.false_eq_true, if_false, ne_eq, not_true_eq_false, or_self]
  exact strings.Trim_braces _

theorem trimmedRecord_pretty (quote jsonString : String → String)
    (r : crawler.LinkCrawlerResult) :
    trimmedRecord quote jsonString (unbufferedEncoder true) r =
      json.indentObject jsonString "  " "  " 0 (toCrawlerResult quote r).toObject := by
  have hne : (toCrawlerResult quote r).toObject ≠ [] := by
    simp [crawlerResult.toObject]
  unfold trimmedRecord unbufferedEncoder json.Encoder.encodeObject json.NewEncoder
    json.Encoder.SetIndent json.indentObject jsonIndent
  simp only [if_true, if_neg hne]
  rw [if_pos (by decide)]
  have h : ∀ a b c : String,
      "\x7b" ++ a ++ b ++ c ++ "\x7d" ++ "\n" = "\x7b" ++ (a ++ b ++ c) ++ "\x7d" ++ "\n" := by
    intro a b c
    simp only [String.append_assoc]
  rw [h, strings.Trim_braces]
  simp only [String.append_assoc]

theorem recordChunks_length (quote jsonString : String → String) (enc : json.Encoder)
    (joinTmpl : String) (results : List crawler.LinkCrawlerResult) :
    ∀ join, (recordChunks quote jsonString enc joinTmpl results join).length =
      results.length := by
  induction results with
  | nil => intro join; rfl
  | cons r rest ih => intro join; simp [recordChunks, ih]

theorem Join_recordChunks (quote jsonString : String → String) (enc : json.Encoder)
    (joinTmpl : String) (results : List crawler.LinkCrawlerResult) :
    ∀ join, strings.Join (recordChunks quote jsonString enc joinTmpl results join) "" =
      if results.isEmpty then ""
      else join ++ strings.Join (results.map (trimmedRecord quote jsonString enc)) joinTmpl := by
  induction results with
  | nil => intro join; simp [recordChunks, strings.Join]
  | cons r rest ih =>
    intro join
    rw [recordChunks, strings.Join_empty_sep, ih]
    cases rest with
    | nil => simp [strings.Join]
    | cons b l => simp [strings.Join_cons_cons, String.append_assoc]

theorem Join_unbufferedChunks (quote jsonString : String → String) (pretty : Bool)
    (results : List crawler.LinkCrawlerResult) :
    strings.Join (unbufferedChunks quote jsonString pretty results) "" =
      (if pretty then "[\n  " else "[")
        ++ strings.Join (results.map (trimmedRecord quote jsonString (unbufferedEncoder pretty)))
            (if pretty then ",\n  " else ",")
        ++ (if pretty then "\n]\n" else "]\n") := by
  unfold unbufferedChunks
  rw [strings.Join_empty_sep, strings.Join_concat_empty_sep, Join_recordChunks]
  cases results with
  | nil => simp [strings.Join, String.append_assoc]
  | cons r rest => simp [String.append_assoc]

end cli

namespace cli

open ExitCode

theorem foldl_toCrawlerResult (quote : String → String)
    (results : List crawler.LinkCrawlerResult) :
    ∀ acc : List crawlerResult,
      results.foldl (fun buf r => buf ++ [toCrawlerResult quote r]) acc =
        acc ++ results.map (toCrawlerResult quote) := by
  induction results with
  | nil => intro acc; simp
  | cons r rest ih => intro acc; simp [ih]

/-- C17. Whatever results the buffered writer receives, it makes exactly one call of `Write`,
with the encoding of the array of their records: record number `i` is the record of result
number `i` and there are as many records as results.  In compact mode the text is `[`, the
records separated by `,`, `]` and a newline; in pretty mode the same over several lines; for
no result it is `[]` and a newline in both modes.  The exit code is `CodeOK` when the call
succeeds and `CodeErrOutput` when it fails. -/
theorem bufferedJSONResultWriter_writes_array (quote jsonString : String → String)
    (out : OutWriter) (pretty : Bool) (results : List crawler.LinkCrawlerResult) :
    (bufferedJSONResultWriter quote jsonString out pretty results).2.calls =
        out.calls ++ [bufferedPayload quote jsonString pretty results] ∧
      (out.fails out.calls (bufferedPayload quote jsonString pretty results) = none →
        (bufferedJSONResultWriter quote jsonString out pretty results).1 = CodeOK) ∧
      (∀ e, out.fails out.calls (bufferedPayload quote jsonString pretty results) = some e →
        (bufferedJSONResultWriter quote jsonString out pretty results).1 = CodeErrOutput) ∧
      bufferedPayload quote jsonString false results =
        "[" ++ strings.Join
            ((results.map (toCrawlerResult quote)).map
              (json.marshalObject jsonString ∘ crawlerResult.toObject)) ","
          ++ "]" ++ "\n" ∧
      (results ≠ [] → bufferedPayload quote jsonString true results =
        "[" ++ "\n  " ++ strings.Join
            ((results.map (toCrawlerResult quote)).map
              (json.indentObject jsonString "" "  " 1 ∘ crawlerResult.toObject))
            ("," ++ "\n  ")
          ++ "\n" ++ "]" ++ "\n") ∧
      bufferedPayload quote jsonString pretty [] = "[]\n" ∧
      (results.map (toCrawlerResult quote)).length = results.length ∧
      (∀ (i : Nat) (r : crawler.LinkCrawlerResult), results[i]? = some r →
        (results.map (toCrawlerResult quote))[i]? = some (toCrawlerResult quote r)) := by
  have hpay : ∀ e, bufferedJSONResultWriter quote jsonString out pretty results =
      (match (e : Option GoError) with
        | some _ => CodeErrOutput
        | none => CodeOK,
        { out with calls := out.calls ++ [bufferedPayload quote jsonString pretty results] }) ∨
      out.fails out.calls (bufferedPayload quote jsonString pretty results) ≠ e := by
    intro e
    by_cases he : out.fails out.calls (bufferedPayload quote jsonString pretty results) = e
    · left
      unfold bufferedJSONResultWriter
      simp only [foldl_toCrawlerResult, List.nil_append]
      have hp : (if pretty then json.NewEncoder.SetIndent "" jsonIndent
          else json.NewEncoder).encodeSlice jsonString
            (some ((results.map (toCrawlerResult quote)).map crawlerResult.toObject)) =
          bufferedPayload quote jsonString pretty results := rfl
      rw [hp]
      unfold OutWriter.Write
      rw [he]
      cases e <;> rfl
    · exact Or.inr he
  refine ⟨?_, ?_, ?_, ?_, ?_, ?_, by simp, ?_⟩
  · rcases hpay (out.fails out.calls (bufferedPayload quote jsonString pretty results))
      with h | h
    · rw [h]
    · exact absurd rfl h
  · intro hf
    rcases hpay none with h | h
    · rw [h]
    · exact absurd hf h
  · intro e hf
    rcases hpay (some e) with h | h
    · rw [h]
    · exact absurd hf h
  · unfold bufferedPayload
    generalize results.map (toCrawlerResult quote) = recs
    rw [← List.map_map]
    rfl
  · intro hne
    have hrecs : results.map (toCrawlerResult quote) ≠ [] := by simpa using hne
    unfold bufferedPayload
    generalize results.map (toCrawlerResult quote) = recs at hrecs
    cases recs with
    | nil => exact absurd rfl hrecs
    | cons r rest =>
      rw [← List.map_map]
      rfl
  · cases pretty <;> rfl
  · intro i r h
    simp [h]

end cli

namespace cli

open ExitCode

/-- C18. When none of its calls of `Write` fails, the unbuffered writer returns `CodeOK`,
leaves the error writer alone, and makes on `out` the calls of `unbufferedChunks`, in this
order.  Put together they are, in compact mode, `[`, the texts of the results separated by `,`,
and `]` with a newline; in pretty mode `[`, a newline and two blanks, the texts separated by
`,`, a newline and two blanks, then a newline and `]` with a newline.  The text of a result is
the encoding of its record without the leading and trailing carriage returns and newlines,
which is the encoded object itself. -/
theorem unbufferedJSONResultWriter_output (quote jsonString : String → String)
    (out outErr : OutWriter) (pretty : Bool) (results : List crawler.LinkCrawlerResult)
    (hok : ∀ (i : Nat) (p : String),
      (unbufferedChunks quote jsonString pretty results)[i]? = some p →
      out.fails (out.calls ++ (unbufferedChunks quote jsonString pretty results).take i) p =
        none) :
    unbufferedJSONResultWriter quote jsonString out outErr pretty results =
        (CodeOK,
          { out with calls := out.calls ++ unbufferedChunks quote jsonString pretty results },
          outErr) ∧
      strings.Join (unbufferedChunks quote jsonString false results) "" =
        "[" ++ strings.Join
            (results.map (trimmedRecord quote jsonString (unbufferedEncoder false))) ","
          ++ "]\n" ∧
      strings.Join (unbufferedChunks quote jsonString true results) "" =
        "[\n  " ++ strings.Join
            (results.map (trimmedRecord quote jsonString (unbufferedEncoder true))) ",\n  "
          ++ "\n]\n" ∧
      (∀ r, trimmedRecord quote jsonString (unbufferedEncoder pretty) r =
        strings.Trim
          ((unbufferedEncoder pretty).encodeObject jsonString (toCrawlerResult quote r).toObject)
          "\r\n") ∧
      (∀ r, trimmedRecord quote jsonString (unbufferedEncoder false) r =
        json.marshalObject jsonString (toCrawlerResult quote r).toObject) ∧
      (∀ r, trimmedRecord quote jsonString (unbufferedEncoder true) r =
        json.indentObject jsonString "  " "  " 0 (toCrawlerResult quote r).toObject) := by
  obtain ⟨h1, h2, h3⟩ := unbufferedJSONResultWriter_eq quote jsonString out outErr pretty results
  have hw := writeAll_calls_of_ok out (unbufferedChunks quote jsonString pretty results) hok
  rw [hw] at h1 h2 h3
  refine ⟨?_, ?_, ?_, fun r => rfl, trimmedRecord_compact quote jsonString,
    trimmedRecord_pretty quote jsonString⟩
  · apply Prod.ext
    · simpa using h1
    · apply Prod.ext
      · exact h2
      · exact h3 rfl
  · simpa using Join_unbufferedChunks quote jsonString false results
  · simpa using Join_unbufferedChunks quote jsonString true results

/-- Witness of C18: the compact output for one result on a writer that takes every call. -/
theorem unbufferedJSONResultWriter_output_witness :
    unbufferedJSONResultWriter quoteASCII jsonStringPlain acceptAll acceptAll false
        [path1Result] =
      (CodeOK,
        { acceptAll with
          calls := ["[",
            "\x7b\"page_url\":\"h/path1\",\"internal_links_num\":1,\"external_links_num\":0,\"success\":true,\"error\":null\x7d",
            "]\n"] },
        acceptAll) :=
  (unbufferedJSONResultWriter_output quoteASCII jsonStringPlain acceptAll acceptAll false
    [path1Result] (fun _ _ _ => rfl)).1

theorem unbufferedChunks_layout (quote jsonString : String → String) (pretty : Bool)
    (results : List crawler.LinkCrawlerResult) :
    (unbufferedChunks quote jsonString pretty results).length = results.length + 2 ∧
      (unbufferedChunks quote jsonString pretty results)[0]? =
        some (if pretty then "[\n  " else "[") ∧
      (unbufferedChunks quote jsonString pretty results)[results.length + 1]? =
        some (if pretty then "\n]\n" else "]\n") := by
  unfold unbufferedChunks
  refine ⟨by simp [recordChunks_length], by simp, ?_⟩
  rw [List.getElem?_cons_succ, List.getElem?_append_right (by simp [recordChunks_length])]
  simp [recordChunks_length]

/-- C19. Let the calls that the unbuffered writer makes when none fails be numbered from 0:
call 0 writes the opening bracket, call `i` for `1 ≤ i ≤ n` the `i`-th of the `n` results, call
`n + 1` the closing bracket.  When the calls before call `k` succeed and call `k` fails, the
writer returns `CodeErrOutput`, and the calls made on `out` are those it had before followed by
the calls 0 to `k`: the failed call is the last one, and the calls before it stay as they
were. -/
theorem unbufferedJSONResultWriter_stops_at_failure (quote jsonString : String → String)
    (out outErr : OutWriter) (pretty : Bool) (results : List crawler.LinkCrawlerResult)
    (k : Nat) (p : String) (e : GoError)
    (hbefore : ∀ (i : Nat) (q : String), i < k →
      (unbufferedChunks quote jsonString pretty results)[i]? = some q →
      out.fails (out.calls ++ (unbufferedChunks quote jsonString pretty results).take i) q =
        none)
    (hk : (unbufferedChunks quote jsonString pretty results)[k]? = some p)
    (hfail :
      out.fails (out.calls ++ (unbufferedChunks quote jsonString pretty results).take k) p =
        some e) :
    (unbufferedJSONResultWriter quote jsonString out outErr pretty results).1 = CodeErrOutput ∧
      (unbufferedJSONResultWriter quote jsonString out outErr pretty results).2.1.calls =
        out.calls ++ (unbufferedChunks quote jsonString pretty results).take (k + 1) ∧
      (unbufferedChunks quote jsonString pretty results).length = results.length + 2 ∧
      (unbufferedChunks quote jsonString pretty results)[0]? =
        some (if pretty then "[\n  " else "[") ∧
      (unbufferedChunks quote jsonString pretty results)[results.length + 1]? =
        some (if pretty then "\n]\n" else "]\n") := by
  obtain ⟨h1, h2, _⟩ := unbufferedJSONResultWriter_eq quote jsonString out outErr pretty results
  have hw := writeAll_calls_of_fail out (unbufferedChunks quote jsonString pretty results) k p e
    hbefore hk hfail
  rw [hw] at h1 h2
  obtain ⟨l1, l2, l3⟩ := unbufferedChunks_layout quote jsonString pretty results
  refine ⟨by simpa using h1, by rw [h2], l1, l2, l3⟩

/-- Witness of C19: with one result and a writer whose second call fails, the unbuffered
writer returns `CodeErrOutput` after the opening bracket and the failed record; the closing
bracket is not written. -/
theorem unbufferedJSONResultWriter_stops_at_failure_witness :
    (unbufferedJSONResultWriter quoteASCII jsonStringPlain (failAt 1) acceptAll false
        [path1Result]).1 = CodeErrOutput ∧
      (unbufferedJSONResultWriter quoteASCII jsonStringPlain (failAt 1) acceptAll false
        [path1Result]).2.1.calls =
        ["[",
          "\x7b\"page_url\":\"h/path1\",\"internal_links_num\":1,\"external_links_num\":0,\"success\":true,\"error\":null\x7d"] :=
  ⟨(unbufferedJSONResultWriter_stops_at_failure quoteASCII jsonStringPlain (failAt 1) acceptAll
      false [path1Result] 1 _ (.errorString "write error")
      (fun i q hi hq => by
        have hi0 : i = 0 := by omega
        subst hi0
        rfl)
      rfl rfl).1,
    (unbufferedJSONResultWriter_stops_at_failure quoteASCII jsonStringPlain (failAt 1) acceptAll
      false [path1Result] 1 _ (.errorString "write error")
      (fun i q hi hq => by
        have hi0 : i = 0 := by omega
        subst hi0
        rfl)
      rfl rfl).2.1⟩

end cli

/-! ## Exit status of `doCrawl` -/

namespace cli

open ExitCode

theorem consistent_init : CrawlState.init.consistent := by
  unfold CrawlState.consistent CrawlState.init
  simp [WatcherPC.isExited]

theorem consistent_step (s t : CrawlState) (a : Action) (hs : s.consistent)
    (h : step s a = some t) : t.consistent := by
  obtain ⟨code, canceled, sigPending, sigsClosed, panicked, watcher, worker⟩ := s
  unfold CrawlState.consistent at hs ⊢
  unfold step at h
  simp only at h
  by_cases hp : panicked = true
  · rw [if_pos hp] at h
    cases h
  rw [if_neg hp] at h
  cases a <;> simp only at h
  · -- signal
    split_ifs at h <;> (injection h with h; subst h; exact hs)
  · -- watcherSignal
    split_ifs at h with hc
    injection h with h; subst h
    simp only at hc hs ⊢
    obtain ⟨hc1, _⟩ := hc
    subst hc1
    exact ⟨by simp, hs.2.1, hs.2.2⟩
  · -- watcherCancel
    split_ifs at h with hc
    injection h with h; subst h
    simp only at hc hs ⊢
    subst hc
    exact ⟨by simpa using hs.1, by simp, by simp [WatcherPC.isExited]⟩
  · -- watcherDone
    split_ifs at h with hc
    injection h with h; subst h
    simp only at hc hs ⊢
    obtain ⟨hc1, hc2⟩ := hc
    subst hc1
    exact ⟨by simpa using hs.1, hs.2.1, by simp [WatcherPC.isExited]⟩
  · -- sinkReturns
    split_ifs at h with hc
    injection h with h; subst h
    simp only at hc hs ⊢
    subst hc
    refine ⟨?_, by simp, hs.2.2⟩
    have h1 := hs.1
    split_ifs at h1 ⊢ with hw
    · exact h1
    · exact h1
  · -- workerCommit
    cases worker with
    | returned wCode =>
      simp only at h hs
      have h1 := hs.1
      by_cases hw : watcher = .signalled ∨ watcher = .exited true
      · rw [if_pos hw] at h1
        subst h1
        simp only [ne_eq, not_true_eq_false, and_false, if_false] at h
        injection h with h; subst h
        exact ⟨by simp [hw], by simp, hs.2.2⟩
      · rw [if_neg hw] at h1
        subst h1
        by_cases hne : wCode = CodeOK
        · subst hne
          rw [if_neg (fun hc => hc.1 rfl)] at h
          injection h with h; subst h
          exact ⟨by simp [hw], by simp, hs.2.2⟩
        · rw [if_pos ⟨hne, by decide⟩] at h
          injection h with h; subst h
          exact ⟨by simp [hw], by simp, hs.2.2⟩
    | working => simp at h
    | committed w => simp at h
    | exited w => simp at h
  · -- workerCancel
    cases worker with
    | committed wCode =>
      simp only at h hs
      injection h with h; subst h
      exact ⟨by simpa using hs.1, by simp, hs.2.2⟩
    | working => simp at h
    | returned w => simp at h
    | exited w => simp at h

theorem consistent_run (sched : List Action) :
    ∀ s t : CrawlState, s.consistent → run s sched = some t → t.consistent := by
  induction sched with
  | nil =>
    intro s t hs h
    simp only [run, Option.some.injEq] at h
    subst h
    exact hs
  | cons a rest ih =>
    intro s t hs h
    simp only [run] at h
    split at h
    · rename_i u hu
      exact ih u t (consistent_step s u a hs hu) h
    · exact absurd h (by simp)

end cli

namespace cli

open ExitCode

theorem run_finish (s : CrawlState) (hs : s.consistent) (hp : s.panicked = false)
    (wCode : ExitCode) :
    ∃ t, run s (finish wCode s) = some t ∧ (returns t).isSome = true := by
  obtain ⟨code, canceled, sigPending, sigsClosed, panicked, watcher, worker⟩ := s
  simp only at hp
  subst hp
  have hc := hs.2.1
  cases worker <;> cases watcher <;> simp only [finish, run, step, List.append_nil,
    List.cons_append, List.nil_append, and_self, true_and, if_true, Bool.false_eq_true,
    if_false] <;>
    (try split_ifs) <;> simp_all [returns]

theorem step_of_panicked (s : CrawlState) (a : Action) (hp : s.panicked = true) :
    step s a = none := by
  simp [step, hp]

/-- C20. In every state that a run of `doCrawl` reaches without a panic, once both
goroutines have finished `doCrawl` returns `CodeErrOperationCanceled` when the watcher finished
through a signal, that is when it has set `code`, whatever the result writer returned, and the
code of the result writer otherwise; and from every such state there is a run to the end, so
`doCrawl` can return.  The channel `sigs` is closed exactly when the watcher has finished; a
signal that comes then makes the process panic, as in the run of a signal, the watcher and a
second signal, and after a panic nothing happens and `doCrawl` returns nothing; a signal that
comes before is kept in `sigs`. -/
theorem doCrawl_exit_status (sched : List Action) (s : CrawlState)
    (hrun : run .init sched = some s) :
    (∀ bySignal wCode, s.watcher = .exited bySignal → s.worker = .exited wCode →
        s.panicked = false →
        returns s = some (if bySignal then CodeErrOperationCanceled else wCode)) ∧
      (s.panicked = false →
        ∀ wCode, ∃ t, run s (finish wCode s) = some t ∧ (returns t).isSome = true) ∧
      (s.sigsClosed = true ↔ ∃ bySignal, s.watcher = .exited bySignal) ∧
      (s.panicked = false → s.sigsClosed = true →
        step s .signal = some { s with panicked := true }) ∧
      (s.panicked = false → s.sigsClosed = false →
        step s .signal = some { s with sigPending := true }) ∧
      (s.panicked = true → returns s = none ∧ ∀ a, step s a = none) ∧
      run .init [.signal, .watcherSignal, .watcherCancel, .signal] =
        some { code := CodeErrOperationCanceled, canceled := true, sigPending := false,
               sigsClosed := true, panicked := true, watcher := .exited true,
               worker := .working } := by
  have hs := consistent_run sched .init s consistent_init hrun
  refine ⟨?_, fun hp => run_finish s hs hp, ?_, ?_, ?_, ?_, rfl⟩
  · intro bySignal wCode hw hk hp
    obtain ⟨code, canceled, sigPending, sigsClosed, panicked, watcher, worker⟩ := s
    simp only at hw hk hp
    subst hw hk hp
    have h1 := hs.1
    cases bySignal <;> simp_all [returns]
  · rw [hs.2.2]
    cases s.watcher <;> simp [WatcherPC.isExited]
  · intro hp hc
    simp [step, hp, hc]
  · intro hp hc
    simp [step, hp, hc]
  · intro hp
    exact ⟨by simp [returns, hp], fun a => step_of_panicked s a hp⟩

/-- Witness of C20: the result writer returns `CodeErrOutput` and the work task stores it;
then the watcher takes a signal; `doCrawl` returns `CodeErrOperationCanceled`. -/
theorem doCrawl_exit_status_witness :
    returns { code := CodeErrOperationCanceled, canceled := true, sigPending := false,
              sigsClosed := true, panicked := false, watcher := .exited true,
              worker := .exited CodeErrOutput } =
      some CodeErrOperationCanceled :=
  (doCrawl_exit_status
    [.sinkReturns CodeErrOutput, .signal, .workerCommit, .watcherSignal, .watcherCancel,
      .workerCancel]
    { code := CodeErrOperationCanceled, canceled := true, sigPending := false,
      sigsClosed := true, panicked := false, watcher := .exited true,
      worker := .exited CodeErrOutput } rfl).1 true CodeErrOutput rfl rfl rfl

end cli

/-! ## The input source that `initInputSource` picks -/

namespace cli

open ExitCode

theorem initInputSource_skip_ignored (quote : String → String) (fs : FileSystem)
    (pre rest : List InputSource) (hpre : ∀ x ∈ pre, ignored x = true) :
    initInputSource quote fs (pre ++ rest) = initInputSource quote fs rest := by
  induction pre with
  | nil => rfl
  | cons x pre ih =>
    have hx : ignored x = true := hpre x (List.mem_cons_self _ _)
    have ih2 := ih (fun y hy => hpre y (List.mem_cons_of_mem _ hy))
    cases x with
    | nil => simpa [initInputSource] using ih2
    | stringList s =>
      have hs : s.length = 0 := by simpa [ignored] using hx
      simp only [List.cons_append, initInputSource, hs, if_true]
      exact ih2
    | path s =>
      have hs : strings.len s = 0 := by simpa [ignored] using hx
      simp only [List.cons_append, initInputSource, hs, if_true]
      exact ih2
    | readCloser r => simp [ignored] at hx
    | reader r => simp [ignored] at hx
    | other t => simp [ignored] at hx

/-- Evaluation for C21 (the claim fails on the code).  A reader that stands after a value of
an unsupported type is not returned: `initInputSource` fails with
`CodeErrUnsupportedInputSource`.  A non-empty string list that stands after a path that cannot
be opened is not returned either: `initInputSource` fails with `CodeErrOpenInputSource`. -/
theorem initInputSource_first_valid_counterexample :
    initInputSource quoteASCII (oneFile "urls.txt" "h") [.other "int", .reader (bodyOf "h")] =
        .error (CodeErrUnsupportedInputSource, .errorString "unsupported input source: int") ∧
      initInputSource quoteASCII (oneFile "urls.txt" "h")
          [.path "missing.txt", .stringList ["h"]] =
        .error (CodeErrOpenInputSource,
          .wrapError "could not open input file: open missing.txt: no such file or directory"
            (.errorString "open missing.txt: no such file or directory")) :=
  ⟨rfl, rfl⟩

/-- C21, amended. `initInputSource` passes over the `nil` candidates, the empty string lists
and the empty paths, and the first candidate that is not passed over decides the outcome,
whatever stands after it: a non-empty string list is returned as a reader of its elements
joined by newlines, a path that opens as the opened file, a reader as it is, each with
`CodeOK`; a path that does not open fails with `CodeErrOpenInputSource` and a value of another
type with `CodeErrUnsupportedInputSource`, even when a valid candidate follows.  When every
candidate is passed over the outcome is `CodeErrNoInputSource`. -/
theorem initInputSource_first_candidate (quote : String → String) (fs : FileSystem)
    (pre post : List InputSource) (c : InputSource)
    (hpre : ∀ x ∈ pre, ignored x = true) (hc : ignored c = false) :
    (∀ s, c = .stringList s → initInputSource quote fs (pre ++ c :: post) =
        .ok ({ data := strings.Join s "\n", err := none }, CodeOK)) ∧
      (∀ s f, c = .path s → fs.Open (fs.Clean s) = .ok f →
        initInputSource quote fs (pre ++ c :: post) = .ok (f, CodeOK)) ∧
      (∀ r, c = .readCloser r ∨ c = .reader r →
        initInputSource quote fs (pre ++ c :: post) = .ok (r, CodeOK)) ∧
      (∀ s err, c = .path s → fs.Open (fs.Clean s) = .error err →
        initInputSource quote fs (pre ++ c :: post) =
          .error (CodeErrOpenInputSource,
            .wrapError ("could not open input file: " ++ err.Error quote) err)) ∧
      (∀ t, c = .other t → initInputSource quote fs (pre ++ c :: post) =
        .error (CodeErrUnsupportedInputSource,
          .errorString ("unsupported input source: " ++ t))) ∧
      initInputSource quote fs pre =
        .error (CodeErrNoInputSource, .errorString "no input source") := by
  rw [initInputSource_skip_ignored quote fs pre (c :: post) hpre]
  refine ⟨?_, ?_, ?_, ?_, ?_, ?_⟩
  · intro s hs
    subst hs
    have hne : ¬ s.length = 0 := by simpa [ignored] using hc
    simp [initInputSource, hne]
  · intro s f hs hf
    subst hs
    have hne : ¬ strings.len s = 0 := by simpa [ignored] using hc
    simp [initInputSource, hne, hf]
  · intro r hr
    rcases hr with hr | hr <;> subst hr <;> rfl
  · intro s err hs hf
    subst hs
    have hne : ¬ strings.len s = 0 := by simpa [ignored] using hc
    simp [initInputSource, hne, hf]
  · intro t ht
    subst ht
    rfl
  · have := initInputSource_skip_ignored quote fs pre [] hpre
    simpa [initInputSource] using this

/-- Witness of C21: after a `nil`, an empty string list and an empty path, the file
`urls.txt` is opened and returned, although a value of an unsupported type follows. -/
theorem initInputSource_first_candidate_witness :
    initInputSource quoteASCII (oneFile "urls.txt" "h")
        ([.nil, .stringList [], .path ""] ++ .path "urls.txt" :: [.other "int"]) =
      .ok (bodyOf "h", CodeOK) :=
  (initInputSource_first_candidate quoteASCII (oneFile "urls.txt" "h")
    [.nil, .stringList [], .path ""] [.other "int"] (.path "urls.txt")
    (by intro x hx; simp at hx; rcases hx with h | h | h <;> subst h <;> rfl) rfl).2.1
    "urls.txt" (bodyOf "h") rfl rfl

end cli

/-! ## Classification and resolution of the links of `http://h/page` -/

namespace crawler

/-- Evaluation for C26 (the claim fails on the code).  Against the source `http://h/page` the
link `path#anchor` resolves to `http://h/path#anchor`, not to `http://h/page#anchor`: its path
`path` takes the place of the last segment `page`. -/
theorem sortLinks_path_anchor_counterexample :
    sortLinks asciiStdlib hPage ["path#anchor"] = (["http://h/path#anchor"], []) ∧
      sortLinks asciiStdlib hPage [".", "/absolute", "relative", "path#anchor", "?q=1"] ≠
        (["http://h/", "http://h/absolute", "http://h/relative", "http://h/page#anchor",
          "http://h/page?q=1"], []) := by
  refine ⟨rfl, ?_⟩
  have h : sortLinks asciiStdlib hPage [".", "/absolute", "relative", "path#anchor", "?q=1"] =
      (["http://h/", "http://h/absolute", "http://h/relative", "http://h/path#anchor",
        "http://h/page?q=1"], []) := rfl
  rw [h]
  decide

/-- C26, amended. `http://h/page` is a source that `parseURL` accepts, and for it the links
`.`, `/absolute`, `relative`, `path#anchor` and `?q=1` are all internal and resolve to
`http://h/`, `http://h/absolute`, `http://h/relative`, `http://h/path#anchor` and
`http://h/page?q=1`; it is the link `#anchor` that resolves to `http://h/page#anchor`.  The
links `http://other/x` and `//other/y`, whose host differs, are external and kept as they
are. -/
theorem sortLinks_of_hPage :
    parseURL asciiStdlib "http://h/page" = .ok hPage ∧
      sortLinks asciiStdlib hPage
          [".", "/absolute", "relative", "path#anchor", "?q=1", "http://other/x", "//other/y"] =
        (["http://h/", "http://h/absolute", "http://h/relative", "http://h/path#anchor",
          "http://h/page?q=1"], ["http://other/x", "//other/y"]) ∧
      sortLinks asciiStdlib hPage ["#anchor"] = (["http://h/page#anchor"], []) :=
  ⟨rfl, rfl, rfl⟩

/-- Evaluation for C29 (the claim fails on the code).  For the source `http://h/page` the
links `/absolute` and `http://h/other` do not start with the source URL, `sortLinks` keeps
them, and both go to the internal bucket. -/
theorem sortLinks_prefix_counterexample :
    asciiStdlib.urlString hPage = "http://h/page" ∧
      strings.HasPrefix "/absolute" "http://h/page" = false ∧
      strings.HasPrefix "http://h/other" "http://h/page" = false ∧
      skipped asciiStdlib "/absolute" = false ∧
      skipped asciiStdlib "http://h/other" = false ∧
      sortLinks asciiStdlib hPage ["/absolute", "http://h/other"] =
        (["http://h/absolute", "http://h/other"], []) :=
  ⟨rfl, rfl, rfl, rfl, rfl, rfl⟩

/-- C29, amended. For every source URL and every link that `sortLinks` keeps, it is the
host that decides: a link whose host is not empty and differs from the host of the source is
placed in the external bucket as it is, and every other kept link is placed in the internal
bucket, resolved against the source, whether or not it starts with the source URL. -/
theorem sortLinks_bucket_by_host (L : Stdlib) (source u : URL) (link : String)
    (hp : L.urlParse link = .ok u) (hk : skipped L link = false) :
    ((u.Host ≠ "" ∧ u.Host ≠ source.Host) → sortLinks L source [link] = ([], [link])) ∧
      (¬ (u.Host ≠ "" ∧ u.Host ≠ source.Host) →
        sortLinks L source [link] = ([L.urlString (L.urlResolveReference source u)], [])) := by
  rcases sortLinks_single_kept L source link hk with ⟨v, hv, hhost, hs⟩ | ⟨hext, hs⟩
  · rw [hp] at hv
    cases hv
    exact ⟨fun h => absurd h hhost, fun _ => hs⟩
  · refine ⟨fun _ => hs, fun h => ?_⟩
    unfold external at hext
    rw [hp] at hext
    simp only [decide_eq_true_eq] at hext
    exact absurd hext.2 h

/-- Witness of C29: the link `/absolute`, kept and without a host, is internal for the source
`http://h/page`. -/
theorem sortLinks_bucket_by_host_witness :
    sortLinks asciiStdlib hPage ["/absolute"] = (["http://h/absolute"], []) :=
  (sortLinks_bucket_by_host asciiStdlib hPage { url.zero with Path := "/absolute" } "/absolute"
    rfl rfl).2 (by decide)

end crawler

/-! ## The two result writers side by side -/

namespace strings

theorem Join_append_empty_sep (l1 l2 : List String) :
    Join (l1 ++ l2) "" = Join l1 "" ++ Join l2 "" := by
  induction l1 with
  | nil => simp [Join]
  | cons a l ih => rw [List.cons_append, Join_empty_sep, Join_empty_sep, ih, String.append_assoc]

end strings

namespace json

theorem indentObject_prefix (jsonString : String → String) (o : Object) :
    indentObject jsonString "  " "  " 0 o = indentObject jsonString "" "  " 1 o := by
  unfold indentObject
  have h1 : newline "  " "  " (0 + 1) = newline "" "  " (1 + 1) := by decide
  have h0 : newline "  " "  " 0 = newline "" "  " 1 := by decide
  rw [h1, h0]

end json

namespace cli

open ExitCode

theorem bufferedJSONResultWriter_of_ok (quote jsonString : String → String)
    (out : OutWriter) (pretty : Bool) (results : List crawler.LinkCrawlerResult)
    (hb : out.fails out.calls (bufferedPayload quote jsonString pretty results) = none) :
    bufferedJSONResultWriter quote jsonString out pretty results =
      (CodeOK,
        { out with calls := out.calls ++ [bufferedPayload quote jsonString pretty results] }) := by
  unfold bufferedJSONResultWriter
  simp only [foldl_toCrawlerResult, List.nil_append]
  have hp : (if pretty then json.NewEncoder.SetIndent "" jsonIndent
      else json.NewEncoder).encodeSlice jsonString
        (some ((results.map (toCrawlerResult quote)).map crawlerResult.toObject)) =
      bufferedPayload quote jsonString pretty results := rfl
  rw [hp]
  unfold OutWriter.Write
  rw [hb]

theorem unbufferedJSONResultWriter_of_ok (quote jsonString : String → String)
    (out outErr : OutWriter) (pretty : Bool) (results : List crawler.LinkCrawlerResult)
    (hu : ∀ (i : Nat) (p : String),
      (unbufferedChunks quote jsonString pretty results)[i]? = some p →
      out.fails (out.calls ++ (unbufferedChunks quote jsonString pretty results).take i) p =
        none) :
    unbufferedJSONResultWriter quote jsonString out outErr pretty results =
      (CodeOK,
        { out with calls := out.calls ++ unbufferedChunks quote jsonString pretty results },
        outErr) := by
  obtain ⟨h1, h2, h3⟩ := unbufferedJSONResultWriter_eq quote jsonString out outErr pretty results
  have hw := writeAll_calls_of_ok out (unbufferedChunks quote jsonString pretty results) hu
  rw [hw] at h1 h2 h3
  apply Prod.ext
  · simpa using h1
  · apply Prod.ext
    · exact h2
    · exact h3 rfl

theorem bufferedPayload_compact (quote jsonString : String → String)
    (results : List crawler.LinkCrawlerResult) :
    bufferedPayload quote jsonString false results =
      "[" ++ strings.Join
          (results.map fun r => json.marshalObject jsonString (toCrawlerResult quote r).toObject)
          "," ++ "]\n" := by
  unfold bufferedPayload
  have h : (results.map (toCrawlerResult quote)).map crawlerResult.toObject =
      results.map fun r => (toCrawlerResult quote r).toObject := by
    rw [List.map_map]; rfl
  rw [h]
  have h2 : ∀ xs : List json.Object,
      (bufferedEncoder false).encodeSlice jsonString (some xs) =
        "[" ++ strings.Join (xs.map (json.marshalObject jsonString)) "," ++ "]\n" := by
    intro xs
    show ("[" ++ strings.Join (xs.map (json.marshalObject jsonString)) "," ++ "]") ++ "\n" = _
    rw [String.append_assoc _ "]" "\n"]
    rfl
  rw [h2, List.map_map]
  rfl

theorem bufferedPayload_pretty (quote jsonString : String → String)
    (results : List crawler.LinkCrawlerResult) (hne : results ≠ []) :
    bufferedPayload quote jsonString true results =
      "[\n  " ++ strings.Join
          (results.map fun r =>
            json.indentObject jsonString "" "  " 1 (toCrawlerResult quote r).toObject)
          ",\n  " ++ "\n]\n" := by
  unfold bufferedPayload
  have h : (results.map (toCrawlerResult quote)).map crawlerResult.toObject =
      results.map fun r => (toCrawlerResult quote r).toObject := by
    rw [List.map_map]; rfl
  rw [h]
  have h2 : ∀ (x : json.Object) (xs : List json.Object),
      (bufferedEncoder true).encodeSlice jsonString (some (x :: xs)) =
        "[\n  " ++ strings.Join ((x :: xs).map (json.indentObject jsonString "" "  " 1))
          ",\n  " ++ "\n]\n" := by
    intro x xs
    show (("[" ++ "\n  ") ++ strings.Join ((x :: xs).map (json.indentObject jsonString "" "  " 1))
      ",\n  " ++ "\n" ++ "]") ++ "\n" = _
    rw [String.append_assoc _ "]" "\n", String.append_assoc _ "\n" ("]" ++ "\n")]
    rfl
  cases results with
  | nil => exact absurd rfl hne
  | cons r rest =>
    rw [List.map_cons, h2]
    simp only [List.map_cons, List.map_map, Function.comp_def]

theorem Join_unbufferedChunks_eq_bufferedPayload (quote jsonString : String → String)
    (pretty : Bool) (results : List crawler.LinkCrawlerResult)
    (h : results ≠ [] ∨ pretty = false) :
    strings.Join (unbufferedChunks quote jsonString pretty results) "" =
      bufferedPayload quote jsonString pretty results := by
  rw [Join_unbufferedChunks]
  cases pretty with
  | false =>
    rw [bufferedPayload_compact]
    simp only [Bool.false_eq_true, if_false]
    congr 3
    apply List.map_congr_left
    intro r _
    exact trimmedRecord_compact quote jsonString r
  | true =>
    have hne : results ≠ [] := by
      rcases h with h | h
      · exact h
      · cases h
    rw [bufferedPayload_pretty quote jsonString results hne]
    simp only [if_true]
    congr 3
    apply List.map_congr_left
    intro r _
    rw [trimmedRecord_pretty, json.indentObject_prefix]

/-- Evaluation for C30 (the claim fails on the code).  For no result in pretty mode, on a
writer that takes every call, both writers return `CodeOK`, the unbuffered one writes `[`, a
newline and two blanks, then a newline, `]` and a newline, and the buffered one writes `[]` and
a newline: the two outputs differ. -/
theorem sinks_empty_pretty_counterexample :
    (unbufferedJSONResultWriter quoteASCII jsonStringPlain acceptAll acceptAll true []).1 =
        CodeOK ∧
      (bufferedJSONResultWriter quoteASCII jsonStringPlain acceptAll true []).1 = CodeOK ∧
      (unbufferedJSONResultWriter quoteASCII jsonStringPlain acceptAll acceptAll true
        []).2.1.calls = ["[\n  ", "\n]\n"] ∧
      (bufferedJSONResultWriter quoteASCII jsonStringPlain acceptAll true []).2.calls =
        ["[]\n"] ∧
      strings.Join ["[\n  ", "\n]\n"] "" ≠ strings.Join ["[]\n"] "" :=
  ⟨rfl, rfl, rfl, rfl, by decide⟩

/-- C30, amended. When no call of `Write` fails, both writers return `CodeOK`, and for every
non-empty sequence of results in either mode, and for the empty sequence in compact mode, the
calls of the unbuffered writer put together are byte for byte the one call of the buffered
writer for the same results in the same order.  For the empty sequence in pretty mode the
unbuffered writer sends `[`, a newline and two blanks, then a newline, `]` and a newline, where
the buffered writer sends `[]` and a newline. -/
theorem sinks_same_output (quote jsonString : String → String) (out outErr : OutWriter)
    (pretty : Bool) (results : List crawler.LinkCrawlerResult)
    (hb : out.fails out.calls (bufferedPayload quote jsonString pretty results) = none)
    (hu : ∀ (i : Nat) (p : String),
      (unbufferedChunks quote jsonString pretty results)[i]? = some p →
      out.fails (out.calls ++ (unbufferedChunks quote jsonString pretty results).take i) p =
        none) :
    (bufferedJSONResultWriter quote jsonString out pretty results).1 = CodeOK ∧
      (unbufferedJSONResultWriter quote jsonString out outErr pretty results).1 = CodeOK ∧
      ((results ≠ [] ∨ pretty = false) →
        strings.Join
            (unbufferedJSONResultWriter quote jsonString out outErr pretty results).2.1.calls "" =
          strings.Join (bufferedJSONResultWriter quote jsonString out pretty results).2.calls
            "") ∧
      (results = [] → pretty = true →
        (unbufferedJSONResultWriter quote jsonString out outErr pretty results).2.1.calls =
            out.calls ++ ["[\n  ", "\n]\n"] ∧
          (bufferedJSONResultWriter quote jsonString out pretty results).2.calls =
            out.calls ++ ["[]\n"]) := by
  rw [bufferedJSONResultWriter_of_ok quote jsonString out pretty results hb,
    unbufferedJSONResultWriter_of_ok quote jsonString out outErr pretty results hu]
  refine ⟨rfl, rfl, ?_, ?_⟩
  · intro h
    show strings.Join (out.calls ++ unbufferedChunks quote jsonString pretty results) "" =
      strings.Join (out.calls ++ [bufferedPayload quote jsonString pretty results]) ""
    rw [strings.Join_append_empty_sep, strings.Join_append_empty_sep,
      Join_unbufferedChunks_eq_bufferedPayload quote jsonString pretty results h]
    rfl
  · intro hr hp
    subst hr
    subst hp
    exact ⟨rfl, rfl⟩

/-- Witness of C30: one result in pretty mode on a writer that takes every call. -/
theorem sinks_same_output_witness :
    strings.Join
        (unbufferedJSONResultWriter quoteASCII jsonStringPlain acceptAll acceptAll true
          [path1Result]).2.1.calls "" =
      strings.Join
        (bufferedJSONResultWriter quoteASCII jsonStringPlain acceptAll true
          [path1Result]).2.calls "" :=
  (sinks_same_output quoteASCII jsonStringPlain acceptAll acceptAll true [path1Result] rfl
    (fun _ _ _ => rfl)).2.2.1 (Or.inl (by simp))

end cli

/-! ## What the pattern of the links matches -/

namespace regexp

theorem Matches_accepts (re : Pattern) (s : List Char) (h : Matches re s) :
    ∀ c ∈ s, re.accepts c = true := by
  induction h with
  | eps => intro c hc; simp at hc
  | lit c => intro x hx; simp at hx; simp [Pattern.accepts, hx]
  | cls p c h => intro x hx; simp at hx; subst hx; simpa [Pattern.accepts] using h
  | cat a b s t _ _ iha ihb =>
    intro x hx
    rcases List.mem_append.1 hx with h | h
    · simp [Pattern.accepts, iha x h]
    · simp [Pattern.accepts, ihb x h]
  | optNone a => intro c hc; simp at hc
  | optSome a s _ ih => intro x hx; simpa [Pattern.accepts] using ih x hx
  | starNil a => intro c hc; simp at hc
  | starMore a s t _ _ iha ihs =>
    intro x hx
    rcases List.mem_append.1 hx with h | h
    · simpa [Pattern.accepts] using iha x h
    · simpa [Pattern.accepts] using ihs x h

theorem Matches_cat_inv (a b : Pattern) (u : List Char) (h : Matches (.cat a b) u) :
    ∃ s t, u = s ++ t ∧ Matches a s ∧ Matches b t := by
  cases h with
  | cat _ _ s t ha hb => exact ⟨s, t, rfl, ha, hb⟩

theorem Matches_lit_inv (c : Char) (u : List Char) (h : Matches (.lit c) u) : u = [c] := by
  cases h with
  | lit _ => rfl

theorem Matches_cls_inv (p : Char → Bool) (u : List Char) (h : Matches (.cls p) u) :
    ∃ c, u = [c] ∧ p c = true := by
  cases h with
  | cls _ c hc => exact ⟨c, rfl, hc⟩

theorem Matches_opt_inv (a : Pattern) (u : List Char) (h : Matches (.opt a) u) :
    u = [] ∨ Matches a u := by
  cases h with
  | optNone _ => exact Or.inl rfl
  | optSome _ _ h => exact Or.inr h

theorem Matches_str_inv (l u : List Char) (h : Matches (Pattern.str l) u) : u = l := by
  induction l generalizing u with
  | nil =>
    cases h with
    | eps => rfl
  | cons c cs ih =>
    obtain ⟨s, t, rfl, hs, ht⟩ := Matches_cat_inv _ _ _ h
    rw [Matches_lit_inv c s hs, ih t ht]
    rfl

theorem Matches_str (l : List Char) : Matches (Pattern.str l) l := by
  induction l with
  | nil => exact Matches.eps
  | cons c cs ih => exact Matches.cat (.lit c) (Pattern.str cs) [c] cs (Matches.lit c) ih

theorem Matches_plus_cls_head (p : Char → Bool) (u : List Char)
    (h : Matches (Pattern.plus (.cls p)) u) : ∃ c rest, u = c :: rest ∧ p c = true := by
  obtain ⟨s, t, rfl, hs, _⟩ := Matches_cat_inv _ _ _ h
  obtain ⟨c, rfl, hc⟩ := Matches_cls_inv p s hs
  exact ⟨c, t, rfl, hc⟩

theorem starLoop_sound (a : Pattern) (step : List Char → List (List Char))
    (hstep : ∀ s r, r ∈ step s → ∃ t, s = t ++ r ∧ Matches a t) :
    ∀ (n : Nat) (s r : List Char), r ∈ starLoop step n s →
      ∃ t, s = t ++ r ∧ Matches (.star a) t := by
  intro n
  induction n with
  | zero =>
    intro s r hr
    simp only [starLoop, List.mem_singleton] at hr
    subst hr
    exact ⟨[], rfl, Matches.starNil a⟩
  | succ n ih =>
    intro s r hr
    simp only [starLoop, List.mem_append, List.mem_flatten, List.mem_map, List.mem_filter,
      List.mem_singleton] at hr
    rcases hr with ⟨l, ⟨q, ⟨hq, _⟩, rfl⟩, hrl⟩ | hr
    · obtain ⟨t1, rfl, h1⟩ := hstep s q hq
      obtain ⟨t2, rfl, h2⟩ := ih q r hrl
      exact ⟨t1 ++ t2, by simp, Matches.starMore a t1 t2 h1 h2⟩
    · subst hr
      exact ⟨[], rfl, Matches.starNil a⟩

theorem prefixes_sound (re : Pattern) :
    ∀ (s r : List Char), r ∈ prefixes re s → ∃ t, s = t ++ r ∧ Matches re t := by
  induction re with
  | eps =>
    intro s r hr
    simp only [prefixes, List.mem_singleton] at hr
    subst hr
    exact ⟨[], rfl, Matches.eps⟩
  | lit c =>
    intro s r hr
    cases s with
    | nil => simp [prefixes] at hr
    | cons x q =>
      by_cases hx : x = c
      · simp only [prefixes, hx, if_true, List.mem_singleton] at hr
        subst hr
        subst hx
        exact ⟨[x], rfl, Matches.lit x⟩
      · simp [prefixes, hx] at hr
  | cls p =>
    intro s r hr
    cases s with
    | nil => simp [prefixes] at hr
    | cons x q =>
      by_cases hx : p x = true
      · simp only [prefixes, hx, if_true, List.mem_singleton] at hr
        subst hr
        exact ⟨[x], rfl, Matches.cls p x hx⟩
      · simp [prefixes, hx] at hr
  | cat a b iha ihb =>
    intro s r hr
    simp only [prefixes, List.mem_flatten, List.mem_map] at hr
    obtain ⟨l, ⟨q, hq, rfl⟩, hrl⟩ := hr
    obtain ⟨t1, rfl, h1⟩ := iha s q hq
    obtain ⟨t2, rfl, h2⟩ := ihb q r hrl
    exact ⟨t1 ++ t2, by simp, Matches.cat a b t1 t2 h1 h2⟩
  | opt a iha =>
    intro s r hr
    simp only [prefixes, List.mem_append, List.mem_singleton] at hr
    rcases hr with hr | hr
    · obtain ⟨t, rfl, h⟩ := iha s r hr
      exact ⟨t, rfl, Matches.optSome a t h⟩
    · subst hr
      exact ⟨[], rfl, Matches.optNone a⟩
  | star a iha =>
    intro s r hr
    simp only [prefixes] at hr
    exact starLoop_sound a (prefixes a) iha s.length s r hr

theorem findAllLoop_sound (re : Pattern) :
    ∀ (n : Nat) (s m : List Char), m ∈ findAllLoop re n s →
      Matches re m ∧ ∃ pre post : List Char, s = pre ++ m ++ post := by
  intro n
  induction n with
  | zero => intro s m hm; simp [findAllLoop] at hm
  | succ n ih =>
    intro s m hm
    cases s with
    | nil => simp [findAllLoop] at hm
    | cons c cs =>
      have hskip : m ∈ findAllLoop re n cs →
          Matches re m ∧ ∃ pre post : List Char, c :: cs = pre ++ m ++ post := by
        intro h
        obtain ⟨hmm, pre, post, hcs⟩ := ih cs m h
        exact ⟨hmm, c :: pre, post, by rw [hcs]; simp⟩
      unfold findAllLoop at hm
      cases hh : (prefixes re (c :: cs)).head? with
      | none =>
        rw [hh] at hm
        exact hskip hm
      | some r =>
        rw [hh] at hm
        dsimp only at hm
        by_cases hlt : r.length < (c :: cs).length
        · rw [if_pos hlt] at hm
          obtain ⟨t, ht, hmt⟩ := prefixes_sound re (c :: cs) r (List.mem_of_mem_head? hh)
          have htake : (c :: cs).take ((c :: cs).length - r.length) = t := by
            rw [ht]
            simp
          rw [htake] at hm
          rcases List.mem_cons.1 hm with h | h
          · subst h
            exact ⟨hmt, [], r, by simpa using ht⟩
          · obtain ⟨hmm, pre, post, hr⟩ := ih r m h
            exact ⟨hmm, t ++ pre, post, by rw [ht, hr]; simp⟩
        · rw [if_neg hlt] at hm
          exact hskip hm

theorem backtracking_sound : backtracking.sound := by
  intro re s m hm
  simp only [backtracking, List.mem_map] at hm
  obtain ⟨l, hl, rfl⟩ := hm
  exact findAllLoop_sound re _ _ l hl

end regexp

namespace collector

open regexp

theorem httpLinkRegexp_no_space (c : Char) (h : httpLinkRegexp.accepts c = true) :
    isSpace c = false := by
  simp only [httpLinkRegexp, Pattern.accepts, Pattern.str, Pattern.plus, Bool.or_eq_true,
    decide_eq_true_eq, Bool.or_false] at h
  have hhost : hostChar c = true → isSpace c = false := by
    intro hc
    simp only [hostChar, Bool.and_eq_true, Bool.not_eq_true'] at hc
    exact hc.1
  have hns : notSpace c = true → isSpace c = false := by
    intro hc
    simpa [notSpace] using hc
  rcases h with (h | h | h | h) | h | (h | h | h) | (h | h) |
    (((h | h) | h) | (h | h) | h) | h | h
  all_goals first
    | exact hhost h
    | exact hns h
    | (subst h; decide)

end collector

namespace GoError

theorem Is_self (e : GoError) : e.Is e = true := by
  cases e <;> simp [Is]

end GoError

namespace collector

open regexp

theorem httpLinkRegexp_shape (m : List Char) (h : Matches httpLinkRegexp m) :
    (∃ c rest, hostChar c = true ∧
      (m = "http://".data ++ c :: rest ∨ m = "https://".data ++ c :: rest)) ∧
      ∀ c ∈ m, isSpace c = false := by
  refine ⟨?_, fun c hc => httpLinkRegexp_no_space c (Matches_accepts _ _ h c hc)⟩
  unfold httpLinkRegexp at h
  obtain ⟨s1, t1, rfl, h1, h⟩ := Matches_cat_inv _ _ _ h
  obtain ⟨s2, t2, rfl, h2, h⟩ := Matches_cat_inv _ _ _ h
  obtain ⟨s3, t3, rfl, h3, h⟩ := Matches_cat_inv _ _ _ h
  obtain ⟨s4, t4, rfl, h4, h⟩ := Matches_cat_inv _ _ _ h
  obtain ⟨s5, t5, rfl, h5, _⟩ := Matches_cat_inv _ _ _ h
  obtain ⟨x, y, rfl, hx, _⟩ := Matches_cat_inv _ _ _ h5
  obtain ⟨x1, x2, rfl, hx1, _⟩ := Matches_cat_inv _ _ _ hx
  obtain ⟨c, rest, rfl, hc⟩ := Matches_plus_cls_head _ _ hx1
  have e1 := Matches_str_inv _ _ h1
  have e3 := Matches_str_inv _ _ h3
  subst e1
  subst e3
  have hp1 : "http://".data = "http".data ++ "://".data := rfl
  have hp2 : "https://".data = "http".data ++ ('s' :: "://".data) := rfl
  have hp3 : "-.".data = ['-', '.'] := rfl
  have hdash : hostChar '-' = true := by decide
  rcases Matches_opt_inv _ _ h2 with e2 | e2
  · subst e2
    rcases Matches_opt_inv _ _ h4 with e4 | e4
    · subst e4
      exact ⟨c, rest ++ x2 ++ y ++ t5, hc, Or.inl (by rw [hp1]; simp)⟩
    · have e4 := Matches_str_inv _ _ e4
      subst e4
      exact ⟨'-', '.' :: (c :: rest ++ x2 ++ y ++ t5), hdash, Or.inl (by rw [hp1, hp3]; simp)⟩
  · have e2 := Matches_lit_inv _ _ e2
    subst e2
    rcases Matches_opt_inv _ _ h4 with e4 | e4
    · subst e4
      exact ⟨c, rest ++ x2 ++ y ++ t5, hc, Or.inr (by rw [hp2]; simp)⟩
    · have e4 := Matches_str_inv _ _ e4
      subst e4
      exact ⟨'-', '.' :: (c :: rest ++ x2 ++ y ++ t5), hdash, Or.inr (by rw [hp2, hp3]; simp)⟩

theorem foldl_append_eq {α β : Type} (f : α → List β) (l : List α) :
    ∀ acc : List β, l.foldl (fun acc x => acc ++ f x) acc = acc ++ (l.map f).flatten := by
  induction l with
  | nil => intro acc; simp
  | cons x l ih => intro acc; simp [ih]

theorem flatten_map_toList {α β : Type} (f : α → Option β) (l : List α) :
    (l.map fun x => (f x).toList).flatten = l.filterMap f := by
  induction l with
  | nil => rfl
  | cons x l ih =>
    rw [List.map_cons, List.flatten_cons, ih, List.filterMap_cons]
    cases f x <;> rfl

end collector

namespace strings

theorem replaceAllL_lf (n : Nat) :
    ∀ s : List Char, s.length ≤ n →
      replaceAllL ['\n'] [] n s = s.filter fun ch => decide (ch ≠ '\n') := by
  induction n with
  | zero =>
    intro s hs
    have : s = [] := List.length_eq_zero.1 (Nat.le_zero.1 hs)
    subst this
    rfl
  | succ n ih =>
    intro s hs
    cases s with
    | nil => rfl
    | cons c cs =>
      have hcs : cs.length ≤ n := by simpa using hs
      by_cases hc : c = '\n'
      · subst hc
        simp [replaceAllL, ih cs hcs]
      · have hc2 : ¬ '\n' = c := fun h => hc h.symm
        simp [replaceAllL, ih cs hcs, hc, hc2]

theorem ReplaceAll_lf (s : String) :
    ReplaceAll s "\n" "" = ⟨s.data.filter fun ch => decide (ch ≠ '\n')⟩ := by
  unfold ReplaceAll
  have h1 : ("\n" : String).data = ['\n'] := rfl
  have h2 : ("" : String).data = [] := rfl
  rw [h1, h2, if_neg (by simp), replaceAllL_lf _ _ (Nat.le_refl _)]

end strings

namespace collector

theorem attrLinks_eq (wantAttr : String) (attrs : List html.Attribute) :
    attrLinks wantAttr attrs =
      ((attrs.find? fun attr => decide (attr.Key = wantAttr)).map
        fun attr => strings.ReplaceAll attr.Val "\n" "").toList := by
  induction attrs with
  | nil => rfl
  | cons a rest ih =>
    by_cases h : a.Key = wantAttr
    · simp [attrLinks, h]
    · simp [attrLinks, h, ih]

theorem tokenLinks_eq (tag : html.Token) :
    NewHTMLLinkCollector.tokenLinks tag = (anchorLink tag).toList := by
  unfold HTMLLinkCollector.tokenLinks anchorLink NewHTMLLinkCollector
  by_cases hd : tag.Data = "a"
  · cases hk : tag.Kind <;> simp [hd, attrLinks_eq, strings.ReplaceAll_lf]
  · cases hk : tag.Kind <;> simp [hd]

theorem anchorLink_no_lf (tag : html.Token) (link : String) (h : anchorLink tag = some link) :
    '\n' ∉ link.data := by
  unfold anchorLink at h
  split_ifs at h
  simp only [Option.map_eq_some'] at h
  obtain ⟨a, _, rfl⟩ := h
  simp

/-- C22. For every sequence of tokens of an HTML document that ends with `io.EOF`, the HTML
collector returns, in the order of the tokens and with repeats kept, the link of each token
that has one, and nothing for the others.  A token has a link exactly when it is a start tag or
a self-closing tag named `a` with an attribute `href`; the link is then the value of the first
such attribute with every line feed removed, which is what `strings.ReplaceAll` makes of it.
No link returned contains a line feed. -/
theorem HTMLLinkCollector_GetLinks_anchors (quote : String → String)
    (tokens : List html.Token) :
    HTMLLinkCollector.GetLinks quote NewHTMLLinkCollector { tokens := tokens, err := none } =
        .ok (tokens.filterMap anchorLink) ∧
      (∀ (tag : html.Token) (pre post : List html.Attribute) (attr : html.Attribute),
        (tag.Kind = .StartTagToken ∨ tag.Kind = .SelfClosingTagToken) → tag.Data = "a" →
        tag.Attr = pre ++ attr :: post → (∀ x ∈ pre, x.Key ≠ "href") → attr.Key = "href" →
        anchorLink tag = some (strings.ReplaceAll attr.Val "\n" "")) ∧
      (∀ tag : html.Token,
        ¬ ((tag.Kind = .StartTagToken ∨ tag.Kind = .SelfClosingTagToken) ∧ tag.Data = "a" ∧
          ∃ attr ∈ tag.Attr, attr.Key = "href") →
        anchorLink tag = none) ∧
      (∀ s : String,
        (strings.ReplaceAll s "\n" "").data = s.data.filter fun ch => decide (ch ≠ '\n')) ∧
      (∀ link ∈ tokens.filterMap anchorLink, '\n' ∉ link.data) := by
  refine ⟨?_, ?_, ?_, ?_, ?_⟩
  · unfold HTMLLinkCollector.GetLinks
    simp only [foldl_append_eq, List.nil_append]
    have h : NewHTMLLinkCollector.tokenLinks = fun tag => (anchorLink tag).toList :=
      funext tokenLinks_eq
    rw [h, flatten_map_toList]
  · intro tag pre post attr hk hd ha hpre hattr
    unfold anchorLink
    rw [if_pos ⟨hk, hd⟩, ha, strings.ReplaceAll_lf]
    have hf : (pre ++ attr :: post).find? (fun a => decide (a.Key = "href")) = some attr := by
      rw [List.find?_append]
      have : pre.find? (fun a => decide (a.Key = "href")) = none := by
        rw [List.find?_eq_none]
        intro x hx
        simpa using hpre x hx
      rw [this]
      simp [hattr]
    rw [hf]
    rfl
  · intro tag h
    unfold anchorLink
    by_cases hc : (tag.Kind = .StartTagToken ∨ tag.Kind = .SelfClosingTagToken) ∧ tag.Data = "a"
    · rw [if_pos hc]
      have hno : ∀ attr ∈ tag.Attr, ¬ attr.Key = "href" := by
        intro attr hattr hkey
        exact h ⟨hc.1, hc.2, attr, hattr, hkey⟩
      have : tag.Attr.find? (fun a => decide (a.Key = "href")) = none := by
        rw [List.find?_eq_none]
        intro x hx
        simpa using hno x hx
      rw [this]
      rfl
    · rw [if_neg hc]
  · intro s
    rw [strings.ReplaceAll_lf]
  · intro link hl
    obtain ⟨tag, _, ht⟩ := List.mem_filterMap.1 hl
    exact anchorLink_no_lf tag link ht

theorem stringTokens_append (t1 t2 : List json.Token) :
    stringTokens (t1 ++ t2) = stringTokens t1 ++ stringTokens t2 := by
  induction t1 with
  | nil => rfl
  | cons t rest ih => cases t <;> simp [stringTokens, ih]

theorem flatten_jsonTokenLinks (R : regexp.Lib) (tokens : List json.Token) :
    (tokens.map (jsonTokenLinks R)).flatten =
      ((stringTokens tokens).map (R.FindAllString httpLinkRegexp)).flatten := by
  induction tokens with
  | nil => rfl
  | cons t rest ih => cases t <;> simp [stringTokens, jsonTokenLinks, ih]

/-- C23. For every sequence of tokens of a JSON document that ends with `io.EOF`, whatever
its shape and nesting, the JSON collector returns the matches that `FindAllString` finds for the
pattern of the links in each string token, put one after the other in the order of the tokens,
repeats kept.  The string tokens are the tokens that are strings, object keys included, in their
order; a delimiter, a boolean, a number and a null give none. -/
theorem JSONLinkCollector_GetLinks_strings (R : regexp.Lib) (quote : String → String)
    (tokens : List json.Token) :
    JSONLinkCollector.GetLinks R quote { tokens := tokens, err := none } =
        .ok (((stringTokens tokens).map (R.FindAllString httpLinkRegexp)).flatten) ∧
      (∀ t1 t2 : List json.Token,
        stringTokens (t1 ++ t2) = stringTokens t1 ++ stringTokens t2) ∧
      (∀ (s : String) (rest : List json.Token),
        stringTokens (.string s :: rest) = s :: stringTokens rest) ∧
      (∀ (c : Char) (b : Bool) (x : String) (rest : List json.Token),
        stringTokens (.delim c :: rest) = stringTokens rest ∧
        stringTokens (.bool b :: rest) = stringTokens rest ∧
        stringTokens (.float64 x :: rest) = stringTokens rest ∧
        stringTokens (.number x :: rest) = stringTokens rest ∧
        stringTokens (.null :: rest) = stringTokens rest) := by
  refine ⟨?_, stringTokens_append, fun _ _ => rfl, fun _ _ _ _ => ⟨rfl, rfl, rfl, rfl, rfl⟩⟩
  unfold JSONLinkCollector.GetLinks
  simp only [foldl_append_eq, List.nil_append]
  rw [flatten_jsonTokenLinks]

/-- C24. For every sequence of lines that ends with `io.EOF` and every `FindAllString` that
returns matches of its pattern taken from the text searched, the plain-text collector returns
the matches found in the lines, those of an earlier line before those of a later one.  Every
link returned is a piece of one of the lines and is matched by the pattern of the links: it
starts with `http://` or `https://`, the character that follows is neither `\s` white space nor
one of `/`, `?`, `.`, `#`, and no character of the link is `\s` white space. -/
theorem TextLinkCollector_GetLinks_links (R : regexp.Lib) (hR : R.sound)
    (quote : String → String) (lines : List String) :
    TextLinkCollector.GetLinks R quote { lines := lines, err := none } =
        .ok ((lines.map (R.FindAllString httpLinkRegexp)).flatten) ∧
      (∀ l1 l2 : List String,
        TextLinkCollector.GetLinks R quote { lines := l1 ++ l2, err := none } =
          .ok ((l1.map (R.FindAllString httpLinkRegexp)).flatten ++
            (l2.map (R.FindAllString httpLinkRegexp)).flatten)) ∧
      ∀ link ∈ (lines.map (R.FindAllString httpLinkRegexp)).flatten,
        (∃ line ∈ lines, link ∈ R.FindAllString httpLinkRegexp line ∧
          ∃ pre post : List Char, line.data = pre ++ link.data ++ post) ∧
        regexp.Matches httpLinkRegexp link.data ∧
        (∃ c rest, regexp.hostChar c = true ∧
          (link.data = "http://".data ++ c :: rest ∨
            link.data = "https://".data ++ c :: rest)) ∧
        ∀ c ∈ link.data, regexp.isSpace c = false := by
  have hget : ∀ ls : List String,
      TextLinkCollector.GetLinks R quote { lines := ls, err := none } =
        .ok ((ls.map (R.FindAllString httpLinkRegexp)).flatten) := by
    intro ls
    unfold TextLinkCollector.GetLinks
    simp only [foldl_append_eq, List.nil_append]
  refine ⟨hget lines, ?_, ?_⟩
  · intro l1 l2
    rw [hget, List.map_append, List.flatten_append]
  · intro link hl
    obtain ⟨l, hl1, hl2⟩ := List.mem_flatten.1 hl
    obtain ⟨line, hline, rfl⟩ := List.mem_map.1 hl1
    obtain ⟨hm, hsub⟩ := hR httpLinkRegexp line link hl2
    obtain ⟨hshape, hspace⟩ := httpLinkRegexp_shape link.data hm
    exact ⟨⟨line, hline, hl2, hsub⟩, hm, hshape, hspace⟩

/-- Witness of C24: with the backtracking search, two lines give three links. -/
theorem TextLinkCollector_GetLinks_links_witness :
    TextLinkCollector.GetLinks regexp.backtracking quoteASCII
        { lines := ["see http://a.b/c, http://-.d?e", "and https://x.y#z"], err := none } =
      .ok ["http://a.b/c,", "http://-.d", "https://x.y"] :=
  (TextLinkCollector_GetLinks_links regexp.backtracking regexp.backtracking_sound quoteASCII
    ["see http://a.b/c, http://-.d?e", "and https://x.y#z"]).1

/-- C25. For each of the three collectors and every input that ends with an error `e` other
than `io.EOF`, whatever tokens or lines came before it, `GetLinks` returns no links and an error
that wraps `e`, and the message of that error is `could not collect links from html doc: `,
`json doc: ` or `text doc: ` followed by the message of `e`.  An input that ends with `io.EOF`
gives links and no error, and the empty input gives the empty list. -/
theorem GetLinks_read_error (R : regexp.Lib) (quote : String → String) (e : GoError)
    (tags : List html.Token) (tokens : List json.Token) (lines : List String) :
    (∃ err, HTMLLinkCollector.GetLinks quote NewHTMLLinkCollector
          { tokens := tags, err := some e } = .error err ∧
        err.Unwrap = some e ∧ err.Is e = true ∧
        err.Error quote = "could not collect links from html doc: " ++ e.Error quote) ∧
      (∃ err, JSONLinkCollector.GetLinks R quote { tokens := tokens, err := some e } =
          .error err ∧
        err.Unwrap = some e ∧ err.Is e = true ∧
        err.Error quote = "could not collect links from json doc: " ++ e.Error quote) ∧
      (∃ err, TextLinkCollector.GetLinks R quote { lines := lines, err := some e } =
          .error err ∧
        err.Unwrap = some e ∧ err.Is e = true ∧
        err.Error quote = "could not collect links from text doc: " ++ e.Error quote) ∧
      (∃ links, HTMLLinkCollector.GetLinks quote NewHTMLLinkCollector
        { tokens := tags, err := none } = .ok links) ∧
      (∃ links, JSONLinkCollector.GetLinks R quote { tokens := tokens, err := none } =
        .ok links) ∧
      (∃ links, TextLinkCollector.GetLinks R quote { lines := lines, err := none } =
        .ok links) ∧
      HTMLLinkCollector.GetLinks quote NewHTMLLinkCollector { tokens := [], err := none } =
        .ok [] ∧
      JSONLinkCollector.GetLinks R quote { tokens := [], err := none } = .ok [] ∧
      TextLinkCollector.GetLinks R quote { lines := [], err := none } = .ok [] := by
  have his : ∀ msg : String, (GoError.wrapError msg e).Is e = true := by
    intro msg
    simp [GoError.Is, GoError.Is_self]
  exact ⟨⟨_, rfl, rfl, his _, rfl⟩, ⟨_, rfl, rfl, his _, rfl⟩, ⟨_, rfl, rfl, his _, rfl⟩,
    ⟨_, rfl⟩, ⟨_, rfl⟩, ⟨_, rfl⟩, rfl, rfl, rfl⟩

end collector

/-! ## The worker pool without cancellation -/

namespace pipeline

theorem inflight_count_set (ws : List WorkerPC) (i : Nat) (w0 w : WorkerPC)
    (h : ws[i]? = some w0) (x : String) :
    (inflight (ws.set i w)).count x + w0.held.count x =
      (inflight ws).count x + w.held.count x := by
  induction ws generalizing i with
  | nil => simp at h
  | cons a rest ih =>
    cases i with
    | zero =>
      simp only [List.getElem?_cons_zero, Option.some.injEq] at h
      subst h
      simp only [inflight, List.set_cons_zero, List.map_cons, List.flatten_cons,
        List.count_append]
      omega
    | succ i =>
      simp only [List.getElem?_cons_succ] at h
      have := ih i h
      simp only [inflight, List.set_cons_succ, List.map_cons, List.flatten_cons,
        List.count_append] at this ⊢
      omega

theorem weight_sum_set (ws : List WorkerPC) (i : Nat) (w0 w : WorkerPC)
    (h : ws[i]? = some w0) :
    ((ws.set i w).map WorkerPC.weight).sum + w0.weight =
      (ws.map WorkerPC.weight).sum + w.weight := by
  induction ws generalizing i with
  | nil => simp at h
  | cons a rest ih =>
    cases i with
    | zero =>
      simp only [List.getElem?_cons_zero, Option.some.injEq] at h
      subst h
      simp only [List.set_cons_zero, List.map_cons, List.sum_cons]
      omega
    | succ i =>
      simp only [List.getElem?_cons_succ] at h
      have := ih i h
      simp only [List.set_cons_succ, List.map_cons, List.sum_cons] at this ⊢
      omega

theorem inflight_all_exited (ws : List WorkerPC) (h : ∀ w ∈ ws, w = .exited) :
    inflight ws = [] := by
  induction ws with
  | nil => rfl
  | cons a rest ih =>
    have ha : a = .exited := h a (List.mem_cons_self _ _)
    have hr := ih (fun w hw => h w (List.mem_cons_of_mem _ hw))
    subst ha
    simp only [inflight] at hr
    simp [inflight, WorkerPC.held, hr]

theorem inv_init (n : Nat) (lines : List String) : Inv n lines (init n lines) := by
  have hin : inflight (List.replicate n WorkerPC.select) = [] := by
    induction n with
    | zero => rfl
    | succ n _ => simp [inflight, List.replicate_succ, WorkerPC.held]
  refine ⟨rfl, by simp [init], rfl, ?_, ?_, by simp [init], by simp [init], ?_, by simp [init]⟩
  · intro x
    simp [init, hin, PublisherPC.held]
  · intro x
    simp [init, hin]
  · intro h
    simp [init, List.mem_replicate] at h

/-- What a step of a worker that replaces its place keeps of the invariant. -/
theorem inv_worker_set (n : Nat) (lines : List String) (s t : State) (i : Nat)
    (w0 w : WorkerPC) (hs : Inv n lines s) (hw : s.workers[i]? = some w0)
    (hw0 : w0 ≠ .exited)
    (htw : t.workers = s.workers.set i w)
    (hcancel : t.canceled = s.canceled) (hbuf : t.bufSize = s.bufSize)
    (hpub : t.publisher = s.publisher) (hinput : t.input = s.input)
    (hclosed : t.linksClosed = s.linksClosed) (hrc : t.resultsClosed = s.resultsClosed)
    (hcons : ∀ x : String,
      t.results.count x + w.held.count x + t.linksCh.count x =
        s.results.count x + w0.held.count x + s.linksCh.count x)
    (hstart : ∀ x : String,
      t.started.count x + s.results.count x + w0.held.count x =
        s.started.count x + t.results.count x + w.held.count x)
    (hexit : w = .exited ∨ .exited ∈ s.workers → t.linksClosed = true ∧ t.linksCh = []) :
    Inv n lines t := by
  have hmem : w0 ∈ s.workers := List.getElem?_mem hw
  have hnotclosed : s.resultsClosed = false := by
    cases h : s.resultsClosed with
    | false => rfl
    | true => exact absurd (hs.closedAfter h w0 hmem) hw0
  refine ⟨by rw [hcancel]; exact hs.notCanceled, by rw [htw, List.length_set]; exact hs.numWorkers,
    by rw [hbuf]; exact hs.capacity, ?_, ?_, by rw [hclosed, hpub]; exact hs.closedIff,
    by rw [hpub, hinput]; exact hs.doneInput, ?_, ?_⟩
  · intro x
    have h1 := hs.conserve x
    have h2 := inflight_count_set s.workers i w0 w hw x
    have h3 := hcons x
    rw [htw, hpub, hinput]
    omega
  · intro x
    have h1 := hs.startedOnce x
    have h2 := inflight_count_set s.workers i w0 w hw x
    have h3 := hstart x
    rw [htw]
    omega
  · intro h
    rw [htw] at h
    rcases List.mem_or_eq_of_mem_set h with h | h
    · exact hexit (Or.inr h)
    · exact hexit (Or.inl h.symm)
  · intro h
    rw [hrc, hnotclosed] at h
    cases h

theorem inv_step (n : Nat) (lines : List String) (s t : State) (a : Action)
    (hs : Inv n lines s) (ha : a ≠ .cancel) (h : step s a = some t) : Inv n lines t := by
  have hnc := hs.notCanceled
  cases a with
  | cancel => exact absurd rfl ha
  | pubCheck =>
    simp only [step] at h
    split at h
    · rename_i hp
      rw [if_neg (by simp [hnc])] at h
      simp only [Option.some.injEq] at h
      subst h
      have hcl : s.linksClosed = false := by
        cases hc : s.linksClosed with
        | false => rfl
        | true => rw [hs.closedIff.1 hc] at hp; cases hp
      refine ⟨hnc, hs.numWorkers, hs.capacity, ?_, hs.startedOnce, ?_, ?_, ?_, hs.closedAfter⟩
      · intro x
        have := hs.conserve x
        simpa [hp, PublisherPC.held] using this
      · simp [hcl]
      · intro hd; cases hd
      · exact hs.exitedAfter
    · cases h
  | pubScan =>
    simp only [step] at h
    split at h
    · rename_i hp
      have hcl : s.linksClosed = false := by
        cases hc : s.linksClosed with
        | false => rfl
        | true => rw [hs.closedIff.1 hc] at hp; cases hp
      have hnoexit : ¬ .exited ∈ s.workers := by
        intro hex
        rw [(hs.exitedAfter hex).1] at hcl
        cases hcl
      split at h
      · rename_i hin
        simp only [Option.some.injEq] at h
        subst h
        refine ⟨hnc, hs.numWorkers, hs.capacity, ?_, hs.startedOnce, by simp, fun _ => hin,
          fun hex => absurd hex hnoexit, hs.closedAfter⟩
        intro x
        have := hs.conserve x
        simpa [hp, PublisherPC.held] using this
      · rename_i link rest hin
        simp only [Option.some.injEq] at h
        subst h
        refine ⟨hnc, hs.numWorkers, hs.capacity, ?_, hs.startedOnce, by simp [hcl],
          (fun hd => by cases hd), fun hex => absurd hex hnoexit, hs.closedAfter⟩
        intro x
        have := hs.conserve x
        simp only [hp, hin, PublisherPC.held, List.count_nil, List.count_cons,
          List.count_singleton] at this ⊢
        omega
    · cases h
  | pubPush =>
    simp only [step] at h
    split at h
    · rename_i link hp
      have hcl : s.linksClosed = false := by
        cases hc : s.linksClosed with
        | false => rfl
        | true => rw [hs.closedIff.1 hc] at hp; cases hp
      have hnoexit : ¬ .exited ∈ s.workers := by
        intro hex
        rw [(hs.exitedAfter hex).1] at hcl
        cases hcl
      split at h
      · simp only [Option.some.injEq] at h
        subst h
        refine ⟨hnc, hs.numWorkers, hs.capacity, ?_, hs.startedOnce, by simp [hcl],
          (fun hd => by cases hd), fun hex => absurd hex hnoexit, hs.closedAfter⟩
        intro x
        have := hs.conserve x
        simp only [hp, PublisherPC.held, List.count_nil, List.count_append,
          List.count_singleton] at this ⊢
        omega
      · cases h
    · cases h
  | workerDone i =>
    simp only [step] at h
    split at h
    · rw [hnc] at h
      simp at h
    · cases h
  | workerRecv i =>
    simp only [step] at h
    split at h
    · rename_i hw
      split at h
      · rename_i source rest hq
        simp only [Option.some.injEq] at h
        subst h
        refine inv_worker_set n lines s _ i .select (.crawl source) hs hw (by simp) rfl rfl rfl
          rfl rfl rfl rfl ?_ ?_ ?_
        · intro x
          simp only [hq, WorkerPC.held, List.count_nil, List.count_cons, List.count_singleton]
          omega
        · intro x
          simp only [WorkerPC.held, List.count_nil, List.count_append, List.count_singleton]
          omega
        · intro hex
          rcases hex with hex | hex
          · cases hex
          · have := (hs.exitedAfter hex).2
            rw [hq] at this
            cases this
      · rename_i hq
        split at h
        · rename_i hcl
          simp only [Option.some.injEq] at h
          subst h
          refine inv_worker_set n lines s _ i .select .exited hs hw (by simp) rfl rfl rfl
            rfl rfl rfl rfl ?_ ?_ ?_
          · intro x; simp [WorkerPC.held]
          · intro x; simp [WorkerPC.held]
          · intro _
            exact ⟨hcl, hq⟩
        · cases h
    · cases h
  | crawled i =>
    simp only [step] at h
    split at h
    · rename_i source hw
      simp only [Option.some.injEq] at h
      subst h
      refine inv_worker_set n lines s _ i (.crawl source) (.send source) hs hw (by simp) rfl
        rfl rfl rfl rfl rfl rfl ?_ ?_ ?_
      · intro x; simp [WorkerPC.held]
      · intro x; simp [WorkerPC.held]
      · intro hex
        rcases hex with hex | hex
        · cases hex
        · exact hs.exitedAfter hex
    · cases h
  | workerSend i =>
    simp only [step] at h
    split at h
    · rename_i source hw
      simp only [Option.some.injEq] at h
      subst h
      refine inv_worker_set n lines s _ i (.send source) .select hs hw (by simp) rfl
        rfl rfl rfl rfl rfl rfl ?_ ?_ ?_
      · intro x
        simp only [WorkerPC.held, List.count_nil, List.count_append, List.count_singleton]
        omega
      · intro x
        simp only [WorkerPC.held, List.count_nil, List.count_append, List.count_singleton]
        omega
      · intro hex
        rcases hex with hex | hex
        · cases hex
        · exact hs.exitedAfter hex
    · cases h
  | closeResults =>
    simp only [step] at h
    split at h
    · rename_i hg
      simp only [Option.some.injEq] at h
      subst h
      refine ⟨hnc, hs.numWorkers, hs.capacity, hs.conserve, hs.startedOnce, hs.closedIff,
        hs.doneInput, hs.exitedAfter, ?_⟩
      intro _ w hw
      have := List.all_eq_true.1 hg.2 w hw
      simpa using this
    · cases h

theorem inv_run (n : Nat) (lines : List String) (sched : List Action) :
    ∀ s t : State, Inv n lines s → Action.cancel ∉ sched → run s sched = some t →
      Inv n lines t := by
  induction sched with
  | nil =>
    intro s t hs _ h
    simp only [run, Option.some.injEq] at h
    subst h
    exact hs
  | cons a rest ih =>
    intro s t hs hnc h
    simp only [run] at h
    cases hst : step s a with
    | none => rw [hst] at h; cases h
    | some u =>
      rw [hst] at h
      have ha : a ≠ .cancel := fun e => hnc (by rw [e]; exact List.mem_cons_self _ _)
      exact ih u t (inv_step n lines s u a hs ha hst)
        (fun hm => hnc (List.mem_cons_of_mem _ hm)) h

end pipeline

namespace pipeline

theorem stepsLeft_step (s t : State) (a : Action) (ha : a ≠ .cancel)
    (h : step s a = some t) : stepsLeft t < stepsLeft s := by
  cases a with
  | cancel => exact absurd rfl ha
  | pubCheck =>
    simp only [step] at h
    split at h
    · rename_i hp
      split at h <;>
        (simp only [Option.some.injEq] at h
         subst h
         simp [stepsLeft, hp, PublisherPC.weight])
    · cases h
  | pubScan =>
    simp only [step] at h
    split at h
    · rename_i hp
      split at h
      · simp only [Option.some.injEq] at h
        subst h
        simp [stepsLeft, hp, PublisherPC.weight]
      · rename_i link rest hin
        simp only [Option.some.injEq] at h
        subst h
        simp only [stepsLeft, hp, hin, PublisherPC.weight, List.length_cons]
        omega
    · cases h
  | pubPush =>
    simp only [step] at h
    split at h
    · rename_i link hp
      split at h
      · simp only [Option.some.injEq] at h
        subst h
        simp only [stepsLeft, hp, PublisherPC.weight, List.length_append, List.length_singleton]
        omega
      · cases h
    · cases h
  | workerDone i =>
    simp only [step] at h
    split at h
    · rename_i hw
      split at h
      · simp only [Option.some.injEq] at h
        subst h
        have := weight_sum_set s.workers i .select .exited hw
        simp only [stepsLeft, WorkerPC.weight] at this ⊢
        omega
      · cases h
    · cases h
  | workerRecv i =>
    simp only [step] at h
    split at h
    · rename_i hw
      split at h
      · rename_i source rest hq
        simp only [Option.some.injEq] at h
        subst h
        have := weight_sum_set s.workers i .select (.crawl source) hw
        simp only [stepsLeft, WorkerPC.weight, hq, List.length_cons] at this ⊢
        omega
      · split at h
        · simp only [Option.some.injEq] at h
          subst h
          have := weight_sum_set s.workers i .select .exited hw
          simp only [stepsLeft, WorkerPC.weight] at this ⊢
          omega
        · cases h
    · cases h
  | crawled i =>
    simp only [step] at h
    split at h
    · rename_i source hw
      simp only [Option.some.injEq] at h
      subst h
      have := weight_sum_set s.workers i (.crawl source) (.send source) hw
      simp only [stepsLeft, WorkerPC.weight] at this ⊢
      omega
    · cases h
  | workerSend i =>
    simp only [step] at h
    split at h
    · rename_i source hw
      simp only [Option.some.injEq] at h
      subst h
      have := weight_sum_set s.workers i (.send source) .select hw
      simp only [stepsLeft, WorkerPC.weight] at this ⊢
      omega
    · cases h
  | closeResults =>
    simp only [step] at h
    split at h
    · rename_i hg
      simp only [Option.some.injEq] at h
      subst h
      simp [stepsLeft, hg.1]
    · cases h

theorem stepsLeft_run (sched : List Action) :
    ∀ s t : State, Action.cancel ∉ sched → run s sched = some t →
      sched.length + stepsLeft t ≤ stepsLeft s := by
  induction sched with
  | nil =>
    intro s t _ h
    simp only [run, Option.some.injEq] at h
    subst h
    simp
  | cons a rest ih =>
    intro s t hnc h
    simp only [run] at h
    cases hst : step s a with
    | none => rw [hst] at h; cases h
    | some u =>
      rw [hst] at h
      have ha : a ≠ .cancel := fun e => hnc (by rw [e]; exact List.mem_cons_self _ _)
      have h1 := stepsLeft_step s u a ha hst
      have h2 := ih u t (fun hm => hnc (List.mem_cons_of_mem _ hm)) h
      simp only [List.length_cons]
      omega

theorem progress (n : Nat) (lines : List String) (s : State) (hs : Inv n lines s)
    (hn : 1 ≤ n) (hrc : s.resultsClosed = false) :
    ∃ a t, a ≠ Action.cancel ∧ step s a = some t := by
  by_cases hall : ∀ w ∈ s.workers, w = .exited
  · refine ⟨.closeResults, { s with resultsClosed := true }, by simp, ?_⟩
    have : s.workers.all (fun w => decide (w = .exited)) = true := by
      rw [List.all_eq_true]
      intro w hw
      simpa using hall w hw
    simp [step, hrc, this]
  · simp only [not_forall] at hall
    obtain ⟨w, hw, hne⟩ := hall
    obtain ⟨i, hi⟩ := List.mem_iff_getElem?.1 hw
    cases w with
    | exited => exact absurd rfl hne
    | crawl source =>
      exact ⟨.crawled i, { s with workers := s.workers.set i (.send source) }, by simp,
        by simp [step, hi]⟩
    | send source =>
      exact ⟨.workerSend i,
        { s with workers := s.workers.set i .select, results := s.results ++ [source] },
        by simp, by simp [step, hi]⟩
    | select =>
      cases hq : s.linksCh with
      | cons source rest =>
        exact ⟨.workerRecv i,
          { s with
            linksCh := rest
            workers := s.workers.set i (.crawl source)
            started := s.started ++ [source] }, by simp, by simp [step, hi, hq]⟩
      | nil =>
        cases hcl : s.linksClosed with
        | true =>
          exact ⟨.workerRecv i, { s with workers := s.workers.set i .exited }, by simp,
            by simp [step, hi, hq, hcl]⟩
        | false =>
          cases hp : s.publisher with
          | check =>
            exact ⟨.pubCheck, { s with publisher := .scan }, by simp,
              by simp [step, hp, hs.notCanceled]⟩
          | scan =>
            cases hin : s.input with
            | nil =>
              exact ⟨.pubScan, { s with publisher := .done, linksClosed := true }, by simp,
                by simp [step, hp, hin]⟩
            | cons link rest =>
              exact ⟨.pubScan, { s with publisher := .push link, input := rest }, by simp,
                by simp [step, hp, hin]⟩
          | push link =>
            have hroom : s.linksCh.length < s.bufSize := by
              rw [hq, hs.capacity]
              simp only [List.length_nil]
              omega
            exact ⟨.pubPush, { s with publisher := .check, linksCh := s.linksCh ++ [link] },
              by simp, by simp [step, hp, hroom]⟩
          | done =>
            have := hs.closedIff.2 hp
            rw [hcl] at this
            cases this

theorem completes (n : Nat) (lines : List String) (hn : 1 ≤ n) :
    ∀ (k : Nat) (s : State), stepsLeft s ≤ k → Inv n lines s →
      ∃ sched t, Action.cancel ∉ sched ∧ run s sched = some t ∧ t.resultsClosed = true := by
  intro k
  induction k with
  | zero =>
    intro s hk hs
    cases hrc : s.resultsClosed with
    | true => exact ⟨[], s, by simp, rfl, hrc⟩
    | false =>
      obtain ⟨a, t, ha, hst⟩ := progress n lines s hs hn hrc
      have := stepsLeft_step s t a ha hst
      omega
  | succ k ih =>
    intro s hk hs
    cases hrc : s.resultsClosed with
    | true => exact ⟨[], s, by simp, rfl, hrc⟩
    | false =>
      obtain ⟨a, t, ha, hst⟩ := progress n lines s hs hn hrc
      have hlt := stepsLeft_step s t a ha hst
      obtain ⟨sched, u, hnc, hrun, hu⟩ :=
        ih t (by omega) (inv_step n lines s t a hs ha hst)
      refine ⟨a :: sched, u, ?_, ?_, hu⟩
      · intro hm
        rcases List.mem_cons.1 hm with h | h
        · exact ha h.symm
        · exact hnc h
      · simp only [run, hst]
        exact hrun

theorem inv_closed (n : Nat) (lines : List String) (s : State) (hs : Inv n lines s)
    (hn : 1 ≤ n) (hrc : s.resultsClosed = true) :
    (∀ w ∈ s.workers, w = .exited) ∧ s.started.Perm lines ∧ s.results.Perm lines := by
  have hall := hs.closedAfter hrc
  have hne : s.workers ≠ [] := by
    intro h
    have := hs.numWorkers
    rw [h] at this
    simp only [List.length_nil] at this
    omega
  obtain ⟨w, hw⟩ := List.exists_mem_of_ne_nil _ hne
  have hex : WorkerPC.exited ∈ s.workers := by
    have := hall w hw
    rw [this] at hw
    exact hw
  obtain ⟨hcl, hq⟩ := hs.exitedAfter hex
  have hp := hs.closedIff.1 hcl
  have hin := hs.doneInput hp
  have hfl := inflight_all_exited s.workers hall
  refine ⟨hall, ?_, ?_⟩
  · rw [List.perm_iff_count]
    intro x
    have h1 := hs.conserve x
    have h2 := hs.startedOnce x
    simp only [hfl, hq, hp, hin, PublisherPC.held, List.count_nil] at h1 h2
    omega
  · rw [List.perm_iff_count]
    intro x
    have h1 := hs.conserve x
    simp only [hfl, hq, hp, hin, PublisherPC.held, List.count_nil] at h1
    omega

/-- C27. For every number of workers from 1 on, so for each of 1 to 24, and every input,
in every run in which the context is not cancelled: at any time the sources of the crawl
cycles started, the sources in the channel, the line the publisher holds and the lines not yet
read are together the lines of the input, so no source is crawled twice; once the channel of
the results is closed, every worker has returned, the crawl cycles started are the lines of the
input, each once, and so are the results received, as many as lines.  The run has at most
`stepsLeft` steps, and it can always be continued, without cancellation, up to the close of the
channel of the results. -/
theorem CrawLinks_each_source_once (n : Nat) (lines : List String) (sched : List Action)
    (s : State) (hn : 1 ≤ n) (hnc : Action.cancel ∉ sched)
    (hrun : run (init n lines) sched = some s) :
    (s.started ++ s.linksCh ++ s.publisher.held ++ s.input).Perm lines ∧
      (s.resultsClosed = true →
        (∀ w ∈ s.workers, w = .exited) ∧ s.started.Perm lines ∧ s.results.Perm lines ∧
          s.results.length = lines.length) ∧
      sched.length + stepsLeft s ≤ stepsLeft (init n lines) ∧
      ∃ more t, Action.cancel ∉ more ∧ run s more = some t ∧ t.resultsClosed = true := by
  have hs := inv_run n lines sched (init n lines) s (inv_init n lines) hnc hrun
  have hperm : (s.started ++ s.linksCh ++ s.publisher.held ++ s.input).Perm lines := by
    rw [List.perm_iff_count]
    intro x
    have h1 := hs.conserve x
    have h2 := hs.startedOnce x
    simp only [List.count_append]
    omega
  refine ⟨hperm, ?_,
    stepsLeft_run sched _ s hnc hrun, completes n lines hn (stepsLeft s) s (Nat.le_refl _) hs⟩
  intro hrc
  obtain ⟨h1, h2, h3⟩ := inv_closed n lines s hs hn hrc
  exact ⟨h1, h2, h3, h3.length_eq⟩

end pipeline

namespace pipeline

/-- Witness of C27: two workers, two lines, a run without cancellation to the close of the
channel of the results. -/
theorem CrawLinks_each_source_once_witness :
    run (init 2 ["a", "b"]) twoWorkersSchedule = some twoWorkersEnd ∧
      twoWorkersEnd.started.Perm ["a", "b"] ∧ twoWorkersEnd.results.Perm ["a", "b"] ∧
      twoWorkersEnd.results.length = 2 :=
  ⟨rfl,
    ((CrawLinks_each_source_once 2 ["a", "b"] twoWorkersSchedule twoWorkersEnd (by decide)
      (by decide) rfl).2.1 rfl).2⟩

/-- Evaluation for C28 (the claim fails on the code).  One worker, the lines `a`, `b`, `c`.
The context is cancelled when `a` is in the channel and the publisher has passed its `select`
and scanned `b`.  After the cancellation the publisher still sends `b`, and the worker, whose
`select` has both cases ready, takes the case of the channel twice: it starts the crawl cycle
of `a` and, after its result, the crawl cycle of `b`. -/
theorem run_after_cancel :
    run (init 1 ["a", "b", "c"])
        [.pubCheck, .pubScan, .pubPush, .pubCheck, .pubScan, .cancel] = some atCancel ∧
      atCancel.canceled = true ∧
      step atCancel .pubPush =
        some { atCancel with publisher := .check, linksCh := ["a", "b"] } ∧
      run atCancel [.pubPush, .workerRecv 0, .crawled 0, .workerSend 0, .workerRecv 0] =
        some { atCancel with
          publisher := .check
          linksCh := []
          workers := [.crawl "b"]
          started := ["a", "b"]
          results := ["a"] } ∧
      step { atCancel with publisher := .check, linksCh := ["a", "b"] } (.workerDone 0) =
        some { atCancel with publisher := .check, linksCh := ["a", "b"], workers := [.exited] } :=
  ⟨rfl, rfl, rfl, rfl, rfl⟩

end pipeline
